import Mathlib

/-!
Verification of the ray-tracing core of the `ray-tracing` crate
(BVH construction and traversal, geometry intersection, materials,
path-tracing integrator).

The Rust code computes with `f64`.  We embed it with an idealized float
type `FP`: exact rationals extended with `+∞`, `-∞` and `NaN`, with the
IEEE-754 rules for the special values but no rounding and no negative
zero.  Transcendental operations (`sqrt`, `powf`, `ln`, `acos`/`atan2`,
and the random draws) are not rational-valued; they enter the embedding
as explicit function/oracle parameters, so every theorem quantifies over
them (or fixes them at points where the IEEE value is exact).

The `Hittable`/`Material` trait objects (`Arc<dyn Hittable>`,
`Arc<dyn Material>`) are embedded as function values, mirroring dynamic
dispatch; each concrete variant's `hit`/`scatter`/`bounding_box` body is
translated as its own Lean function.
-/

namespace RTW

/-- Idealized IEEE double: exact rationals plus `±∞` and `NaN`.
`inf true` is `+∞`, `inf false` is `-∞`.  Negative zero is not
modelled (the code never branches on the sign of zero except through
`1.0/dir` in the slab test, where only literal `-0.0` inputs would
differ). -/
inductive FP where
  | nan : FP
  | inf : Bool → FP
  | fin : ℚ → FP
deriving DecidableEq, Repr

namespace FP

/-- IEEE `<` as a boolean: any comparison with NaN is false. -/
def lt : FP → FP → Bool
  | .nan, _ => false
  | _, .nan => false
  | .fin a, .fin b => decide (a < b)
  | .fin _, .inf b => b
  | .inf a, .fin _ => !a
  | .inf a, .inf b => !a && b

/-- IEEE `<=` as a boolean: any comparison with NaN is false. -/
def le : FP → FP → Bool
  | .nan, _ => false
  | _, .nan => false
  | .fin a, .fin b => decide (a ≤ b)
  | .fin _, .inf b => b
  | .inf a, .fin _ => !a
  | .inf a, .inf b => !a || b

def isNan : FP → Bool
  | .nan => true
  | _ => false

def neg : FP → FP
  | .nan => .nan
  | .inf b => .inf !b
  | .fin q => .fin (-q)

def add : FP → FP → FP
  | .nan, _ => .nan
  | _, .nan => .nan
  | .inf a, .inf b => if a = b then .inf a else .nan
  | .inf a, .fin _ => .inf a
  | .fin _, .inf b => .inf b
  | .fin a, .fin b => .fin (a + b)

/-- IEEE subtraction is addition of the negation (exact here). -/
def sub (x y : FP) : FP := add x (neg y)

def mul : FP → FP → FP
  | .nan, _ => .nan
  | _, .nan => .nan
  | .inf a, .inf b => .inf (a == b)
  | .inf a, .fin q => if q = 0 then .nan else .inf (a == decide (0 < q))
  | .fin q, .inf b => if q = 0 then .nan else .inf (b == decide (0 < q))
  | .fin a, .fin b => .fin (a * b)

def div : FP → FP → FP
  | .nan, _ => .nan
  | _, .nan => .nan
  | .inf _, .inf _ => .nan
  | .inf a, .fin q => .inf (a == decide (0 ≤ q))
  | .fin _, .inf _ => .fin 0
  | .fin a, .fin b =>
      if b = 0 then (if a = 0 then .nan else .inf (decide (0 < a)))
      else .fin (a / b)

/-- Rust `f64::max`: returns the other argument when one is NaN. -/
def fmax (x y : FP) : FP :=
  if x = .nan then y else if y = .nan then x else if lt x y then y else x

/-- Rust `f64::min`: returns the other argument when one is NaN. -/
def fmin (x y : FP) : FP :=
  if x = .nan then y else if y = .nan then x else if lt y x then y else x

/-- Rust `f64::partial_cmp`: `none` exactly when a NaN is involved;
`±∞` compares normally. -/
def fcmp : FP → FP → Option Ordering
  | .nan, _ => none
  | _, .nan => none
  | x, y => if lt x y then some .lt else if x = y then some .eq else some .gt

def abs : FP → FP
  | .nan => .nan
  | .inf _ => .inf true
  | .fin q => .fin |q|

/-- `x.powf(n as f64)` for a natural exponent, idealized as repeated
exact multiplication (IEEE `powf` agrees on the special values used
here: `powf(nan,_) = nan`, `powf(±∞,2|5)` keeps the sign rules). -/
def powNat (x : FP) : ℕ → FP
  | 0 => .fin 1
  | n + 1 => mul (powNat x n) x

end FP

/-- `CVec<f64, 3>`: a three-component vector (also `Point` / `Color`). -/
structure Vec3 where
  x : FP
  y : FP
  z : FP
deriving DecidableEq, Repr

namespace Vec3

def zeros : Vec3 := ⟨.fin 0, .fin 0, .fin 0⟩

def ones : Vec3 := ⟨.fin 1, .fin 1, .fin 1⟩

/-- `data()[i]` access; the code only uses indices 0..2. -/
def nth (v : Vec3) : ℕ → FP
  | 0 => v.x
  | 1 => v.y
  | _ => v.z

/-- Componentwise `Add for CVec`. -/
def add (a b : Vec3) : Vec3 := ⟨FP.add a.x b.x, FP.add a.y b.y, FP.add a.z b.z⟩

/-- Componentwise `Sub for CVec`. -/
def sub (a b : Vec3) : Vec3 := ⟨FP.sub a.x b.x, FP.sub a.y b.y, FP.sub a.z b.z⟩

/-- `Mul<T> for CVec`: vector times scalar, componentwise. -/
def smul (a : Vec3) (t : FP) : Vec3 := ⟨FP.mul a.x t, FP.mul a.y t, FP.mul a.z t⟩

/-- `Neg for CVec` is implemented as `self * (-1)`. -/
def neg (a : Vec3) : Vec3 := smul a (.fin (-1))

/-- Componentwise `Mul<Self> for CVec` (color modulation). -/
def cmul (a b : Vec3) : Vec3 := ⟨FP.mul a.x b.x, FP.mul a.y b.y, FP.mul a.z b.z⟩

/-- `Div<T> for CVec` is implemented as `self * (1/rhs)`. -/
def sdiv (a : Vec3) (t : FP) : Vec3 := smul a (FP.div (.fin 1) t)

/-- `CVec::dot`: zip-multiply then left fold of `+`. -/
def dot (a b : Vec3) : FP :=
  FP.add (FP.add (FP.mul a.x b.x) (FP.mul a.y b.y)) (FP.mul a.z b.z)

/-- `CVec::length_squared`: starts from `0` and accumulates squares. -/
def lengthSq (a : Vec3) : FP :=
  FP.add (FP.add (FP.add (.fin 0) (FP.mul a.x a.x)) (FP.mul a.y a.y)) (FP.mul a.z a.z)

/-- `CVec::reflect`: `v - n * 2 * dot(v, n)`. -/
def reflect (v n : Vec3) : Vec3 :=
  sub v (smul (smul n (.fin 2)) (dot v n))

/-- No component is NaN or infinite. -/
def Finite (v : Vec3) : Prop := (∃ a, v.x = .fin a) ∧ (∃ b, v.y = .fin b) ∧ (∃ c, v.z = .fin c)

end Vec3

/-- `Ray { orig, dir, tm }`. -/
structure Ray where
  orig : Vec3
  dir : Vec3
  tm : FP
deriving DecidableEq, Repr

namespace Ray

/-- `Ray::at`: `orig + t * dir` (scalar-times-vector delegates to
`dir * t`).  Named `at'` because `at` is a Lean keyword. -/
def at' (r : Ray) (t : FP) : Vec3 := Vec3.add r.orig (Vec3.smul r.dir t)

end Ray

/-- `Aabb { minimum, maximum }`. -/
structure Aabb where
  minimum : Vec3
  maximum : Vec3
deriving DecidableEq, Repr

namespace Aabb

/-- One iteration of the slab loop in `Aabb::hit`: narrows the running
interval for one axis, or reports an early `false` (`none`). -/
def axisHit (mn mx org dir tmin tmax : FP) : Option (FP × FP) :=
  let invD := FP.div (.fin 1) dir
  let t0 := FP.mul (FP.sub mn org) invD
  let t1 := FP.mul (FP.sub mx org) invD
  let p := if FP.lt invD (.fin 0) then (t1, t0) else (t0, t1)
  let tmin' := FP.fmax p.1 tmin
  let tmax' := FP.fmin p.2 tmax
  if FP.le tmax' tmin' then none else some (tmin', tmax')

/-- `Aabb::hit`: the three-axis slab test with early exit. -/
def hit (b : Aabb) (r : Ray) (tmin tmax : FP) : Bool :=
  match axisHit (b.minimum.nth 0) (b.maximum.nth 0) (r.orig.nth 0) (r.dir.nth 0) tmin tmax with
  | none => false
  | some (m1, M1) =>
    match axisHit (b.minimum.nth 1) (b.maximum.nth 1) (r.orig.nth 1) (r.dir.nth 1) m1 M1 with
    | none => false
    | some (m2, M2) =>
      match axisHit (b.minimum.nth 2) (b.maximum.nth 2) (r.orig.nth 2) (r.dir.nth 2) m2 M2 with
      | none => false
      | some _ => true

/-- `Aabb::surrounding_box`: componentwise `f64::min` of minima and
`f64::max` of maxima. -/
def surrounding_box (b0 b1 : Aabb) : Aabb :=
  { minimum := ⟨FP.fmin b0.minimum.x b1.minimum.x,
                FP.fmin b0.minimum.y b1.minimum.y,
                FP.fmin b0.minimum.z b1.minimum.z⟩,
    maximum := ⟨FP.fmax b0.maximum.x b1.maximum.x,
                FP.fmax b0.maximum.y b1.maximum.y,
                FP.fmax b0.maximum.z b1.maximum.z⟩ }

/-- All six corner coordinates are non-NaN. -/
def NoNan (b : Aabb) : Prop :=
  b.minimum.x ≠ .nan ∧ b.minimum.y ≠ .nan ∧ b.minimum.z ≠ .nan ∧
  b.maximum.x ≠ .nan ∧ b.maximum.y ≠ .nan ∧ b.maximum.z ≠ .nan

end Aabb

/-- The part of `HitRecord` that a `Material::scatter` implementation
reads (everything except the material reference itself; no material in
the source reads `rec.mat`, which breaks the Rust-side reference cycle
in this embedding). -/
structure ScatterIn where
  p : Vec3
  normal : Vec3
  t : FP
  u : FP
  v : FP
  front_face : Bool

/-- `Arc<dyn Material>`: dynamic dispatch embedded as function values.
Randomness drawn inside a concrete material is a parameter of the value
constructed for it. -/
structure Material where
  scatter : Ray → ScatterIn → Option (Vec3 × Ray)
  emitted : FP → FP → Vec3 → Vec3

/-- `HitRecord` (`InnerHitRecord`): the result of a successful
intersection. -/
structure HitRec where
  p : Vec3
  normal : Vec3
  mat : Option Material
  t : FP
  u : FP
  v : FP
  front_face : Bool

namespace HitRec

/-- `HitRecord::default()`. -/
def default : HitRec :=
  { p := Vec3.zeros, normal := Vec3.zeros, mat := none,
    t := .fin 0, u := .fin 0, v := .fin 0, front_face := false }

def toScatterIn (rec : HitRec) : ScatterIn :=
  { p := rec.p, normal := rec.normal, t := rec.t, u := rec.u, v := rec.v,
    front_face := rec.front_face }

end HitRec

/-- `HitRecord::set_face_normal`. -/
def set_face_normal (rec : HitRec) (r : Ray) (outward : Vec3) : HitRec :=
  let ff := FP.lt (Vec3.dot r.dir outward) (.fin 0)
  { rec with front_face := ff, normal := if ff then outward else Vec3.neg outward }

/-- The shape of `Hittable::hit` (after the `Option`-returning trait in
`hittable.rs`; the `&mut HitRecord`-and-`bool` bodies elsewhere in the
tree are observationally this function for callers that read the record
only after a `true` return). -/
abbrev HitFun := Ray → FP → FP → Option HitRec

/-- `Sphere::hit`.  `sq` is the `f64::sqrt` oracle; `uv` models
`get_sphere_uv` (acos/atan2-based, not rational-valued). -/
def sphereHit (sq : FP → FP) (uv : Vec3 → FP × FP) (center : Vec3) (radius : FP)
    (mat : Material) : HitFun := fun r tmin tmax =>
  let oc := Vec3.sub r.orig center
  let a := Vec3.lengthSq r.dir
  let half_b := Vec3.dot oc r.dir
  let c := FP.sub (Vec3.lengthSq oc) (FP.mul radius radius)
  let disc := FP.sub (FP.mul half_b half_b) (FP.mul a c)
  if FP.lt disc (.fin 0) then none else
  let sqrtd := sq disc
  let mk : FP → HitRec := fun root =>
    let p := r.at' root
    let outward := Vec3.sdiv (Vec3.sub p center) radius
    let rec0 := set_face_normal { HitRec.default with t := root, p := p } r outward
    let t := uv outward
    { rec0 with u := t.1, v := t.2, mat := some mat }
  let root := FP.div (FP.sub (FP.neg half_b) sqrtd) a
  if FP.lt root tmin || FP.lt tmax root then
    let root := FP.div (FP.add (FP.neg half_b) sqrtd) a
    if FP.lt root tmin || FP.lt tmax root then none else some (mk root)
  else some (mk root)

/-- `MovingSphere::center(time)`. -/
def movingCenter (c0 c1 : Vec3) (time0 time1 : FP) (time : FP) : Vec3 :=
  Vec3.add c0 (Vec3.smul (Vec3.sub c1 c0)
    (FP.div (FP.sub time time0) (FP.sub time1 time0)))

/-- `MovingSphere::hit` (sets no `u`/`v`). -/
def movingSphereHit (sq : FP → FP) (c0 c1 : Vec3) (time0 time1 : FP) (radius : FP)
    (mat : Material) : HitFun := fun r tmin tmax =>
  let oc := Vec3.sub r.orig (movingCenter c0 c1 time0 time1 r.tm)
  let a := Vec3.lengthSq r.dir
  let half_b := Vec3.dot oc r.dir
  let c := FP.sub (Vec3.lengthSq oc) (FP.mul radius radius)
  let disc := FP.sub (FP.mul half_b half_b) (FP.mul a c)
  if FP.lt disc (.fin 0) then none else
  let sqrtd := sq disc
  let mk : FP → HitRec := fun root =>
    let p := r.at' root
    let outward := Vec3.sdiv (Vec3.sub p (movingCenter c0 c1 time0 time1 r.tm)) radius
    let rec0 := set_face_normal { HitRec.default with t := root, p := p } r outward
    { rec0 with mat := some mat }
  let root := FP.div (FP.sub (FP.neg half_b) sqrtd) a
  if FP.lt root tmin || FP.lt tmax root then
    let root := FP.div (FP.add (FP.neg half_b) sqrtd) a
    if FP.lt root tmin || FP.lt tmax root then none else some (mk root)
  else some (mk root)

/-- The shared out-of-bounds test of the rectangle hits:
`val < min || max < val`. -/
def rectOut (val mn mx : FP) : Bool := FP.lt val mn || FP.lt mx val

/-- `rect::XY::hit` (flat axis `z = k`). -/
def rectXYHit (mat : Material) (x0 x1 y0 y1 k : FP) : HitFun := fun r tmin tmax =>
  let t := FP.div (FP.sub k r.orig.z) r.dir.z
  if rectOut t tmin tmax then none else
  let x := FP.add r.orig.x (FP.mul t r.dir.x)
  let y := FP.add r.orig.y (FP.mul t r.dir.y)
  if rectOut x x0 x1 || rectOut y y0 y1 then none else
  let rec0 : HitRec :=
    { HitRec.default with
        u := FP.div (FP.sub x x0) (FP.sub x1 x0),
        v := FP.div (FP.sub y y0) (FP.sub y1 y0),
        t := t }
  let rec1 := set_face_normal rec0 r ⟨.fin 0, .fin 0, .fin 1⟩
  some { rec1 with mat := some mat, p := r.at' t }

/-- `rect::XZ::hit` (flat axis `y = k`). -/
def rectXZHit (mat : Material) (x0 x1 z0 z1 k : FP) : HitFun := fun r tmin tmax =>
  let t := FP.div (FP.sub k r.orig.y) r.dir.y
  if rectOut t tmin tmax then none else
  let x := FP.add r.orig.x (FP.mul t r.dir.x)
  let z := FP.add r.orig.z (FP.mul t r.dir.z)
  if rectOut x x0 x1 || rectOut z z0 z1 then none else
  let rec0 : HitRec :=
    { HitRec.default with
        u := FP.div (FP.sub x x0) (FP.sub x1 x0),
        v := FP.div (FP.sub z z0) (FP.sub z1 z0),
        t := t }
  let rec1 := set_face_normal rec0 r ⟨.fin 0, .fin 1, .fin 0⟩
  some { rec1 with mat := some mat, p := r.at' t }

/-- `rect::YZ::hit` (flat axis `x = k`). -/
def rectYZHit (mat : Material) (y0 y1 z0 z1 k : FP) : HitFun := fun r tmin tmax =>
  let t := FP.div (FP.sub k r.orig.x) r.dir.x
  if rectOut t tmin tmax then none else
  let y := FP.add r.orig.y (FP.mul t r.dir.y)
  let z := FP.add r.orig.z (FP.mul t r.dir.z)
  if rectOut y y0 y1 || rectOut z z0 z1 then none else
  let rec0 : HitRec :=
    { HitRec.default with
        u := FP.div (FP.sub y y0) (FP.sub y1 y0),
        v := FP.div (FP.sub z z0) (FP.sub z1 z0),
        t := t }
  let rec1 := set_face_normal rec0 r ⟨.fin 1, .fin 0, .fin 0⟩
  some { rec1 with mat := some mat, p := r.at' t }

/-- The loop body of `HittableList::hit`: fold over the objects,
narrowing `closest_so_far` to each accepted hit's `t`. -/
def listHitGo (r : Ray) (tmin : FP) : List HitFun → FP → Option HitRec → Option HitRec
  | [], _, res => res
  | f :: fs, closest, res =>
    match f r tmin closest with
    | some rec => listHitGo r tmin fs rec.t (some rec)
    | none => listHitGo r tmin fs closest res

/-- `HittableList::hit`. -/
def listHit (fs : List HitFun) : HitFun := fun r tmin tmax =>
  listHitGo r tmin fs tmax none

/-- The six rectangle sides built by `Cube::new` (in construction
order), and `Cube::hit` delegating to the list. -/
def cubeSides (mat : Material) (p0 p1 : Vec3) : List HitFun :=
  [ rectXYHit mat p0.x p1.x p0.y p1.y p0.z,
    rectXZHit mat p0.x p1.x p0.z p1.z p0.y,
    rectYZHit mat p0.y p1.y p0.z p1.z p0.x,
    rectXYHit mat p0.x p1.x p0.y p1.y p1.z,
    rectXZHit mat p0.x p1.x p0.z p1.z p1.y,
    rectYZHit mat p0.y p1.y p0.z p1.z p1.x ]

def cubeHit (mat : Material) (p0 p1 : Vec3) : HitFun :=
  listHit (cubeSides mat p0 p1)

/-- `Translate::hit`. -/
def translateHit (child : HitFun) (offset : Vec3) : HitFun := fun r tmin tmax =>
  let moved : Ray := ⟨Vec3.sub r.orig offset, r.dir, r.tm⟩
  (child moved tmin tmax).map fun rec0 =>
    let rec1 := { rec0 with p := Vec3.add rec0.p offset }
    set_face_normal rec1 moved rec1.normal

/-- The in-rotation of `RotateY::hit` (applied to origin and
direction): `x' = cos*x - sin*z`, `z' = sin*x + cos*z`. -/
def rotIn (sinT cosT : FP) (v : Vec3) : Vec3 :=
  ⟨FP.sub (FP.mul cosT v.x) (FP.mul sinT v.z), v.y,
   FP.add (FP.mul sinT v.x) (FP.mul cosT v.z)⟩

/-- The out-rotation of `RotateY::hit` (applied to hit point and
normal): `x' = cos*x + sin*z`, `z' = -sin*x + cos*z`. -/
def rotOut (sinT cosT : FP) (v : Vec3) : Vec3 :=
  ⟨FP.add (FP.mul cosT v.x) (FP.mul sinT v.z), v.y,
   FP.add (FP.mul (FP.neg sinT) v.x) (FP.mul cosT v.z)⟩

/-- `RotateY::hit`. -/
def rotateYHit (child : HitFun) (sinT cosT : FP) : HitFun := fun r tmin tmax =>
  let rotated : Ray := ⟨rotIn sinT cosT r.orig, rotIn sinT cosT r.dir, r.tm⟩
  (child rotated tmin tmax).map fun rec0 =>
    let p := rotOut sinT cosT rec0.p
    let normal := rotOut sinT cosT rec0.normal
    set_face_normal { rec0 with p := p } rotated normal

/-- `Constant::hit` (constant-density medium).  `ξ` is the oracle value
of `f64::ln(rand_range(0.0..1.0))` for this scattering decision (real
such draws lie in `[-∞, 0)`); `sq` is the `f64::sqrt` oracle used by
`direction().length()`. -/
def mediumHit (boundary : HitFun) (negInvDensity : FP) (phase : Material)
    (sq : FP → FP) (ξ : FP) : HitFun := fun r tmin tmax =>
  match boundary r (.inf false) (.inf true) with
  | none => none
  | some rec1 =>
    match boundary r (FP.add rec1.t (.fin (1/1000))) (.inf true) with
    | none => none
    | some rec2 =>
      let t1 := FP.fmax rec1.t tmin
      let t2 := FP.fmin rec2.t tmax
      if FP.le t2 t1 then none else
      let t1 := FP.fmax t1 (.fin 0)
      let ray_length := sq (Vec3.lengthSq r.dir)
      let dist := FP.mul (FP.sub t2 t1) ray_length
      let hit_distance := FP.mul negInvDensity ξ
      if FP.lt dist hit_distance then none else
      let t := FP.add t1 (FP.div hit_distance ray_length)
      some { p := r.at' t, normal := ⟨.fin 1, .fin 0, .fin 0⟩,
             mat := some phase, t := t, u := .fin 0, v := .fin 0,
             front_face := true }

/-- `BvhNode::hit` given the two child dispatch functions and the
cached box: prune on the box, test left, narrow the upper bound to the
left hit's `t`, test right, return the right hit if any else the left. -/
def bvhNodeHit (leftHit rightHit : HitFun) (ibox : Aabb) : HitFun := fun r tmin tmax =>
  if !(ibox.hit r tmin tmax) then none else
  match leftHit r tmin tmax with
  | some recL =>
    match rightHit r tmin recL.t with
    | some recR => some recR
    | none => some recL
  | none => rightHit r tmin tmax

/-- `ray_color` from `run.rs`.  Returns `none` when the
`rec.mat.as_ref().expect(..)` panic would fire (a reported hit without
a material), `some color` otherwise.  Structural recursion on `depth`
is the termination argument the code relies on. -/
def ray_color (world : HitFun) (background : Vec3) : Ray → ℕ → Option Vec3
  | _, 0 => some Vec3.zeros
  | r, Nat.succ depth =>
    match world r (.fin (1/1000)) (.inf true) with
    | none => some background
    | some rec =>
      match rec.mat with
      | none => none
      | some mat =>
        let emitted := mat.emitted rec.u rec.v rec.p
        match mat.scatter r rec.toScatterIn with
        | none => some emitted
        | some (attenuation, scattered) =>
          (ray_color world background scattered depth).map
            (fun c => Vec3.add emitted (Vec3.cmul attenuation c))

/-- Modelled from the spec: `clamp` lives in the missing
`rtweekend.rs`; §4.5 prescribes "clamp to `[0, 0.999]`", embedded as
the standard clamp (below `min` gives `min`, above `max` gives `max`,
NaN propagates as in the book's `if`-based clamp). -/
def clamp (x mn mx : FP) : FP :=
  if FP.lt x mn then mn else if FP.lt mx x then mx else x

/-- The `Config` fields the render loop reads (`aspect_ratio` only
feeds `image_height` at construction time and is dropped here). -/
structure Config where
  image_width : ℕ
  image_height : ℕ
  samples_per_pixel : ℕ
  max_depth : ℕ
  gamma : FP
  background : Vec3

/-- `fix_pixel_val` from `Runner::irun`: divide by the sample count,
gamma-correct, clamp to `[0, 0.999]`, scale by 256.  `pw` is the
`f64::powf` oracle. -/
def fix_pixel_val (pw : FP → FP → FP) (samples : ℕ) (gamma : FP) (v : FP) : FP :=
  let fix_scale := FP.div (.fin 1) (.fin (samples : ℚ))
  let v := pw (FP.mul fix_scale v) (FP.div (.fin 1) gamma)
  let c := clamp v (.fin 0) (.fin (999/1000))
  FP.mul (.fin 256) c

/-- `fix_pixel`: apply `fix_pixel_val` to each channel. -/
def fix_pixel (pw : FP → FP → FP) (samples : ℕ) (gamma : FP) (p : Vec3) : Vec3 :=
  ⟨fix_pixel_val pw samples gamma p.x,
   fix_pixel_val pw samples gamma p.y,
   fix_pixel_val pw samples gamma p.z⟩

/-- The `calc` closure of `Runner::irun`:
`((o as f64) + rand_range(0.0..1.0)) / (l - 1) as f64`.  `jit` is the
oracle for this draw. -/
def calcUV (o : ℕ) (l : ℕ) (jit : FP) : FP :=
  FP.div (FP.add (.fin (o : ℚ)) jit) (.fin ((l : ℚ) - 1))

/-- One pixel of `Runner::irun`: `samples_per_pixel` jittered camera
rays, summed by `reduce(acc + v)` (whose `expect` fires on zero
samples), then tone-mapped.  `cam` is the external `Camera::get_ray`
(modelled from the spec: camera.rs is not in the tree; §6 only requires
`get_ray(u, v) -> Ray`); `jit s w` is the jitter oracle for sample `s`
(`w = false` for the `v` draw, made first, `w = true` for `u`).
Errors model panics. -/
def samplePixel (world : HitFun) (conf : Config) (cam : FP → FP → Ray)
    (jit : ℕ → Bool → FP) (pw : FP → FP → FP) (i j : ℕ) : Except String Vec3 := do
  let colors ← (List.range conf.samples_per_pixel).mapM (fun s => do
    let v := calcUV j conf.image_height (jit s false)
    let u := calcUV i conf.image_width (jit s true)
    let r := cam u v
    match ray_color world conf.background r conf.max_depth with
    | some c => Except.ok c
    | none => Except.error "at this point the rec should have a inner material")
  match colors with
  | [] => Except.error "This iteration should never yield a None"
  | c :: cs => Except.ok (fix_pixel pw conf.samples_per_pixel conf.gamma (cs.foldl Vec3.add c))

/-- `Runner::irun`: rows processed in reverse row order (`j` from
`height-1` down to `0`), pixels left to right, flattened row-major.
The jitter oracle takes `(i, j, sample, which)`. -/
def irun (world : HitFun) (conf : Config) (cam : FP → FP → Ray)
    (jit : ℕ → ℕ → ℕ → Bool → FP) (pw : FP → FP → FP) : Except String (List Vec3) := do
  let rows ← (List.range conf.image_height).reverse.mapM (fun j =>
    (List.range conf.image_width).mapM (fun i =>
      samplePixel world conf cam (jit i j) pw i j))
  return rows.flatten

/-- `CVec::refract`. -/
def refract (uv n : Vec3) (η : FP) (sq : FP → FP) : Vec3 :=
  let cos0 := Vec3.dot (Vec3.neg uv) n
  let cosθ := if FP.lt cos0 (.fin 1) then cos0 else .fin 1
  let r_out_perp := Vec3.smul (Vec3.add uv (Vec3.smul n cosθ)) η
  let t := FP.sub (.fin 1) (Vec3.lengthSq r_out_perp)
  let t := FP.neg (sq (FP.abs t))
  Vec3.add r_out_perp (Vec3.smul n t)

/-- `CVec::unit_vector`: `self / self.length()`. -/
def unit_vector (v : Vec3) (sq : FP → FP) : Vec3 :=
  Vec3.sdiv v (sq (Vec3.lengthSq v))

/-- `Dielectric::reflectance`: Schlick's approximation. -/
def reflectance (cosine ref_idx : FP) : FP :=
  let r0 := FP.div (FP.sub (.fin 1) ref_idx) (FP.add (.fin 1) ref_idx)
  let r0 := FP.powNat r0 2
  FP.add r0 (FP.mul (FP.sub (.fin 1) r0) (FP.powNat (FP.sub (.fin 1) cosine) 5))

/-- `Dielectric::scatter`: always returns `true` with attenuation
`(1,1,1)`; `draw` is the `rand_range(0.0..1.0)` oracle, `sq` the
`f64::sqrt` oracle. -/
def dielectricScatter (ir : FP) (sq : FP → FP) (draw : FP)
    (r_in : Ray) (rec : ScatterIn) : Vec3 × Ray :=
  let refraction_ratio := if rec.front_face then FP.div (.fin 1) ir else ir
  let unit_direction := unit_vector r_in.dir sq
  let cos_theta := FP.fmin (Vec3.dot (Vec3.neg unit_direction) rec.normal) (.fin 1)
  let sin_theta := sq (FP.sub (.fin 1) (FP.mul cos_theta cos_theta))
  let cannot_refract := FP.lt (.fin 1) (FP.mul refraction_ratio sin_theta)
  let direction :=
    if cannot_refract || FP.lt draw (reflectance cos_theta refraction_ratio) then
      Vec3.reflect unit_direction rec.normal
    else
      refract unit_direction rec.normal refraction_ratio sq
  (Vec3.ones, ⟨rec.p, direction, r_in.tm⟩)

/-- `Dielectric` as a `Material` value. -/
def dielectricMat (ir : FP) (sq : FP → FP) (draw : FP) : Material :=
  { scatter := fun r_in rec => some (dielectricScatter ir sq draw r_in rec),
    emitted := fun _ _ _ => Vec3.zeros }

/-- `Metal::scatter`: mirror reflection of the unit incoming direction,
fuzzed by `fuzz * random_in_unit_sphere()` (the random point is the
`rnd` oracle); reports no scatter when the result points into the
surface. -/
def metalScatter (albedo : Vec3) (fuzz : FP) (sq : FP → FP) (rnd : Vec3)
    (r_in : Ray) (rec : ScatterIn) : Option (Vec3 × Ray) :=
  let reflected := Vec3.reflect (unit_vector r_in.dir sq) rec.normal
  let scattered : Ray := ⟨rec.p, Vec3.add reflected (Vec3.smul rnd fuzz), r_in.tm⟩
  if FP.lt (.fin 0) (Vec3.dot scattered.dir rec.normal) then some (albedo, scattered)
  else none

/-- `Metal` as a `Material` value. -/
def metalMat (albedo : Vec3) (fuzz : FP) (sq : FP → FP) (rnd : Vec3) : Material :=
  { scatter := metalScatter albedo fuzz sq rnd,
    emitted := fun _ _ _ => Vec3.zeros }

/-- `Arc<dyn Hittable>` as handed to the BVH builder: the two trait
queries. -/
structure Object where
  hit : HitFun
  boundingBox : FP → FP → Option Aabb

/-- The tree of `BvhNode`s produced by construction: internal nodes
cache a box; leaves are the original scene objects (shared, so a leaf
can appear under both child slots). -/
inductive BvhT where
  | obj : Object → BvhT
  | node : BvhT → BvhT → Aabb → BvhT

namespace BvhT

/-- Dispatch of `Hittable::bounding_box` over the tree: a built node
returns its cached box unconditionally. -/
def boundingBox : BvhT → FP → FP → Option Aabb
  | .obj o, t0, t1 => o.boundingBox t0 t1
  | .node _ _ bx, _, _ => some bx

/-- Dispatch of `Hittable::hit` over the tree (`BvhNode::hit` at the
nodes). -/
def hit : BvhT → HitFun
  | .obj o => o.hit
  | .node l r bx => bvhNodeHit l.hit r.hit bx

/-- The leaf objects under a tree, left to right. -/
def leaves : BvhT → List Object
  | .obj o => [o]
  | .node l r _ => leaves l ++ leaves r

end BvhT

/-- `BvhNode::check_cond`. -/
def check_cond (l r : BvhT) (t0 t1 : FP) : Option (Aabb × Aabb) :=
  match l.boundingBox t0 t1, r.boundingBox t0 t1 with
  | some a, some b => some (a, b)
  | _, _ => none

/-- `box_compare` (with `box_x_compare`/`box_y_compare`/`box_z_compare`
selecting the axis): compares the boxes' minimum coordinates at time
`(0.0, 0.0)` via `partial_cmp`; `Except.error` models the two panics
(missing box, NaN comparison). -/
def box_compare (a b : Object) (axis : ℕ) : Except String Ordering :=
  match a.boundingBox (.fin 0) (.fin 0), b.boundingBox (.fin 0) (.fin 0) with
  | some box_a, some box_b =>
    match FP.fcmp (box_a.minimum.nth axis) (box_b.minimum.nth axis) with
    | some o => .ok o
    | none => .error "illegal f64 value was used here, no NaN or Inf allowed"
  | _, _ => .error "No bounding box in bvh_node box compare found during a box compare."

/-- Insert into a sorted list, threading comparator panics
(`sort_unstable_by` with a panicking comparator aborts; any comparison
sort compares every element at least once for `n ≥ 2`, which is the
only property the panic behaviour depends on). -/
def insertE (cmp : α → α → Except String Ordering) (x : α) :
    List α → Except String (List α)
  | [] => .ok [x]
  | y :: ys =>
    match cmp x y with
    | .error e => .error e
    | .ok .gt =>
      match insertE cmp x ys with
      | .error e => .error e
      | .ok zs => .ok (y :: zs)
    | .ok _ => .ok (x :: y :: ys)

/-- Comparator-sort of the slice (`objects.sort_unstable_by`),
threading comparator panics. -/
def sortE (cmp : α → α → Except String Ordering) :
    List α → Except String (List α)
  | [] => .ok []
  | x :: xs =>
    match sortE cmp xs with
    | .error e => .error e
    | .ok s => insertE cmp x s

/-- The tail of `inner_from_list`: `check_cond(..).expect("No bounding
box in bvh_node constructor.")` then `surrounding_box`. -/
def mkNode (l r : BvhT) (t0 t1 : FP) : Except String BvhT :=
  match check_cond l r t0 t1 with
  | none => .error "No bounding box in bvh_node constructor."
  | some (bl, br) => .ok (.node l r (Aabb.surrounding_box bl br))

/-- `BvhNode::inner_from_list`.  The Rust function receives the whole
mutable slice together with the subrange bounds `[start, stop)`, and
`objects.sort_unstable_by` re-sorts the ENTIRE slice at every
recursion level — not just the subrange — so the mutated slice is
threaded through the recursion (the left child's sorts are visible to
the right child) and returned next to the built node.  `ax path` is
the per-node `rand_range(0..=2)` axis draw, keyed by the node's path
from the root (`false` = left child); `fuel` only bounds the recursion
depth and any `fuel ≥ stop - start` is enough.  Errors model the
construction panics (the `assert!`, the slice-index panic, the
comparator panics and the missing-box `expect`). -/
def inner_from_list (ax : List Bool → ℕ) (t0 t1 : FP) :
    ℕ → List Bool → ℕ → ℕ → List Object → Except String (BvhT × List Object)
  | 0, _, _, _, _ => .error "fuel exhausted"
  | Nat.succ fuel, path, start, stop, objs =>
    let axis := ax path
    if start < stop then
      if stop - start = 1 then
        match objs[start]? with
        | none => .error "index out of bounds"
        | some o => (mkNode (.obj o) (.obj o) t0 t1).map (fun t => (t, objs))
      else if stop - start = 2 then
        match objs[start]?, objs[start + 1]? with
        | some a, some b =>
          ((match box_compare a b axis with
            | .error e => .error e
            | .ok .gt => mkNode (.obj b) (.obj a) t0 t1
            | .ok _ => mkNode (.obj a) (.obj b) t0 t1 :
           Except String BvhT)).map (fun t => (t, objs))
        | _, _ => .error "index out of bounds"
      else
        match sortE (fun a b => box_compare a b axis) objs with
        | .error e => .error e
        | .ok sorted =>
          let mid := start + (stop - start) / 2
          match inner_from_list ax t0 t1 fuel (path ++ [false]) start mid
              sorted with
          | .error e => .error e
          | .ok (left, objs1) =>
            match inner_from_list ax t0 t1 fuel (path ++ [true]) mid stop
                objs1 with
            | .error e => .error e
            | .ok (right, objs2) =>
              (mkNode left right t0 t1).map (fun t => (t, objs2))
    else .error "start should be smaller then the end"

/-- `BvhNode::from_hittable_list` / `from_list`: build over a fresh
copy of the whole scene list (`objects.to_vec()`) with range
`[0, len)`; the mutated copy is dropped and only the node returned. -/
def from_list (ax : List Bool → ℕ) (t0 t1 : FP) (objs : List Object) :
    Except String BvhT :=
  (inner_from_list ax t0 t1 (objs.length + 1) [] 0 objs.length objs).map
    Prod.fst

/-- `HittableList::hit` over a list of scene objects. -/
def hittableListHit (objs : List Object) : HitFun :=
  listHit (objs.map Object.hit)

/-- `DiffuseLight` with a `SolidColor` texture: never scatters, emits
the constant color. -/
def diffuseLightMat (c : Vec3) : Material :=
  { scatter := fun _ _ => none, emitted := fun _ _ _ => c }

/-- `Isotropic` with a `SolidColor` texture; `rnd` is the
`random_in_unit_sphere` oracle. -/
def isotropicMat (c : Vec3) (rnd : Vec3) : Material :=
  { scatter := fun r_in rec => some (c, ⟨rec.p, rnd, r_in.tm⟩),
    emitted := fun _ _ _ => Vec3.zeros }

/-! ## Intersection totality: a reported hit always carries a material -/

/-- A hit function that fully populates its record: every reported hit
carries a `Some` material. -/
def MatTot (f : HitFun) : Prop :=
  ∀ r tmin tmax rec, f r tmin tmax = some rec → rec.mat.isSome = true

theorem matTot_sphere (sq uv center radius mat) :
    MatTot (sphereHit sq uv center radius mat) := by
  intro r tmin tmax rec h
  unfold sphereHit at h
  dsimp only at h
  split at h
  · exact absurd h (by simp)
  · split at h
    · split at h
      · exact absurd h (by simp)
      · cases h; rfl
    · cases h; rfl

theorem matTot_movingSphere (sq c0 c1 t0 t1 radius mat) :
    MatTot (movingSphereHit sq c0 c1 t0 t1 radius mat) := by
  intro r tmin tmax rec h
  unfold movingSphereHit at h
  dsimp only at h
  split at h
  · exact absurd h (by simp)
  · split at h
    · split at h
      · exact absurd h (by simp)
      · cases h; rfl
    · cases h; rfl

theorem matTot_rectXY (mat x0 x1 y0 y1 k) : MatTot (rectXYHit mat x0 x1 y0 y1 k) := by
  intro r tmin tmax rec h
  unfold rectXYHit at h
  dsimp only at h
  split at h
  · exact absurd h (by simp)
  · split at h
    · exact absurd h (by simp)
    · cases h; rfl

theorem matTot_rectXZ (mat x0 x1 z0 z1 k) : MatTot (rectXZHit mat x0 x1 z0 z1 k) := by
  intro r tmin tmax rec h
  unfold rectXZHit at h
  dsimp only at h
  split at h
  · exact absurd h (by simp)
  · split at h
    · exact absurd h (by simp)
    · cases h; rfl

theorem matTot_rectYZ (mat y0 y1 z0 z1 k) : MatTot (rectYZHit mat y0 y1 z0 z1 k) := by
  intro r tmin tmax rec h
  unfold rectYZHit at h
  dsimp only at h
  split at h
  · exact absurd h (by simp)
  · split at h
    · exact absurd h (by simp)
    · cases h; rfl

theorem matTot_listGo (r : Ray) (tmin : FP) (fs : List HitFun)
    (h : ∀ f ∈ fs, MatTot f) :
    ∀ closest res rec, (∀ rec0, res = some rec0 → rec0.mat.isSome = true) →
      listHitGo r tmin fs closest res = some rec → rec.mat.isSome = true := by
  induction fs with
  | nil =>
    intro closest res rec hres hgo
    exact hres rec hgo
  | cons f fs ih =>
    intro closest res rec hres hgo
    have hf := h f (List.mem_cons_self f fs)
    have hfs : ∀ g ∈ fs, MatTot g := fun g hg => h g (List.mem_cons_of_mem f hg)
    unfold listHitGo at hgo
    revert hgo
    split
    · next rec1 heq =>
      intro hgo
      exact ih hfs _ _ rec
        (fun rec0 h0 => by cases h0; exact hf r tmin closest rec1 heq) hgo
    · next heq =>
      intro hgo
      exact ih hfs _ _ rec hres hgo

theorem matTot_list (fs : List HitFun) (h : ∀ f ∈ fs, MatTot f) :
    MatTot (listHit fs) := by
  intro r tmin tmax rec hgo
  exact matTot_listGo r tmin fs h tmax none rec (by intro rec0 h0; cases h0) hgo

theorem matTot_cube (mat p0 p1) : MatTot (cubeHit mat p0 p1) := by
  apply matTot_list
  intro f hf
  simp only [cubeSides, List.mem_cons, List.not_mem_nil, or_false] at hf
  rcases hf with h | h | h | h | h | h <;> subst h
  · exact matTot_rectXY mat p0.x p1.x p0.y p1.y p0.z
  · exact matTot_rectXZ mat p0.x p1.x p0.z p1.z p0.y
  · exact matTot_rectYZ mat p0.y p1.y p0.z p1.z p0.x
  · exact matTot_rectXY mat p0.x p1.x p0.y p1.y p1.z
  · exact matTot_rectXZ mat p0.x p1.x p0.z p1.z p1.y
  · exact matTot_rectYZ mat p0.y p1.y p0.z p1.z p1.x

theorem matTot_translate (child : HitFun) (offset : Vec3) (h : MatTot child) :
    MatTot (translateHit child offset) := by
  intro r tmin tmax rec hgo
  unfold translateHit at hgo
  rcases Option.map_eq_some'.mp hgo with ⟨rec0, hrec0, hmap⟩
  subst hmap
  exact h _ tmin tmax rec0 hrec0

theorem matTot_rotateY (child : HitFun) (sinT cosT : FP) (h : MatTot child) :
    MatTot (rotateYHit child sinT cosT) := by
  intro r tmin tmax rec hgo
  unfold rotateYHit at hgo
  rcases Option.map_eq_some'.mp hgo with ⟨rec0, hrec0, hmap⟩
  subst hmap
  exact h _ tmin tmax rec0 hrec0

theorem matTot_medium (boundary : HitFun) (nid : FP) (phase : Material) (sq ξ) :
    MatTot (mediumHit boundary nid phase sq ξ) := by
  intro r tmin tmax rec hgo
  unfold mediumHit at hgo
  revert hgo
  split
  · intro hgo; cases hgo
  · split
    · intro hgo; cases hgo
    · dsimp only
      split
      · intro hgo; cases hgo
      · split
        · intro hgo; cases hgo
        · intro hgo; cases hgo; rfl

theorem matTot_bvhNode (lh rh : HitFun) (bx : Aabb)
    (h1 : MatTot lh) (h2 : MatTot rh) : MatTot (bvhNodeHit lh rh bx) := by
  intro r tmin tmax rec hgo
  unfold bvhNodeHit at hgo
  revert hgo
  split
  · intro hgo; cases hgo
  · split
    · next recL heqL =>
      split
      · next recR heqR =>
        intro hgo; cases hgo
        exact h2 r tmin recL.t _ heqR
      · intro hgo; cases hgo
        exact h1 r tmin tmax _ heqL
    · intro hgo
      exact h2 r tmin tmax rec hgo

theorem matTot_bvhT (t : BvhT) (h : ∀ o ∈ t.leaves, MatTot o.hit) :
    MatTot t.hit := by
  induction t with
  | obj o => exact h o (by simp [BvhT.leaves])
  | node l r bx ihl ihr =>
    refine matTot_bvhNode _ _ _ (ihl ?_) (ihr ?_)
    · intro o ho; exact h o (by simp [BvhT.leaves, ho])
    · intro o ho; exact h o (by simp [BvhT.leaves, ho])

/-- With a fully-populating world, `ray_color` never reaches the
material `expect`. -/
theorem ray_color_total (world : HitFun) (bg : Vec3) (h : MatTot world) :
    ∀ d r, (ray_color world bg r d).isSome = true := by
  intro d
  induction d with
  | zero => intro r; rfl
  | succ d ih =>
    intro r
    unfold ray_color
    split
    · rfl
    · next rec heq =>
      have hm := h r _ _ rec heq
      rcases Option.isSome_iff_exists.mp hm with ⟨m, hmat⟩
      rw [hmat]
      dsimp only
      split
      · rfl
      · next att scat _ =>
        rcases Option.isSome_iff_exists.mp (ih scat) with ⟨c, hc⟩
        rw [hc]
        rfl

/-! ## Basic facts about the float embedding -/

namespace FP

theorem le_of_lt {x y : FP} (h : lt x y = true) : le x y = true := by
  cases x with
  | nan => simp [lt] at h
  | inf a =>
    cases y with
    | nan => simp [lt] at h
    | inf b => cases a <;> cases b <;> simp_all [lt, le]
    | fin q => cases a <;> simp_all [lt, le]
  | fin p =>
    cases y with
    | nan => simp [lt] at h
    | inf b => simp_all [lt, le]
    | fin q =>
      simp only [lt, decide_eq_true_eq] at h
      simp [le, h.le]

theorem lt_ne_nan {x y : FP} (h : lt x y = true) : x ≠ nan ∧ y ≠ nan := by
  cases x <;> cases y <;> simp_all [lt]

theorem le_ne_nan {x y : FP} (h : le x y = true) : x ≠ nan ∧ y ≠ nan := by
  cases x <;> cases y <;> simp_all [le]

theorem not_le_iff {x y : FP} (hx : x ≠ nan) (hy : y ≠ nan) :
    le x y = false ↔ lt y x = true := by
  cases x with
  | nan => exact absurd rfl hx
  | inf a =>
    cases y with
    | nan => exact absurd rfl hy
    | inf b => cases a <;> cases b <;> simp [le, lt]
    | fin q => cases a <;> simp [le, lt]
  | fin p =>
    cases y with
    | nan => exact absurd rfl hy
    | inf b => cases b <;> simp [le, lt]
    | fin q => simp [le, lt]

theorem not_lt_iff {x y : FP} (hx : x ≠ nan) (hy : y ≠ nan) :
    lt x y = false ↔ le y x = true := by
  cases x with
  | nan => exact absurd rfl hx
  | inf a =>
    cases y with
    | nan => exact absurd rfl hy
    | inf b => cases a <;> cases b <;> simp [le, lt]
    | fin q => cases a <;> simp [le, lt]
  | fin p =>
    cases y with
    | nan => exact absurd rfl hy
    | inf b => cases b <;> simp [le, lt]
    | fin q => simp [le, lt]

theorem le_refl {x : FP} (hx : x ≠ nan) : le x x = true := by
  cases x with
  | nan => exact absurd rfl hx
  | inf a => cases a <;> simp [le]
  | fin q => simp [le]

theorem le_trans {x y z : FP} (h1 : le x y = true) (h2 : le y z = true) :
    le x z = true := by
  cases x with
  | nan => simp [le] at h1
  | inf a =>
    cases y with
    | nan => simp [le] at h1
    | inf b =>
      cases z with
      | nan => simp [le] at h2
      | inf c => cases a <;> cases b <;> cases c <;> simp_all [le]
      | fin q => cases a <;> cases b <;> simp_all [le]
    | fin q =>
      cases z with
      | nan => simp [le] at h2
      | inf c => cases a <;> cases c <;> simp_all [le]
      | fin s => cases a <;> simp_all [le]
  | fin p =>
    cases y with
    | nan => simp [le] at h1
    | inf b =>
      cases z with
      | nan => simp [le] at h2
      | inf c => cases b <;> cases c <;> simp_all [le]
      | fin s => cases b <;> simp_all [le]
    | fin q =>
      cases z with
      | nan => simp [le] at h2
      | inf c => cases c <;> simp_all [le]
      | fin s =>
        simp only [le, decide_eq_true_eq] at h1 h2 ⊢
        exact h1.trans h2

theorem lt_of_le_of_lt {x y z : FP} (h1 : le x y = true) (h2 : lt y z = true) :
    lt x z = true := by
  cases x with
  | nan => simp [le] at h1
  | inf a =>
    cases y with
    | nan => simp [le] at h1
    | inf b =>
      cases z with
      | nan => simp [lt] at h2
      | inf c => cases a <;> cases b <;> cases c <;> simp_all [le, lt]
      | fin q => cases a <;> cases b <;> simp_all [le, lt]
    | fin q =>
      cases z with
      | nan => simp [lt] at h2
      | inf c => cases a <;> cases c <;> simp_all [le, lt]
      | fin s => cases a <;> simp_all [le, lt]
  | fin p =>
    cases y with
    | nan => simp [le] at h1
    | inf b =>
      cases z with
      | nan => simp [lt] at h2
      | inf c => cases b <;> cases c <;> simp_all [le, lt]
      | fin s => cases b <;> simp_all [le, lt]
    | fin q =>
      cases z with
      | nan => simp [lt] at h2
      | inf c => cases c <;> simp_all [le, lt]
      | fin s =>
        simp only [le, lt, decide_eq_true_eq] at h1 h2 ⊢
        exact h1.trans_lt h2

theorem lt_of_lt_of_le {x y z : FP} (h1 : lt x y = true) (h2 : le y z = true) :
    lt x z = true := by
  cases x with
  | nan => simp [lt] at h1
  | inf a =>
    cases y with
    | nan => simp [lt] at h1
    | inf b =>
      cases z with
      | nan => simp [le] at h2
      | inf c => cases a <;> cases b <;> cases c <;> simp_all [le, lt]
      | fin q => cases a <;> cases b <;> simp_all [le, lt]
    | fin q =>
      cases z with
      | nan => simp [le] at h2
      | inf c => cases a <;> cases c <;> simp_all [le, lt]
      | fin s => cases a <;> simp_all [le, lt]
  | fin p =>
    cases y with
    | nan => simp [lt] at h1
    | inf b =>
      cases z with
      | nan => simp [le] at h2
      | inf c => cases b <;> cases c <;> simp_all [le, lt]
      | fin s => cases b <;> simp_all [le, lt]
    | fin q =>
      cases z with
      | nan => simp [le] at h2
      | inf c => cases c <;> simp_all [le, lt]
      | fin s =>
        simp only [le, lt, decide_eq_true_eq] at h1 h2 ⊢
        exact h1.trans_le h2

theorem mul_neg_right (x y : FP) : mul x (neg y) = neg (mul x y) := by
  cases x with
  | nan => cases y <;> rfl
  | inf a =>
    cases y with
    | nan => rfl
    | inf b => cases a <;> cases b <;> rfl
    | fin q =>
      by_cases h : q = 0
      · subst h; simp [mul, neg]
      · have h' : -q ≠ 0 := neg_ne_zero.mpr h
        have hd : decide ((0:ℚ) < -q) = !decide ((0:ℚ) < q) := by
          rcases lt_or_gt_of_ne h with hq | hq
          · simp [neg_pos.mpr hq, not_lt_of_gt hq]
          · simp [hq, not_lt.mpr (neg_nonpos.mpr hq.le)]
        simp only [neg, mul, h, h', if_false, hd]
        cases a <;> simp
  | fin p =>
    cases y with
    | nan => rfl
    | inf b =>
      by_cases h : p = 0
      · subst h; simp [mul, neg]
      · simp only [mul, neg, h, if_false]
        cases b <;> simp
    | fin q =>
      simp only [mul, neg, fin.injEq]
      ring

theorem neg_one_fin : neg (fin 1) = fin (-1) := by
  simp [neg]

theorem mul_neg_one (x : FP) : mul x (fin (-1)) = neg x := by
  rw [← neg_one_fin, mul_neg_right]
  cases x with
  | nan => rfl
  | inf a => cases a <;> rfl
  | fin q => simp [mul, neg]

theorem add_neg_neg (x y : FP) : add (neg x) (neg y) = neg (add x y) := by
  cases x with
  | nan => cases y <;> rfl
  | inf a =>
    cases y with
    | nan => rfl
    | inf b =>
      cases a <;> cases b <;> simp [add, neg]
    | fin q => cases a <;> rfl
  | fin p =>
    cases y with
    | nan => rfl
    | inf b => cases b <;> rfl
    | fin q =>
      simp only [add, neg, fin.injEq]
      ring

theorem neg_le_zero {x : FP} (hx : x ≠ nan) (h : lt x (fin 0) = false) :
    le (neg x) (fin 0) = true := by
  cases x with
  | nan => exact absurd rfl hx
  | inf a => cases a <;> simp_all [lt, le, neg]
  | fin q =>
    simp only [lt, decide_eq_false_iff_not, not_lt] at h
    simp [le, neg, h]

end FP

namespace Vec3

theorem neg_comp (v : Vec3) :
    Vec3.neg v = ⟨FP.neg v.x, FP.neg v.y, FP.neg v.z⟩ := by
  simp [Vec3.neg, Vec3.smul, FP.mul_neg_one]

theorem dot_neg_right (u v : Vec3) :
    dot u (Vec3.neg v) = FP.neg (dot u v) := by
  rw [neg_comp]
  simp [dot, FP.mul_neg_right, FP.add_neg_neg]

end Vec3

/-- The two guarantees of `HitRecord::set_face_normal`: the flag is the
sign test of the dot product with the outward normal, and (for non-NaN
dot products) the stored normal makes a non-positive dot product with
the ray direction. -/
theorem set_face_normal_spec (rec : HitRec) (r : Ray) (outward : Vec3) :
    (set_face_normal rec r outward).front_face
        = FP.lt (Vec3.dot r.dir outward) (.fin 0) ∧
    (Vec3.dot r.dir outward ≠ FP.nan →
      FP.le (Vec3.dot r.dir (set_face_normal rec r outward).normal) (.fin 0) = true) := by
  constructor
  · rfl
  · intro hnn
    unfold set_face_normal
    dsimp only
    by_cases h : FP.lt (Vec3.dot r.dir outward) (.fin 0) = true
    · simp only [h, if_pos rfl]
      exact FP.le_of_lt h
    · have h' : FP.lt (Vec3.dot r.dir outward) (.fin 0) = false :=
        Bool.eq_false_iff.mpr h
      rw [h']
      simp only [Bool.false_eq_true, if_false]
      rw [Vec3.dot_neg_right]
      exact FP.neg_le_zero hnn h'

/-! ## Face-normal orientation -/

theorem FP.neg_ne_nan {x : FP} (h : FP.neg x ≠ FP.nan) : x ≠ FP.nan := by
  cases x <;> simp_all [FP.neg]

theorem set_face_normal_front (rec : HitRec) (r : Ray) (outward : Vec3) :
    (set_face_normal rec r outward).front_face
      = FP.lt (Vec3.dot r.dir outward) (.fin 0) := rfl

theorem set_face_normal_p (rec : HitRec) (r : Ray) (outward : Vec3) :
    (set_face_normal rec r outward).p = rec.p := rfl

/-- Orientation of a stored normal of the `set_face_normal` shape. -/
theorem orient_le (d outward n : Vec3)
    (hn : n = if FP.lt (Vec3.dot d outward) (.fin 0) = true then outward
              else Vec3.neg outward)
    (hnn : Vec3.dot d n ≠ FP.nan) :
    FP.le (Vec3.dot d n) (.fin 0) = true := by
  by_cases hlt : FP.lt (Vec3.dot d outward) (.fin 0) = true
  · rw [hn, if_pos hlt] at hnn ⊢
    exact FP.le_of_lt hlt
  · have h' : FP.lt (Vec3.dot d outward) (.fin 0) = false := Bool.eq_false_iff.mpr hlt
    rw [hn, if_neg hlt] at hnn ⊢
    rw [Vec3.dot_neg_right] at hnn ⊢
    exact FP.neg_le_zero (FP.neg_ne_nan hnn) h'

/-- Orientation of the stored normal, phrased on the record itself. -/
theorem set_face_normal_le (rec : HitRec) (r : Ray) (outward : Vec3)
    (hnn : Vec3.dot r.dir (set_face_normal rec r outward).normal ≠ FP.nan) :
    FP.le (Vec3.dot r.dir (set_face_normal rec r outward).normal) (.fin 0) = true :=
  orient_le r.dir outward _ rfl hnn

/-- The orientation half of the claim, as a predicate on a hit
function: every reported normal makes a non-positive (non-NaN) dot
product with the query ray's direction. -/
def FaceOk (f : HitFun) : Prop :=
  ∀ r tmin tmax rec, f r tmin tmax = some rec →
    Vec3.dot r.dir rec.normal ≠ FP.nan →
    FP.le (Vec3.dot r.dir rec.normal) (.fin 0) = true

/-- A record property holding for every hit a function reports. -/
def AllRecs (P : Ray → HitRec → Prop) (f : HitFun) : Prop :=
  ∀ r tmin tmax rec, f r tmin tmax = some rec → P r rec

theorem allRecs_listGo (P : Ray → HitRec → Prop) (r : Ray) (tmin : FP)
    (fs : List HitFun) (h : ∀ f ∈ fs, AllRecs P f) :
    ∀ closest res rec, (∀ rec0, res = some rec0 → P r rec0) →
      listHitGo r tmin fs closest res = some rec → P r rec := by
  induction fs with
  | nil => intro closest res rec hres hgo; exact hres rec hgo
  | cons f fs ih =>
    intro closest res rec hres hgo
    have hf := h f (List.mem_cons_self f fs)
    have hfs : ∀ g ∈ fs, AllRecs P g := fun g hg => h g (List.mem_cons_of_mem f hg)
    unfold listHitGo at hgo
    revert hgo
    split
    · next rec1 heq =>
      intro hgo
      exact ih hfs _ _ rec (fun rec0 h0 => by cases h0; exact hf r tmin closest rec1 heq) hgo
    · next heq =>
      intro hgo
      exact ih hfs _ _ rec hres hgo

theorem allRecs_list (P : Ray → HitRec → Prop) (fs : List HitFun)
    (h : ∀ f ∈ fs, AllRecs P f) : AllRecs P (listHit fs) := by
  intro r tmin tmax rec hgo
  exact allRecs_listGo P r tmin fs h tmax none rec (by intro rec0 h0; cases h0) hgo

theorem allRecs_bvhNode (P : Ray → HitRec → Prop) (lh rh : HitFun) (bx : Aabb)
    (h1 : AllRecs P lh) (h2 : AllRecs P rh) : AllRecs P (bvhNodeHit lh rh bx) := by
  intro r tmin tmax rec hgo
  unfold bvhNodeHit at hgo
  revert hgo
  split
  · intro hgo; cases hgo
  · split
    · next recL heqL =>
      split
      · next recR heqR =>
        intro hgo; cases hgo
        exact h2 r tmin recL.t _ heqR
      · intro hgo; cases hgo
        exact h1 r tmin tmax _ heqL
    · intro hgo
      exact h2 r tmin tmax rec hgo

theorem allRecs_bvhT (P : Ray → HitRec → Prop) (t : BvhT)
    (h : ∀ o ∈ t.leaves, AllRecs P o.hit) : AllRecs P t.hit := by
  induction t with
  | obj o => exact h o (by simp [BvhT.leaves])
  | node l r bx ihl ihr =>
    refine allRecs_bvhNode P _ _ _ (ihl ?_) (ihr ?_)
    · intro o ho; exact h o (by simp [BvhT.leaves, ho])
    · intro o ho; exact h o (by simp [BvhT.leaves, ho])

theorem faceok_sphere (sq uv center radius mat) (r : Ray) (tmin tmax : FP)
    (rec : HitRec) (h : sphereHit sq uv center radius mat r tmin tmax = some rec) :
    rec.front_face
        = FP.lt (Vec3.dot r.dir (Vec3.sdiv (Vec3.sub rec.p center) radius)) (.fin 0) ∧
    (Vec3.dot r.dir rec.normal ≠ FP.nan →
      FP.le (Vec3.dot r.dir rec.normal) (.fin 0) = true) := by
  unfold sphereHit at h
  dsimp only at h
  split at h
  · cases h
  · split at h
    · split at h
      · cases h
      · cases h
        exact ⟨rfl, fun hnn => orient_le r.dir _ _ rfl hnn⟩
    · cases h
      exact ⟨rfl, fun hnn => orient_le r.dir _ _ rfl hnn⟩

theorem faceok_movingSphere (sq c0 c1 t0 t1 radius mat) (r : Ray) (tmin tmax : FP)
    (rec : HitRec)
    (h : movingSphereHit sq c0 c1 t0 t1 radius mat r tmin tmax = some rec) :
    rec.front_face
        = FP.lt (Vec3.dot r.dir
            (Vec3.sdiv (Vec3.sub rec.p (movingCenter c0 c1 t0 t1 r.tm)) radius)) (.fin 0) ∧
    (Vec3.dot r.dir rec.normal ≠ FP.nan →
      FP.le (Vec3.dot r.dir rec.normal) (.fin 0) = true) := by
  unfold movingSphereHit at h
  dsimp only at h
  split at h
  · cases h
  · split at h
    · split at h
      · cases h
      · cases h
        exact ⟨rfl, fun hnn => orient_le r.dir _ _ rfl hnn⟩
    · cases h
      exact ⟨rfl, fun hnn => orient_le r.dir _ _ rfl hnn⟩

theorem faceok_rectXY (mat x0 x1 y0 y1 k) (r : Ray) (tmin tmax : FP) (rec : HitRec)
    (h : rectXYHit mat x0 x1 y0 y1 k r tmin tmax = some rec) :
    rec.front_face = FP.lt (Vec3.dot r.dir ⟨.fin 0, .fin 0, .fin 1⟩) (.fin 0) ∧
    (Vec3.dot r.dir rec.normal ≠ FP.nan →
      FP.le (Vec3.dot r.dir rec.normal) (.fin 0) = true) := by
  unfold rectXYHit at h
  dsimp only at h
  split at h
  · cases h
  · split at h
    · cases h
    · cases h
      exact ⟨rfl, fun hnn => orient_le r.dir _ _ rfl hnn⟩

theorem faceok_rectXZ (mat x0 x1 z0 z1 k) (r : Ray) (tmin tmax : FP) (rec : HitRec)
    (h : rectXZHit mat x0 x1 z0 z1 k r tmin tmax = some rec) :
    rec.front_face = FP.lt (Vec3.dot r.dir ⟨.fin 0, .fin 1, .fin 0⟩) (.fin 0) ∧
    (Vec3.dot r.dir rec.normal ≠ FP.nan →
      FP.le (Vec3.dot r.dir rec.normal) (.fin 0) = true) := by
  unfold rectXZHit at h
  dsimp only at h
  split at h
  · cases h
  · split at h
    · cases h
    · cases h
      exact ⟨rfl, fun hnn => orient_le r.dir _ _ rfl hnn⟩

theorem faceok_rectYZ (mat y0 y1 z0 z1 k) (r : Ray) (tmin tmax : FP) (rec : HitRec)
    (h : rectYZHit mat y0 y1 z0 z1 k r tmin tmax = some rec) :
    rec.front_face = FP.lt (Vec3.dot r.dir ⟨.fin 1, .fin 0, .fin 0⟩) (.fin 0) ∧
    (Vec3.dot r.dir rec.normal ≠ FP.nan →
      FP.le (Vec3.dot r.dir rec.normal) (.fin 0) = true) := by
  unfold rectYZHit at h
  dsimp only at h
  split at h
  · cases h
  · split at h
    · cases h
    · cases h
      exact ⟨rfl, fun hnn => orient_le r.dir _ _ rfl hnn⟩

theorem faceok_translate (child : HitFun) (offset : Vec3) (r : Ray) (tmin tmax : FP)
    (rec : HitRec) (h : translateHit child offset r tmin tmax = some rec) :
    ∃ rec0, child ⟨Vec3.sub r.orig offset, r.dir, r.tm⟩ tmin tmax = some rec0 ∧
      rec.front_face = FP.lt (Vec3.dot r.dir rec0.normal) (.fin 0) ∧
      (Vec3.dot r.dir rec.normal ≠ FP.nan →
        FP.le (Vec3.dot r.dir rec.normal) (.fin 0) = true) := by
  unfold translateHit at h
  rcases Option.map_eq_some'.mp h with ⟨rec0, hrec0, hmap⟩
  subst hmap
  exact ⟨rec0, hrec0, rfl, fun hnn => orient_le _ _ _ rfl hnn⟩

theorem faceok_rotateY (child : HitFun) (sinT cosT : FP) (r : Ray) (tmin tmax : FP)
    (rec : HitRec) (h : rotateYHit child sinT cosT r tmin tmax = some rec) :
    ∃ rec0, child ⟨rotIn sinT cosT r.orig, rotIn sinT cosT r.dir, r.tm⟩ tmin tmax = some rec0 ∧
      rec.front_face
        = FP.lt (Vec3.dot (rotIn sinT cosT r.dir) (rotOut sinT cosT rec0.normal)) (.fin 0) ∧
      (Vec3.dot (rotIn sinT cosT r.dir) rec.normal ≠ FP.nan →
        FP.le (Vec3.dot (rotIn sinT cosT r.dir) rec.normal) (.fin 0) = true) := by
  unfold rotateYHit at h
  rcases Option.map_eq_some'.mp h with ⟨rec0, hrec0, hmap⟩
  subst hmap
  exact ⟨rec0, hrec0, rfl, fun hnn => orient_le _ _ _ rfl hnn⟩

/-- What `Constant::hit` actually stores: an unconditional
`front_face = true` and the fixed placeholder normal `(1,0,0)`,
independent of the ray. -/
theorem medium_front_fixed (boundary : HitFun) (nid : FP) (phase : Material)
    (sq : FP → FP) (ξ : FP) (r : Ray) (tmin tmax : FP) (rec : HitRec)
    (h : mediumHit boundary nid phase sq ξ r tmin tmax = some rec) :
    rec.front_face = true ∧ rec.normal = ⟨.fin 1, .fin 0, .fin 0⟩ := by
  unfold mediumHit at h
  revert h
  split
  · intro h; cases h
  · split
    · intro h; cases h
    · dsimp only
      split
      · intro h; cases h
      · split
        · intro h; cases h
        · intro h; cases h; exact ⟨rfl, rfl⟩

/-- A world that never reports a hit. -/
def cWorldNone : HitFun := fun _ _ _ => none

/-- A record carrying an emissive-only material. -/
def cRecEmit : HitRec :=
  { HitRec.default with mat := some (diffuseLightMat Vec3.ones) }

/-- A world that always reports `cRecEmit`. -/
def cWorldEmit : HitFun := fun _ _ _ => some cRecEmit

/-- A toy always-scattering material (identity-like scatter). -/
def cScatMat : Material :=
  { scatter := fun r_in _ => some (Vec3.ones, r_in),
    emitted := fun _ _ _ => Vec3.zeros }

/-- A record carrying the toy scattering material. -/
def cRecScat : HitRec := { HitRec.default with mat := some cScatMat }

/-- A world that always reports `cRecScat`. -/
def cWorldScat : HitFun := fun _ _ _ => some cRecScat

/-- A concrete ray. -/
def cRay : Ray := ⟨Vec3.zeros, ⟨.fin 0, .fin 0, .fin 1⟩, .fin 0⟩

/-! ## Claim C7: front-face flag and normal orientation -/

/-- C7 (amended): for every successful hit of spheres, moving spheres
and axis-aligned rectangles, `front_face` is true exactly when the ray
direction has a negative dot product with the variant's outward
normal, and — whenever that dot product is not NaN — the stored normal
satisfies `dot(dir, normal) ≤ 0`.  Lists (hence boxes) and BVH nodes
return their children's records unchanged, so the orientation
propagates.  `Translate` satisfies it with respect to the offset ray
(whose direction equals the incoming one); `RotateY` computes the test
against the object-space (rotated) ray direction.  The constant-density
medium does not satisfy the claim: it stores `front_face = true` and
the fixed normal `(1,0,0)` regardless of the ray (see the
counterexample). -/
theorem C7_front_face_orientation (rec rec1 : HitRec) (r : Ray) (outward : Vec3)
    (sq : FP → FP) (uv : Vec3 → FP × FP) (center : Vec3) (radius : FP) (m : Material)
    (c0 c1 : Vec3) (t0 t1 x0 x1 y0 y1 z0 z1 k : FP) (child : HitFun) (offset : Vec3)
    (sinT cosT nid ξ : FP) (phase : Material) (fs : List HitFun) (lh rh : HitFun)
    (bx : Aabb) (tr : BvhT) (tmin tmax : FP) :
    ((set_face_normal rec r outward).front_face
        = FP.lt (Vec3.dot r.dir outward) (.fin 0)) ∧
    (Vec3.dot r.dir (set_face_normal rec r outward).normal ≠ FP.nan →
      FP.le (Vec3.dot r.dir (set_face_normal rec r outward).normal) (.fin 0) = true) ∧
    (sphereHit sq uv center radius m r tmin tmax = some rec1 →
      rec1.front_face
          = FP.lt (Vec3.dot r.dir (Vec3.sdiv (Vec3.sub rec1.p center) radius)) (.fin 0) ∧
      (Vec3.dot r.dir rec1.normal ≠ FP.nan →
        FP.le (Vec3.dot r.dir rec1.normal) (.fin 0) = true)) ∧
    (movingSphereHit sq c0 c1 t0 t1 radius m r tmin tmax = some rec1 →
      rec1.front_face = FP.lt (Vec3.dot r.dir
          (Vec3.sdiv (Vec3.sub rec1.p (movingCenter c0 c1 t0 t1 r.tm)) radius)) (.fin 0) ∧
      (Vec3.dot r.dir rec1.normal ≠ FP.nan →
        FP.le (Vec3.dot r.dir rec1.normal) (.fin 0) = true)) ∧
    (rectXYHit m x0 x1 y0 y1 k r tmin tmax = some rec1 →
      rec1.front_face = FP.lt (Vec3.dot r.dir ⟨.fin 0, .fin 0, .fin 1⟩) (.fin 0) ∧
      (Vec3.dot r.dir rec1.normal ≠ FP.nan →
        FP.le (Vec3.dot r.dir rec1.normal) (.fin 0) = true)) ∧
    (rectXZHit m x0 x1 z0 z1 k r tmin tmax = some rec1 →
      rec1.front_face = FP.lt (Vec3.dot r.dir ⟨.fin 0, .fin 1, .fin 0⟩) (.fin 0) ∧
      (Vec3.dot r.dir rec1.normal ≠ FP.nan →
        FP.le (Vec3.dot r.dir rec1.normal) (.fin 0) = true)) ∧
    (rectYZHit m y0 y1 z0 z1 k r tmin tmax = some rec1 →
      rec1.front_face = FP.lt (Vec3.dot r.dir ⟨.fin 1, .fin 0, .fin 0⟩) (.fin 0) ∧
      (Vec3.dot r.dir rec1.normal ≠ FP.nan →
        FP.le (Vec3.dot r.dir rec1.normal) (.fin 0) = true)) ∧
    (translateHit child offset r tmin tmax = some rec1 →
      ∃ rec0, child ⟨Vec3.sub r.orig offset, r.dir, r.tm⟩ tmin tmax = some rec0 ∧
        rec1.front_face = FP.lt (Vec3.dot r.dir rec0.normal) (.fin 0) ∧
        (Vec3.dot r.dir rec1.normal ≠ FP.nan →
          FP.le (Vec3.dot r.dir rec1.normal) (.fin 0) = true)) ∧
    (rotateYHit child sinT cosT r tmin tmax = some rec1 →
      ∃ rec0, child ⟨rotIn sinT cosT r.orig, rotIn sinT cosT r.dir, r.tm⟩ tmin tmax
          = some rec0 ∧
        rec1.front_face = FP.lt (Vec3.dot (rotIn sinT cosT r.dir)
            (rotOut sinT cosT rec0.normal)) (.fin 0) ∧
        (Vec3.dot (rotIn sinT cosT r.dir) rec1.normal ≠ FP.nan →
          FP.le (Vec3.dot (rotIn sinT cosT r.dir) rec1.normal) (.fin 0) = true)) ∧
    (mediumHit child nid phase sq ξ r tmin tmax = some rec1 →
      rec1.front_face = true ∧ rec1.normal = ⟨.fin 1, .fin 0, .fin 0⟩) ∧
    ((∀ f ∈ fs, FaceOk f) → FaceOk (listHit fs)) ∧
    (FaceOk lh → FaceOk rh → FaceOk (bvhNodeHit lh rh bx)) ∧
    ((∀ o ∈ tr.leaves, FaceOk o.hit) → FaceOk tr.hit) := by
  refine ⟨set_face_normal_front rec r outward,
    fun hnn => set_face_normal_le rec r outward hnn,
    faceok_sphere sq uv center radius m r tmin tmax rec1,
    faceok_movingSphere sq c0 c1 t0 t1 radius m r tmin tmax rec1,
    faceok_rectXY m x0 x1 y0 y1 k r tmin tmax rec1,
    faceok_rectXZ m x0 x1 z0 z1 k r tmin tmax rec1,
    faceok_rectYZ m y0 y1 z0 z1 k r tmin tmax rec1,
    faceok_translate child offset r tmin tmax rec1,
    faceok_rotateY child sinT cosT r tmin tmax rec1,
    medium_front_fixed child nid phase sq ξ r tmin tmax rec1,
    fun h => allRecs_list _ fs h,
    fun h1 h2 => allRecs_bvhNode _ lh rh bx h1 h2,
    fun h => allRecs_bvhT _ tr h⟩

/-- A second concrete ray (origin `(0,0,-2)`, direction `+z`). -/
def cRay2 : Ray := ⟨⟨.fin 0, .fin 0, .fin (-2)⟩, ⟨.fin 0, .fin 0, .fin 1⟩, .fin 0⟩

/-- The record `rect::XY::hit` produces for `cRay2` against the
`[-1,1]²` rectangle at `z = 0`. -/
def cRecW : HitRec :=
  { p := ⟨.fin 0, .fin 0, .fin 0⟩, normal := ⟨.fin 0, .fin 0, .fin (-1)⟩,
    mat := some (diffuseLightMat Vec3.ones), t := .fin 2, u := .fin (1/2),
    v := .fin (1/2), front_face := false }

unseal Rat.add Rat.mul Rat.sub Rat.inv in
theorem cRecW_hit :
    rectXYHit (diffuseLightMat Vec3.ones) (.fin (-1)) (.fin 1) (.fin (-1)) (.fin 1)
      (.fin 0) cRay2 (.fin 0) (.fin 10) = some cRecW := rfl

unseal Rat.add Rat.mul Rat.sub Rat.inv in
theorem C7_witness :
    cRecW.front_face = FP.lt (Vec3.dot cRay2.dir ⟨.fin 0, .fin 0, .fin 1⟩) (.fin 0) ∧
    FP.le (Vec3.dot cRay2.dir cRecW.normal) (.fin 0) = true := by
  have h := (C7_front_face_orientation HitRec.default cRecW cRay2 Vec3.zeros
      (fun _ => .fin 0) (fun _ => (.fin 0, .fin 0)) Vec3.zeros (.fin 1)
      (diffuseLightMat Vec3.ones) Vec3.zeros Vec3.zeros (.fin 0) (.fin 0)
      (.fin (-1)) (.fin 1) (.fin (-1)) (.fin 1) (.fin 0) (.fin 0) (.fin 0)
      cWorldNone Vec3.zeros (.fin 0) (.fin 0) (.fin 0) (.fin 0)
      (diffuseLightMat Vec3.ones) [] cWorldNone cWorldNone ⟨Vec3.zeros, Vec3.zeros⟩
      (.obj ⟨cWorldNone, fun _ _ => none⟩) (.fin 0) (.fin 10)).2.2.2.2.1 cRecW_hit
  exact ⟨h.1, h.2 (by decide)⟩

/-- The `f64::sqrt` oracle points used by the C7/C9 medium scenes
(`sqrt 25 = 5` exactly; other inputs are never read). -/
def sqC7 : FP → FP := fun x => if x = .fin 25 then .fin 5 else .fin 0

/-- `Isotropic` phase/boundary material with a fixed scatter oracle. -/
def mIso : Material := isotropicMat Vec3.ones Vec3.zeros

/-- A ray through the unit cube, direction `(3,4,0)` (length 5). -/
def cRayC7 : Ray :=
  ⟨⟨.fin (-3/10), .fin (-2/5), .fin 0⟩, ⟨.fin 3, .fin 4, .fin 0⟩, .fin 0⟩

/-- A density-1 constant medium bounded by the unit cube, with
`ln(U) = -1/5` for the scattering draw (realizable: `U = e^(-1/5)`). -/
def cMediumC7 : HitFun :=
  mediumHit (cubeHit mIso ⟨.fin (-1), .fin (-1), .fin (-1)⟩ ⟨.fin 1, .fin 1, .fin 1⟩)
    (.fin (-1)) mIso sqC7 (.fin (-1/5))

unseal Rat.add Rat.mul Rat.sub Rat.inv in
/-- C7 is false as stated: the constant-density medium reports a
scattering hit for `cRayC7` with `front_face = true` although
`dot(dir, outward-normal-candidate) = dot(dir, rec.normal) = 3 > 0`
(not NaN), violating both the claimed equivalence and the claimed
`dot(direction, normal) ≤ 0` orientation. -/
theorem C7_cex :
    ((cMediumC7 cRayC7 (.fin 0) (.fin 100)).map (fun rec =>
      (rec.front_face,
       FP.lt (Vec3.dot cRayC7.dir rec.normal) (.fin 0),
       FP.le (Vec3.dot cRayC7.dir rec.normal) (.fin 0),
       (Vec3.dot cRayC7.dir rec.normal).isNan)))
      = some (true, false, false, false) := by
  decide

/-! ## Claim C9: reported parameters stay in the query interval -/

namespace FP

theorem fmax_ne_nan {x y : FP} (hy : y ≠ nan) : fmax x y ≠ nan := by
  unfold fmax
  by_cases h1 : x = nan
  · rw [if_pos h1]; exact hy
  · rw [if_neg h1, if_neg hy]
    by_cases h3 : lt x y = true
    · rw [if_pos h3]; exact hy
    · rw [if_neg h3]; exact h1

theorem fmin_ne_nan {x y : FP} (hy : y ≠ nan) : fmin x y ≠ nan := by
  unfold fmin
  by_cases h1 : x = nan
  · rw [if_pos h1]; exact hy
  · rw [if_neg h1, if_neg hy]
    by_cases h3 : lt y x = true
    · rw [if_pos h3]; exact hy
    · rw [if_neg h3]; exact h1

theorem le_fmax_right {x y : FP} (hy : y ≠ nan) : le y (fmax x y) = true := by
  unfold fmax
  by_cases h1 : x = nan
  · rw [if_pos h1]; exact le_refl hy
  · rw [if_neg h1, if_neg hy]
    by_cases h3 : lt x y = true
    · rw [if_pos h3]; exact le_refl hy
    · rw [if_neg h3]
      exact (not_lt_iff h1 hy).mp (Bool.eq_false_iff.mpr h3)

theorem le_fmax_left {x y : FP} (hx : x ≠ nan) : le x (fmax x y) = true := by
  unfold fmax
  rw [if_neg hx]
  by_cases h2 : y = nan
  · rw [if_pos h2]; exact le_refl hx
  · rw [if_neg h2]
    by_cases h3 : lt x y = true
    · rw [if_pos h3]; exact le_of_lt h3
    · rw [if_neg h3]; exact le_refl hx

theorem fmin_le_right {x y : FP} (hy : y ≠ nan) : le (fmin x y) y = true := by
  unfold fmin
  by_cases h1 : x = nan
  · rw [if_pos h1]; exact le_refl hy
  · rw [if_neg h1, if_neg hy]
    by_cases h3 : lt y x = true
    · rw [if_pos h3]; exact le_refl hy
    · rw [if_neg h3]
      exact (not_lt_iff hy h1).mp (Bool.eq_false_iff.mpr h3)

theorem fmin_le_left {x y : FP} (hx : x ≠ nan) : le (fmin x y) x = true := by
  unfold fmin
  rw [if_neg hx]
  by_cases h2 : y = nan
  · rw [if_pos h2]; exact le_refl hx
  · rw [if_neg h2]
    by_cases h3 : lt y x = true
    · rw [if_pos h3]; exact le_of_lt h3
    · rw [if_neg h3]; exact le_refl hx

theorem fmax_fin_fin (p q : ℚ) : fmax (fin p) (fin q) = fin (max p q) := by
  unfold fmax
  rw [if_neg (by simp), if_neg (by simp)]
  by_cases h : p < q
  · rw [if_pos (by simp [lt, h])]
    rw [max_eq_right h.le]
  · rw [if_neg (by simp [lt, h])]
    rw [max_eq_left (not_lt.mp h)]

theorem le_fin_right_cases {x : FP} {b : ℚ} (h : le x (fin b) = true) :
    x = inf false ∨ ∃ q, x = fin q ∧ q ≤ b := by
  cases x with
  | nan => simp [le] at h
  | inf a => cases a <;> simp_all [le]
  | fin q => simp only [le, decide_eq_true_eq] at h; exact Or.inr ⟨q, rfl, h⟩

theorem le_fin_left_cases {x : FP} {a : ℚ} (h : le (fin a) x = true) :
    x = inf true ∨ ∃ q, x = fin q ∧ a ≤ q := by
  cases x with
  | nan => simp [le] at h
  | inf b => cases b <;> simp_all [le]
  | fin q => simp only [le, decide_eq_true_eq] at h; exact Or.inr ⟨q, rfl, h⟩

theorem pinf_lt_false (y : FP) : lt (inf true) y = false := by
  cases y with
  | nan => rfl
  | inf b => cases b <;> rfl
  | fin q => rfl

end FP

/-- Both range checks of the `root < t_min || t_max < root` shape
passing means the parameter lies in the (non-NaN) interval. -/
theorem bounds_of_checks {root tmin tmax : FP} (ht : root ≠ FP.nan)
    (h1 : tmin ≠ FP.nan) (h2 : tmax ≠ FP.nan)
    (h : (FP.lt root tmin || FP.lt tmax root) = false) :
    FP.le tmin root = true ∧ FP.le root tmax = true := by
  rcases Bool.or_eq_false_iff.mp h with ⟨ha, hb⟩
  exact ⟨(FP.not_lt_iff ht h1).mp ha, (FP.not_lt_iff h2 ht).mp hb⟩

theorem tbound_sphere (sq uv center radius mat) (r : Ray) (tmin tmax : FP)
    (rec : HitRec) (h1 : tmin ≠ FP.nan) (h2 : tmax ≠ FP.nan)
    (h : sphereHit sq uv center radius mat r tmin tmax = some rec)
    (ht : rec.t ≠ FP.nan) :
    FP.le tmin rec.t = true ∧ FP.le rec.t tmax = true ∧ rec.p = r.at' rec.t := by
  unfold sphereHit at h
  dsimp only at h
  split at h
  · cases h
  · split at h
    · split at h
      · cases h
      · next hchk =>
        cases h
        have := bounds_of_checks ht h1 h2 (Bool.eq_false_iff.mpr hchk)
        exact ⟨this.1, this.2, rfl⟩
    · next hchk =>
      cases h
      have := bounds_of_checks ht h1 h2 (Bool.eq_false_iff.mpr hchk)
      exact ⟨this.1, this.2, rfl⟩

theorem tbound_movingSphere (sq c0 c1 t0 t1 radius mat) (r : Ray) (tmin tmax : FP)
    (rec : HitRec) (h1 : tmin ≠ FP.nan) (h2 : tmax ≠ FP.nan)
    (h : movingSphereHit sq c0 c1 t0 t1 radius mat r tmin tmax = some rec)
    (ht : rec.t ≠ FP.nan) :
    FP.le tmin rec.t = true ∧ FP.le rec.t tmax = true ∧ rec.p = r.at' rec.t := by
  unfold movingSphereHit at h
  dsimp only at h
  split at h
  · cases h
  · split at h
    · split at h
      · cases h
      · next hchk =>
        cases h
        have := bounds_of_checks ht h1 h2 (Bool.eq_false_iff.mpr hchk)
        exact ⟨this.1, this.2, rfl⟩
    · next hchk =>
      cases h
      have := bounds_of_checks ht h1 h2 (Bool.eq_false_iff.mpr hchk)
      exact ⟨this.1, this.2, rfl⟩

theorem tbound_rectXY (mat x0 x1 y0 y1 k) (r : Ray) (tmin tmax : FP)
    (rec : HitRec) (h1 : tmin ≠ FP.nan) (h2 : tmax ≠ FP.nan)
    (h : rectXYHit mat x0 x1 y0 y1 k r tmin tmax = some rec)
    (ht : rec.t ≠ FP.nan) :
    FP.le tmin rec.t = true ∧ FP.le rec.t tmax = true ∧ rec.p = r.at' rec.t := by
  unfold rectXYHit at h
  dsimp only at h
  split at h
  · cases h
  · next hchk =>
    split at h
    · cases h
    · cases h
      have := bounds_of_checks ht h1 h2 (Bool.eq_false_iff.mpr hchk)
      exact ⟨this.1, this.2, rfl⟩

theorem tbound_rectXZ (mat x0 x1 z0 z1 k) (r : Ray) (tmin tmax : FP)
    (rec : HitRec) (h1 : tmin ≠ FP.nan) (h2 : tmax ≠ FP.nan)
    (h : rectXZHit mat x0 x1 z0 z1 k r tmin tmax = some rec)
    (ht : rec.t ≠ FP.nan) :
    FP.le tmin rec.t = true ∧ FP.le rec.t tmax = true ∧ rec.p = r.at' rec.t := by
  unfold rectXZHit at h
  dsimp only at h
  split at h
  · cases h
  · next hchk =>
    split at h
    · cases h
    · cases h
      have := bounds_of_checks ht h1 h2 (Bool.eq_false_iff.mpr hchk)
      exact ⟨this.1, this.2, rfl⟩

theorem tbound_rectYZ (mat y0 y1 z0 z1 k) (r : Ray) (tmin tmax : FP)
    (rec : HitRec) (h1 : tmin ≠ FP.nan) (h2 : tmax ≠ FP.nan)
    (h : rectYZHit mat y0 y1 z0 z1 k r tmin tmax = some rec)
    (ht : rec.t ≠ FP.nan) :
    FP.le tmin rec.t = true ∧ FP.le rec.t tmax = true ∧ rec.p = r.at' rec.t := by
  unfold rectYZHit at h
  dsimp only at h
  split at h
  · cases h
  · next hchk =>
    split at h
    · cases h
    · cases h
      have := bounds_of_checks ht h1 h2 (Bool.eq_false_iff.mpr hchk)
      exact ⟨this.1, this.2, rfl⟩

theorem tbound_medium (boundary : HitFun) (phase : Material) (sq : FP → FP)
    (r : Ray) (rec : HitRec) (a b nd x L : ℚ)
    (hnd : nd < 0) (hx : x < 0) (hsq : sq (Vec3.lengthSq r.dir) = .fin L) (hL : 0 < L)
    (h : mediumHit boundary (.fin nd) phase sq (.fin x) r (.fin a) (.fin b) = some rec) :
    FP.le (.fin a) rec.t = true ∧ FP.le rec.t (.fin b) = true ∧ rec.p = r.at' rec.t := by
  unfold mediumHit at h
  revert h
  split
  · intro h; cases h
  · next rec1 _ =>
    split
    · intro h; cases h
    · next rec2 _ =>
      dsimp only
      rw [hsq]
      split
      · intro h; cases h
      · next hle =>
        split
        · intro h; cases h
        · next hdist =>
          intro h
          cases h
          dsimp only
          -- names for the interval endpoints after clamping
          have hT1 : FP.fmax rec1.t (.fin a) ≠ FP.nan := FP.fmax_ne_nan (by simp)
          have hT2 : FP.fmin rec2.t (.fin b) ≠ FP.nan := FP.fmin_ne_nan (by simp)
          have hlt12 : FP.lt (FP.fmax rec1.t (.fin a)) (FP.fmin rec2.t (.fin b)) = true :=
            (FP.not_le_iff hT2 hT1).mp (Bool.eq_false_iff.mpr hle)
          have hge_a : FP.le (.fin a) (FP.fmax rec1.t (.fin a)) = true :=
            FP.le_fmax_right (by simp)
          have hle_b : FP.le (FP.fmin rec2.t (.fin b)) (.fin b) = true :=
            FP.fmin_le_right (by simp)
          rcases FP.le_fin_left_cases hge_a with hPinf | ⟨c, hc, hac⟩
          · rw [hPinf] at hlt12
            rcases FP.le_fin_right_cases hle_b with hNinf | ⟨e, he, heb⟩
            · rw [hNinf] at hlt12; simp [FP.lt] at hlt12
            · rw [he] at hlt12; simp [FP.lt] at hlt12
          · rcases FP.le_fin_right_cases hle_b with hNinf | ⟨e, he, heb⟩
            · rw [hc, hNinf] at hlt12; simp [FP.lt] at hlt12
            · rw [hc, he] at hlt12 hdist
              rw [hc]
              simp only [FP.lt, decide_eq_true_eq] at hlt12
              -- the zero clamp
              have hmax0 : FP.fmax (.fin c) (.fin 0) = .fin (max c 0) :=
                FP.fmax_fin_fin c 0
              rw [hmax0] at hdist ⊢
              have hdist' : nd * x ≤ (e - max c 0) * L := by
                simp only [FP.sub, FP.neg, FP.add, FP.mul, FP.lt,
                  decide_eq_true_eq, not_lt] at hdist
                linarith
              have hLne : L ≠ 0 := hL.ne'
              have hdiv : FP.div (FP.mul (.fin nd) (.fin x)) (.fin L)
                  = .fin ((nd * x) / L) := by
                simp [FP.mul, FP.div, hLne]
              rw [hdiv]
              have hposdiv : 0 < (nd * x) / L := div_pos (mul_pos_of_neg_of_neg hnd hx) hL
              have hstep : (nd * x) / L ≤ e - max c 0 := by
                rw [div_le_iff₀ hL]
                linarith
              refine ⟨?_, ?_, rfl⟩
              · simp only [FP.add, FP.le, decide_eq_true_eq]
                have : a ≤ c := hac
                have : c ≤ max c 0 := le_max_left c 0
                linarith
              · simp only [FP.add, FP.le, decide_eq_true_eq]
                linarith

/-- The medium's parameter bound for the integrator's actual queries,
whose upper bound is `t_max = +∞`: `min(rec2.t, +∞)` never narrows,
the strictly positive `hit_distance / ray_length` keeps `rec.t` above
the clamped lower bound, and every finite parameter is `≤ +∞`. -/
theorem tbound_medium_inf (boundary : HitFun) (phase : Material) (sq : FP → FP)
    (r : Ray) (rec : HitRec) (a nd x L : ℚ)
    (hnd : nd < 0) (hx : x < 0) (hsq : sq (Vec3.lengthSq r.dir) = .fin L)
    (hL : 0 < L)
    (h : mediumHit boundary (.fin nd) phase sq (.fin x) r (.fin a) (.inf true) =
      some rec) :
    FP.le (.fin a) rec.t = true ∧ FP.le rec.t (.inf true) = true ∧
      rec.p = r.at' rec.t := by
  unfold mediumHit at h
  revert h
  split
  · intro h; cases h
  · next rec1 _ =>
    split
    · intro h; cases h
    · next rec2 _ =>
      dsimp only
      rw [hsq]
      split
      · intro h; cases h
      · next hle =>
        split
        · intro h; cases h
        · next hdist =>
          intro h
          cases h
          dsimp only
          have hT1 : FP.fmax rec1.t (.fin a) ≠ FP.nan := FP.fmax_ne_nan (by simp)
          have hT2 : FP.fmin rec2.t (.inf true) ≠ FP.nan :=
            FP.fmin_ne_nan (by simp)
          have hlt12 : FP.lt (FP.fmax rec1.t (.fin a))
              (FP.fmin rec2.t (.inf true)) = true :=
            (FP.not_le_iff hT2 hT1).mp (Bool.eq_false_iff.mpr hle)
          have hge_a : FP.le (.fin a) (FP.fmax rec1.t (.fin a)) = true :=
            FP.le_fmax_right (by simp)
          rcases FP.le_fin_left_cases hge_a with hPinf | ⟨c, hc, hac⟩
          · rw [hPinf, FP.pinf_lt_false] at hlt12
            cases hlt12
          · rw [hc, FP.fmax_fin_fin c 0]
            have hLne : L ≠ 0 := hL.ne'
            have hdiv : FP.div (FP.mul (.fin nd) (.fin x)) (.fin L)
                = .fin ((nd * x) / L) := by
              simp [FP.mul, FP.div, hLne]
            rw [hdiv]
            have hposdiv : 0 < (nd * x) / L :=
              div_pos (mul_pos_of_neg_of_neg hnd hx) hL
            refine ⟨?_, ?_, rfl⟩
            · simp only [FP.add, FP.le, decide_eq_true_eq]
              have h1 : a ≤ c := hac
              have h2 : c ≤ max c 0 := le_max_left c 0
              linarith
            · rfl

/-- C9 (amended): for spheres, moving spheres, the three axis-aligned
rectangles, and the constant-density medium, a successful hit whose
reported parameter is not NaN satisfies `t_min ≤ rec.t ≤ t_max` (for a
non-NaN query interval), and the reported point always equals
`r.at(rec.t)`.  The NaN proviso is necessary: a rectangle queried by a
ray lying inside its own plane (flat-axis direction component zero and
origin on the plane) reports a hit with `t = NaN`, violating the
bounds — see the counterexample.  The medium clauses cover finite
query intervals and the integrator's actual queries at `t_max = +∞`,
under explicit hypotheses recording the realizable oracle ranges: a
genuinely negative `neg_inv_density` (i.e. a positive density), a
negative `ln U` draw, and a positive finite `direction().length()`;
outside them (e.g. a negative density, whose `neg_inv_density` is
positive) the medium really can report `rec.t < t_min`. -/
theorem C9_t_in_interval (sq : FP → FP) (uv : Vec3 → FP × FP) (center : Vec3)
    (radius : FP) (m : Material) (c0 c1 : Vec3) (t0 t1 x0 x1 y0 y1 z0 z1 k : FP)
    (boundary : HitFun) (phase : Material) (r : Ray) (tmin tmax : FP)
    (rec : HitRec) (a b nd x L : ℚ) :
    (tmin ≠ FP.nan → tmax ≠ FP.nan →
      sphereHit sq uv center radius m r tmin tmax = some rec → rec.t ≠ FP.nan →
      FP.le tmin rec.t = true ∧ FP.le rec.t tmax = true ∧ rec.p = r.at' rec.t) ∧
    (tmin ≠ FP.nan → tmax ≠ FP.nan →
      movingSphereHit sq c0 c1 t0 t1 radius m r tmin tmax = some rec → rec.t ≠ FP.nan →
      FP.le tmin rec.t = true ∧ FP.le rec.t tmax = true ∧ rec.p = r.at' rec.t) ∧
    (tmin ≠ FP.nan → tmax ≠ FP.nan →
      rectXYHit m x0 x1 y0 y1 k r tmin tmax = some rec → rec.t ≠ FP.nan →
      FP.le tmin rec.t = true ∧ FP.le rec.t tmax = true ∧ rec.p = r.at' rec.t) ∧
    (tmin ≠ FP.nan → tmax ≠ FP.nan →
      rectXZHit m x0 x1 z0 z1 k r tmin tmax = some rec → rec.t ≠ FP.nan →
      FP.le tmin rec.t = true ∧ FP.le rec.t tmax = true ∧ rec.p = r.at' rec.t) ∧
    (tmin ≠ FP.nan → tmax ≠ FP.nan →
      rectYZHit m y0 y1 z0 z1 k r tmin tmax = some rec → rec.t ≠ FP.nan →
      FP.le tmin rec.t = true ∧ FP.le rec.t tmax = true ∧ rec.p = r.at' rec.t) ∧
    (nd < 0 → x < 0 → sq (Vec3.lengthSq r.dir) = .fin L → 0 < L →
      mediumHit boundary (.fin nd) phase sq (.fin x) r (.fin a) (.fin b) = some rec →
      FP.le (.fin a) rec.t = true ∧ FP.le rec.t (.fin b) = true ∧ rec.p = r.at' rec.t) ∧
    (nd < 0 → x < 0 → sq (Vec3.lengthSq r.dir) = .fin L → 0 < L →
      mediumHit boundary (.fin nd) phase sq (.fin x) r (.fin a) (.inf true) = some rec →
      FP.le (.fin a) rec.t = true ∧ FP.le rec.t (.inf true) = true ∧
        rec.p = r.at' rec.t) := by
  refine ⟨?_, ?_, ?_, ?_, ?_, ?_, ?_⟩
  · intro h1 h2 h ht; exact tbound_sphere sq uv center radius m r tmin tmax rec h1 h2 h ht
  · intro h1 h2 h ht
    exact tbound_movingSphere sq c0 c1 t0 t1 radius m r tmin tmax rec h1 h2 h ht
  · intro h1 h2 h ht; exact tbound_rectXY m x0 x1 y0 y1 k r tmin tmax rec h1 h2 h ht
  · intro h1 h2 h ht; exact tbound_rectXZ m x0 x1 z0 z1 k r tmin tmax rec h1 h2 h ht
  · intro h1 h2 h ht; exact tbound_rectYZ m y0 y1 z0 z1 k r tmin tmax rec h1 h2 h ht
  · intro hnd hx hsq hL h
    exact tbound_medium boundary phase sq r rec a b nd x L hnd hx hsq hL h
  · intro hnd hx hsq hL h
    exact tbound_medium_inf boundary phase sq r rec a nd x L hnd hx hsq hL h

/-- The record `cMediumC7` produces for `cRayC7` on `[0, 100]`. -/
def cRecM : HitRec :=
  { p := ⟨.fin (-9/50), .fin (-6/25), .fin 0⟩, normal := ⟨.fin 1, .fin 0, .fin 0⟩,
    mat := some mIso, t := .fin (1/25), u := .fin 0, v := .fin 0, front_face := true }

unseal Rat.add Rat.mul Rat.sub Rat.inv in
theorem cRecM_hit :
    cMediumC7 cRayC7 (.fin 0) (.fin 100) = some cRecM := rfl

unseal Rat.add Rat.mul Rat.sub Rat.inv in
/-- The same record is produced on the integrator's actual interval
`[0, +∞)`. -/
theorem cRecM_hit_inf :
    cMediumC7 cRayC7 (.fin 0) (.inf true) = some cRecM := rfl

unseal Rat.add Rat.mul Rat.sub Rat.inv in
theorem C9_witness :
    (FP.le (.fin 0) cRecW.t = true ∧ FP.le cRecW.t (.fin 10) = true ∧
      cRecW.p = cRay2.at' cRecW.t) ∧
    (FP.le (.fin 0) cRecM.t = true ∧ FP.le cRecM.t (.fin 100) = true ∧
      cRecM.p = cRayC7.at' cRecM.t) ∧
    (FP.le (.fin 0) cRecM.t = true ∧ FP.le cRecM.t (.inf true) = true ∧
      cRecM.p = cRayC7.at' cRecM.t) := by
  refine ⟨?_, ?_, ?_⟩
  · exact (C9_t_in_interval (fun _ => .fin 0) (fun _ => (.fin 0, .fin 0)) Vec3.zeros
      (.fin 1) (diffuseLightMat Vec3.ones) Vec3.zeros Vec3.zeros (.fin 0) (.fin 0)
      (.fin (-1)) (.fin 1) (.fin (-1)) (.fin 1) (.fin 0) (.fin 0) (.fin 0)
      cWorldNone (diffuseLightMat Vec3.ones) cRay2 (.fin 0) (.fin 10) cRecW
      0 0 0 0 0).2.2.1 (by decide) (by decide) cRecW_hit (by decide)
  · exact (C9_t_in_interval sqC7 (fun _ => (.fin 0, .fin 0)) Vec3.zeros
      (.fin 1) mIso Vec3.zeros Vec3.zeros (.fin 0) (.fin 0)
      (.fin (-1)) (.fin 1) (.fin (-1)) (.fin 1) (.fin 0) (.fin 0) (.fin 0)
      (cubeHit mIso ⟨.fin (-1), .fin (-1), .fin (-1)⟩ ⟨.fin 1, .fin 1, .fin 1⟩)
      mIso cRayC7 (.fin 0) (.fin 100) cRecM
      0 100 (-1) (-1/5) 5).2.2.2.2.2.1 (by norm_num) (by norm_num) (by decide)
      (by norm_num) cRecM_hit
  · exact (C9_t_in_interval sqC7 (fun _ => (.fin 0, .fin 0)) Vec3.zeros
      (.fin 1) mIso Vec3.zeros Vec3.zeros (.fin 0) (.fin 0)
      (.fin (-1)) (.fin 1) (.fin (-1)) (.fin 1) (.fin 0) (.fin 0) (.fin 0)
      (cubeHit mIso ⟨.fin (-1), .fin (-1), .fin (-1)⟩ ⟨.fin 1, .fin 1, .fin 1⟩)
      mIso cRayC7 (.fin 0) (.fin 100) cRecM
      0 100 (-1) (-1/5) 5).2.2.2.2.2.2 (by norm_num) (by norm_num) (by decide)
      (by norm_num) cRecM_hit_inf

/-- A ray lying inside the plane of the rectangle (origin on `z = 0`,
direction `(1,0,0)` with zero flat-axis component). -/
def cRayC9 : Ray := ⟨⟨.fin 0, .fin 0, .fin 0⟩, ⟨.fin 1, .fin 0, .fin 0⟩, .fin 0⟩

unseal Rat.add Rat.mul Rat.sub Rat.inv in
/-- C9 is false as stated: the in-plane ray makes `rect::XY::hit`
compute `t = (k - origin.z) / dir.z = 0/0 = NaN`; every range check on
NaN passes, so a hit is reported whose parameter satisfies neither
`t_min ≤ t` nor `t ≤ t_max`. -/
theorem C9_cex :
    ((rectXYHit (diffuseLightMat Vec3.ones) (.fin (-1)) (.fin 1) (.fin (-1)) (.fin 1)
        (.fin 0) cRayC9 (.fin 0) (.fin 10)).map (fun rec =>
      (rec.t.isNan, FP.le (.fin 0) rec.t, FP.le rec.t (.fin 10))))
      = some (true, false, false) := by
  decide

/-! ## Claim C3: the integrator's case analysis -/

/-- C3: for every ray, background, world and depth: `ray_color` at
depth 0 is black; at positive depth a miss over `[0.001, ∞)` yields the
background; a hit whose material does not scatter yields the emitted
color alone; a hit that scatters with attenuation `a` and ray `s`
yields `emitted + a * ray_color(s, depth-1)`.  Termination for every
input is by structural recursion on the strictly decreasing depth
argument (see the definition of `ray_color`). -/
theorem C3_ray_color_cases (world : HitFun) (bg : Vec3) (r : Ray) (rec : HitRec)
    (m : Material) (att : Vec3) (scat : Ray) (d : ℕ) :
    ray_color world bg r 0 = some Vec3.zeros ∧
    (world r (.fin (1/1000)) (.inf true) = none →
      ray_color world bg r (d + 1) = some bg) ∧
    (world r (.fin (1/1000)) (.inf true) = some rec → rec.mat = some m →
      m.scatter r rec.toScatterIn = none →
      ray_color world bg r (d + 1) = some (m.emitted rec.u rec.v rec.p)) ∧
    (world r (.fin (1/1000)) (.inf true) = some rec → rec.mat = some m →
      m.scatter r rec.toScatterIn = some (att, scat) →
      ray_color world bg r (d + 1) =
        (ray_color world bg scat d).map
          (fun c => Vec3.add (m.emitted rec.u rec.v rec.p) (Vec3.cmul att c))) := by
  refine ⟨rfl, ?_, ?_, ?_⟩
  · intro hmiss
    unfold ray_color
    rw [hmiss]
  · intro hhit hmat hnoscat
    unfold ray_color
    rw [hhit]
    dsimp only
    rw [hmat]
    dsimp only
    rw [hnoscat]
  · intro hhit hmat hscat
    conv_lhs => rw [ray_color]
    rw [hhit]
    dsimp only
    rw [hmat]
    dsimp only
    rw [hscat]

theorem C3_witness :
    ray_color cWorldNone Vec3.ones cRay 1 = some Vec3.ones ∧
    ray_color cWorldEmit Vec3.zeros cRay 1 = some Vec3.ones ∧
    ray_color cWorldScat Vec3.zeros cRay 1 =
      (ray_color cWorldScat Vec3.zeros cRay 0).map
        (fun c => Vec3.add Vec3.zeros (Vec3.cmul Vec3.ones c)) := by
  refine ⟨?_, ?_, ?_⟩
  · exact (C3_ray_color_cases cWorldNone Vec3.ones cRay HitRec.default
      (diffuseLightMat Vec3.ones) Vec3.ones cRay 0).2.1 rfl
  · exact (C3_ray_color_cases cWorldEmit Vec3.zeros cRay cRecEmit
      (diffuseLightMat Vec3.ones) Vec3.ones cRay 0).2.2.1 rfl rfl rfl
  · exact (C3_ray_color_cases cWorldScat Vec3.zeros cRay cRecScat
      cScatMat Vec3.ones cRay 0).2.2.2 rfl rfl rfl

/-! ## Claim C6: transactional hits and material presence -/

/-- C6: every intersection variant either returns a fully-populated
record — in particular a `Some` material — or `none` (the embedding of
the `Option<HitRecord>` trait shape of `hittable.rs`; no partial state
exists on the `none` path).  Leaf variants always store a material;
composite variants propagate their children's records; consequently
the integrator's material `expect` (`ray_color`'s `none` branch) is
unreachable over any such world. -/
theorem C6_hit_populates_material (sq : FP → FP) (uv : Vec3 → FP × FP)
    (center : Vec3) (radius : FP) (m : Material) (c0 c1 : Vec3)
    (t0 t1 x0 x1 y0 y1 z0 z1 k : FP) (p0 p1 offset : Vec3)
    (sinT cosT nid ξ : FP) (phase : Material) (child : HitFun)
    (fs : List HitFun) (lh rh : HitFun) (bx : Aabb) (tr : BvhT)
    (world : HitFun) (bg : Vec3) :
    MatTot (sphereHit sq uv center radius m) ∧
    MatTot (movingSphereHit sq c0 c1 t0 t1 radius m) ∧
    MatTot (rectXYHit m x0 x1 y0 y1 k) ∧
    MatTot (rectXZHit m x0 x1 z0 z1 k) ∧
    MatTot (rectYZHit m y0 y1 z0 z1 k) ∧
    MatTot (cubeHit m p0 p1) ∧
    (MatTot child → MatTot (translateHit child offset)) ∧
    (MatTot child → MatTot (rotateYHit child sinT cosT)) ∧
    MatTot (mediumHit child nid phase sq ξ) ∧
    ((∀ f ∈ fs, MatTot f) → MatTot (listHit fs)) ∧
    (MatTot lh → MatTot rh → MatTot (bvhNodeHit lh rh bx)) ∧
    ((∀ o ∈ tr.leaves, MatTot o.hit) → MatTot tr.hit) ∧
    (MatTot world → ∀ d r, (ray_color world bg r d).isSome = true) := by
  refine ⟨matTot_sphere sq uv center radius m,
    matTot_movingSphere sq c0 c1 t0 t1 radius m,
    matTot_rectXY m x0 x1 y0 y1 k,
    matTot_rectXZ m x0 x1 z0 z1 k,
    matTot_rectYZ m y0 y1 z0 z1 k,
    matTot_cube m p0 p1,
    matTot_translate child offset,
    matTot_rotateY child sinT cosT,
    matTot_medium child nid phase sq ξ,
    matTot_list fs,
    matTot_bvhNode lh rh bx,
    matTot_bvhT tr,
    ray_color_total world bg⟩

theorem C6_witness :
    (ray_color cWorldScat Vec3.zeros cRay 2).isSome = true := by
  have h := C6_hit_populates_material (fun _ => .fin 0) (fun _ => (.fin 0, .fin 0))
    Vec3.zeros (.fin 1) (diffuseLightMat Vec3.ones) Vec3.zeros Vec3.zeros
    (.fin 0) (.fin 0) (.fin 0) (.fin 0) (.fin 0) (.fin 0) (.fin 0) (.fin 0) (.fin 0)
    Vec3.zeros Vec3.zeros Vec3.zeros (.fin 0) (.fin 0) (.fin 0) (.fin 0)
    (diffuseLightMat Vec3.ones) cWorldNone [] cWorldNone cWorldNone
    ⟨Vec3.zeros, Vec3.zeros⟩ (.obj ⟨cWorldNone, fun _ _ => none⟩) cWorldScat Vec3.zeros
  refine h.2.2.2.2.2.2.2.2.2.2.2.2 ?_ 2 cRay
  intro r tmin tmax rec hr
  cases hr
  rfl

/-! ## Claim C8: the dielectric material -/

namespace FP

theorem one_mul (x : FP) : mul (fin 1) x = x := by
  cases x with
  | nan => rfl
  | inf b => simp [mul]
  | fin q => simp [mul]

theorem mul_one (x : FP) : mul x (fin 1) = x := by
  cases x with
  | nan => rfl
  | inf b => simp [mul]
  | fin q => simp [mul]

theorem powNat_two (x : FP) : powNat x 2 = mul x x := by
  show mul (mul (powNat x 0) x) x = mul x x
  show mul (mul (fin 1) x) x = mul x x
  rw [one_mul]

theorem powNat_five (x : FP) :
    powNat x 5 = mul (mul (mul (mul x x) x) x) x := by
  show mul (mul (mul (mul (mul (fin 1) x) x) x) x) x
      = mul (mul (mul (mul x x) x) x) x
  rw [one_mul]

end FP

theorem Vec3.smul_one (v : Vec3) : Vec3.smul v (.fin 1) = v := by
  cases v
  simp [Vec3.smul, FP.mul_one]

/-- Snell refraction is the identity at `η = 1` on exact unit vectors:
with `|u|² = |n|² = 1`, `u·n = -c`, `0 ≤ c ≤ 1` and the sqrt oracle
exact at `c²`, `refract u n 1` returns `u` itself. -/
theorem refract_one (u n : Vec3) (sq : FP → FP) (c u1 u2 u3 n1 n2 n3 : ℚ)
    (hu : u = ⟨.fin u1, .fin u2, .fin u3⟩) (hn : n = ⟨.fin n1, .fin n2, .fin n3⟩)
    (hu1 : u1 * u1 + u2 * u2 + u3 * u3 = 1)
    (hn1 : n1 * n1 + n2 * n2 + n3 * n3 = 1)
    (hdot : u1 * n1 + u2 * n2 + u3 * n3 = -c)
    (_hc0 : 0 ≤ c) (hc1 : c ≤ 1)
    (hsq : sq (.fin (c * c)) = .fin c) :
    refract u n (.fin 1) sq = u := by
  subst hu hn
  unfold refract
  dsimp only
  have hcos : Vec3.dot (Vec3.neg ⟨.fin u1, .fin u2, .fin u3⟩)
      ⟨.fin n1, .fin n2, .fin n3⟩ = .fin c := by
    simp only [Vec3.neg, Vec3.smul, Vec3.dot, FP.mul, FP.add, FP.fin.injEq]
    linarith [hdot]
  rw [hcos]
  have hcosθ : (if FP.lt (FP.fin c) (.fin 1) = true then FP.fin c else FP.fin 1)
      = .fin c := by
    by_cases h : c < 1
    · rw [if_pos (by simp [FP.lt, h])]
    · rw [if_neg (by simp [FP.lt, h])]
      have : c = 1 := le_antisymm hc1 (not_lt.mp h)
      rw [this]
  rw [hcosθ]
  have hperp : Vec3.smul (Vec3.add ⟨.fin u1, .fin u2, .fin u3⟩
      (Vec3.smul ⟨.fin n1, .fin n2, .fin n3⟩ (.fin c))) (.fin 1)
      = ⟨.fin (u1 + n1 * c), .fin (u2 + n2 * c), .fin (u3 + n3 * c)⟩ := by
    simp [Vec3.add, Vec3.smul, FP.mul, FP.add, FP.mul_one]
  rw [hperp]
  have hlen : Vec3.lengthSq ⟨.fin (u1 + n1 * c), .fin (u2 + n2 * c), .fin (u3 + n3 * c)⟩
      = .fin (1 - c * c) := by
    simp only [Vec3.lengthSq, FP.mul, FP.add, FP.fin.injEq]
    linear_combination hu1 + (c * c) * hn1 + (2 * c) * hdot
  rw [hlen]
  have hsub : FP.sub (.fin 1) (.fin (1 - c * c)) = .fin (c * c) := by
    simp only [FP.sub, FP.neg, FP.add, FP.fin.injEq]
    ring
  rw [hsub]
  have habs : FP.abs (.fin (c * c)) = .fin (c * c) := by
    simp [FP.abs, abs_of_nonneg (mul_self_nonneg c)]
  rw [habs, hsq]
  have hnegc : FP.neg (.fin c) = .fin (-c) := rfl
  rw [hnegc]
  simp only [Vec3.add, Vec3.smul, FP.mul, FP.add, Vec3.mk.injEq, FP.fin.injEq]
  refine ⟨by ring, by ring, by ring⟩

/-- C8 (amended): `Dielectric::scatter` always reports a scatter with
attenuation `(1,1,1)`; the reflectance is Schlick's
`R0 + (1-R0)(1-cosθ)^5` with `R0 = ((1-η)/(1+η))²`; the outgoing
direction is the mirror reflection of the *normalized* incoming
direction whenever `η·sinθ > 1` (total internal reflection) or the
uniform draw falls strictly below the reflectance, and the Snell
refraction otherwise; and at refractive index 1.0 the *refraction*
branch returns exactly the normalized incoming direction (no bending).
The claim's final clause is false as stated: at `η = 1` the
reflectance `(1-cosθ)^5` is positive away from normal incidence, so
draws below it take the reflection branch and the outgoing direction
differs from the incoming one (see the counterexample); moreover the
outgoing direction is the unit-normalized incoming direction, not the
raw incoming vector. -/
theorem C8_dielectric (ir : FP) (sq : FP → FP) (draw : FP) (r_in : Ray)
    (rec : ScatterIn) (cos η : FP) (c u1 u2 u3 n1 n2 n3 : ℚ) :
    (dielectricMat ir sq draw).scatter r_in rec
        = some (dielectricScatter ir sq draw r_in rec) ∧
    (dielectricScatter ir sq draw r_in rec).1 = Vec3.ones ∧
    (reflectance cos η =
      FP.add (FP.mul (FP.div (FP.sub (.fin 1) η) (FP.add (.fin 1) η))
                     (FP.div (FP.sub (.fin 1) η) (FP.add (.fin 1) η)))
        (FP.mul (FP.sub (.fin 1) (FP.mul (FP.div (FP.sub (.fin 1) η) (FP.add (.fin 1) η))
                                         (FP.div (FP.sub (.fin 1) η) (FP.add (.fin 1) η))))
          (FP.mul (FP.mul (FP.mul (FP.mul (FP.sub (.fin 1) cos) (FP.sub (.fin 1) cos))
            (FP.sub (.fin 1) cos)) (FP.sub (.fin 1) cos)) (FP.sub (.fin 1) cos)))) ∧
    (∀ ratio uDir cosT sinT,
      ratio = (if rec.front_face then FP.div (.fin 1) ir else ir) →
      uDir = unit_vector r_in.dir sq →
      cosT = FP.fmin (Vec3.dot (Vec3.neg uDir) rec.normal) (.fin 1) →
      sinT = sq (FP.sub (.fin 1) (FP.mul cosT cosT)) →
      ((FP.lt (.fin 1) (FP.mul ratio sinT) || FP.lt draw (reflectance cosT ratio)) = true →
        (dielectricScatter ir sq draw r_in rec).2.dir = Vec3.reflect uDir rec.normal) ∧
      ((FP.lt (.fin 1) (FP.mul ratio sinT) || FP.lt draw (reflectance cosT ratio)) = false →
        (dielectricScatter ir sq draw r_in rec).2.dir = refract uDir rec.normal ratio sq)) ∧
    (∀ u n : Vec3, u = ⟨.fin u1, .fin u2, .fin u3⟩ → n = ⟨.fin n1, .fin n2, .fin n3⟩ →
      u1 * u1 + u2 * u2 + u3 * u3 = 1 → n1 * n1 + n2 * n2 + n3 * n3 = 1 →
      u1 * n1 + u2 * n2 + u3 * n3 = -c → 0 ≤ c → c ≤ 1 →
      sq (.fin (c * c)) = .fin c →
      refract u n (.fin 1) sq = u) := by
  refine ⟨rfl, rfl, ?_, ?_, ?_⟩
  · unfold reflectance
    dsimp only
    rw [FP.powNat_two, FP.powNat_five]
  · intro ratio uDir cosT sinT hratio huDir hcosT hsinT
    subst hratio huDir hcosT hsinT
    constructor
    · intro hcond
      unfold dielectricScatter
      dsimp only
      rw [if_pos hcond]
    · intro hcond
      unfold dielectricScatter
      dsimp only
      rw [if_neg (by rw [hcond]; simp)]
  · intro u n hu hn hu1 hn1 hdot hc0 hc1 hsq
    exact refract_one u n sq c u1 u2 u3 n1 n2 n3 hu hn hu1 hn1 hdot hc0 hc1 hsq

/-- The sqrt oracle for the C8 witness (exact at 0 and 1, the only
points read). -/
def sqC8w : FP → FP := fun x => if x = .fin 0 then .fin 0 else .fin 1

/-- Hit data for the C8 witness: head-on incidence, `front_face`. -/
def cRecC8w : ScatterIn :=
  { p := Vec3.zeros, normal := ⟨.fin 0, .fin 0, .fin (-1)⟩, t := .fin 1,
    u := .fin 0, v := .fin 0, front_face := true }

unseal Rat.add Rat.mul Rat.sub Rat.inv in
theorem C8_witness :
    (dielectricMat (.fin 1) sqC8w (.fin (1/2))).scatter cRay cRecC8w
        = some (dielectricScatter (.fin 1) sqC8w (.fin (1/2)) cRay cRecC8w) ∧
    (dielectricScatter (.fin 1) sqC8w (.fin (1/2)) cRay cRecC8w).1 = Vec3.ones ∧
    refract ⟨.fin 0, .fin 0, .fin 1⟩ ⟨.fin 0, .fin 0, .fin (-1)⟩ (.fin 1) sqC8w
      = ⟨.fin 0, .fin 0, .fin 1⟩ := by
  have h := C8_dielectric (.fin 1) sqC8w (.fin (1/2)) cRay cRecC8w (.fin 1) (.fin 1)
    1 0 0 1 0 0 (-1)
  refine ⟨h.1, h.2.1, ?_⟩
  exact h.2.2.2.2 ⟨.fin 0, .fin 0, .fin 1⟩ ⟨.fin 0, .fin 0, .fin (-1)⟩ rfl rfl
    (by norm_num) (by norm_num) (by norm_num) (by norm_num) (by norm_num) (by decide)

/-- The sqrt oracle for the C8 counterexample (exact at 1 and 16/25,
the only points read). -/
def sqC8 : FP → FP :=
  fun x => if x = .fin 1 then .fin 1 else if x = .fin (16/25) then .fin (4/5) else .fin 0

/-- An already-unit incoming direction `(4/5, 0, -3/5)`. -/
def cRayC8 : Ray := ⟨Vec3.zeros, ⟨.fin (4/5), .fin 0, .fin (-3/5)⟩, .fin 0⟩

/-- Hit data for the C8 counterexample (`cosθ = 3/5`). -/
def cRecC8 : ScatterIn :=
  { p := Vec3.zeros, normal := ⟨.fin 0, .fin 0, .fin 1⟩, t := .fin 1,
    u := .fin 0, v := .fin 0, front_face := true }

unseal Rat.add Rat.mul Rat.sub Rat.inv in
/-- C8 is false as stated: at refractive index 1.0, the draw
`1/3125 < (1 - 3/5)^5 = 32/3125` selects the reflection branch, and
the outgoing direction `(4/5, 0, 3/5)` differs from the incoming
direction `(4/5, 0, -3/5)`. -/
theorem C8_cex :
    (dielectricScatter (.fin 1) sqC8 (.fin (1/3125)) cRayC8 cRecC8).2.dir
      = ⟨.fin (4/5), .fin 0, .fin (3/5)⟩ ∧
    (dielectricScatter (.fin 1) sqC8 (.fin (1/3125)) cRayC8 cRecC8).2.dir
      ≠ cRayC8.dir := by
  constructor
  · decide
  · decide

/-! ## Claims C4 and C10: the per-pixel sampling pipeline -/

/-- Specification-side value of one pixel: the tone-mapped sum of
exactly `samples_per_pixel` `ray_color` evaluations (§4.5 of the
spec), written against the same jitter/camera/powf oracles. -/
def pixelValue (world : HitFun) (conf : Config) (cam : FP → FP → Ray)
    (jit : ℕ → Bool → FP) (pw : FP → FP → FP) (i j : ℕ) : Vec3 :=
  match (List.range conf.samples_per_pixel).map (fun s =>
    (ray_color world conf.background
      (cam (calcUV i conf.image_width (jit s true)) (calcUV j conf.image_height (jit s false)))
      conf.max_depth).getD Vec3.zeros) with
  | [] => Vec3.zeros
  | c :: cs => fix_pixel pw conf.samples_per_pixel conf.gamma (cs.foldl Vec3.add c)

/-- Specification-side buffer: rows from the top (`j = height-1`) down,
pixels left to right, flattened row-major. -/
def refBuffer (world : HitFun) (conf : Config) (cam : FP → FP → Ray)
    (jit : ℕ → ℕ → ℕ → Bool → FP) (pw : FP → FP → FP) : List Vec3 :=
  ((List.range conf.image_height).reverse.map (fun j =>
    (List.range conf.image_width).map (fun i =>
      pixelValue world conf cam (jit i j) pw i j))).flatten

theorem mapM_ok_of_forall {α β : Type} (f : α → Except String β) (g : α → β)
    (l : List α) (h : ∀ x ∈ l, f x = .ok (g x)) : l.mapM f = .ok (l.map g) := by
  induction l with
  | nil => rfl
  | cons x xs ih =>
    rw [List.mapM_cons, h x (List.mem_cons_self x xs),
      ih (fun y hy => h y (List.mem_cons_of_mem x hy))]
    rfl

theorem mapM_error_head {α β : Type} (f : α → Except String β) (x : α) (xs : List α)
    (e : String) (h : f x = .error e) : (x :: xs).mapM f = .error e := by
  rw [List.mapM_cons, h]
  rfl

theorem samplePixel_ok (world : HitFun) (conf : Config) (cam : FP → FP → Ray)
    (jitp : ℕ → Bool → FP) (pw : FP → FP → FP) (i j : ℕ)
    (hmat : MatTot world) (hn : 1 ≤ conf.samples_per_pixel) :
    samplePixel world conf cam jitp pw i j
      = .ok (pixelValue world conf cam jitp pw i j) := by
  have hsome : ∀ s : ℕ,
      ray_color world conf.background
        (cam (calcUV i conf.image_width (jitp s true))
             (calcUV j conf.image_height (jitp s false))) conf.max_depth
      = some ((ray_color world conf.background
          (cam (calcUV i conf.image_width (jitp s true))
               (calcUV j conf.image_height (jitp s false))) conf.max_depth).getD
            Vec3.zeros) := by
    intro s
    rcases Option.isSome_iff_exists.mp (ray_color_total world conf.background hmat
      conf.max_depth _) with ⟨c, hc⟩
    rw [hc]
    rfl
  unfold samplePixel
  rw [show ((List.range conf.samples_per_pixel).mapM (fun s => do
      let v := calcUV j conf.image_height (jitp s false)
      let u := calcUV i conf.image_width (jitp s true)
      let r := cam u v
      match ray_color world conf.background r conf.max_depth with
      | some c => Except.ok c
      | none => Except.error "at this point the rec should have a inner material"))
    = Except.ok ((List.range conf.samples_per_pixel).map (fun s =>
        (ray_color world conf.background
          (cam (calcUV i conf.image_width (jitp s true))
               (calcUV j conf.image_height (jitp s false))) conf.max_depth).getD
          Vec3.zeros)) from mapM_ok_of_forall _ _ _ (by
      intro s _
      dsimp only
      rw [hsome s]
      rfl)]
  show (match (List.range conf.samples_per_pixel).map (fun s =>
      (ray_color world conf.background
        (cam (calcUV i conf.image_width (jitp s true))
             (calcUV j conf.image_height (jitp s false))) conf.max_depth).getD
        Vec3.zeros) with
    | [] => Except.error "This iteration should never yield a None"
    | c :: cs =>
      Except.ok (fix_pixel pw conf.samples_per_pixel conf.gamma (cs.foldl Vec3.add c)))
    = Except.ok (pixelValue world conf cam jitp pw i j)
  unfold pixelValue
  rcases hr : (List.range conf.samples_per_pixel).map (fun s =>
      (ray_color world conf.background
        (cam (calcUV i conf.image_width (jitp s true))
             (calcUV j conf.image_height (jitp s false))) conf.max_depth).getD
        Vec3.zeros) with _ | ⟨c, cs⟩
  · have : conf.samples_per_pixel = 0 := by
      have hlen := congrArg List.length hr
      simpa using hlen
    omega
  · rfl

theorem irun_ok (world : HitFun) (conf : Config) (cam : FP → FP → Ray)
    (jit : ℕ → ℕ → ℕ → Bool → FP) (pw : FP → FP → FP)
    (hmat : MatTot world) (hn : 1 ≤ conf.samples_per_pixel) :
    irun world conf cam jit pw = .ok (refBuffer world conf cam jit pw) := by
  unfold irun refBuffer
  rw [mapM_ok_of_forall _
    (fun j => (List.range conf.image_width).map (fun i =>
      pixelValue world conf cam (jit i j) pw i j)) _ (by
    intro j _
    exact mapM_ok_of_forall _ _ _ (fun i _ =>
      samplePixel_ok world conf cam (jit i j) pw i j hmat hn))]
  rfl

theorem samplePixel_zero (world : HitFun) (conf : Config) (cam : FP → FP → Ray)
    (jitp : ℕ → Bool → FP) (pw : FP → FP → FP) (i j : ℕ)
    (h0 : conf.samples_per_pixel = 0) :
    samplePixel world conf cam jitp pw i j
      = .error "This iteration should never yield a None" := by
  unfold samplePixel
  rw [h0]
  rfl

theorem irun_zero (world : HitFun) (conf : Config) (cam : FP → FP → Ray)
    (jit : ℕ → ℕ → ℕ → Bool → FP) (pw : FP → FP → FP)
    (h0 : conf.samples_per_pixel = 0) (hw : 1 ≤ conf.image_width)
    (hh : 1 ≤ conf.image_height) :
    irun world conf cam jit pw
      = .error "This iteration should never yield a None" := by
  unfold irun
  rcases hH : conf.image_height with _ | hh'
  · omega
  · rcases hW : conf.image_width with _ | ww'
    · omega
    · have hrev : (List.range (hh' + 1)).reverse = hh' :: (List.range hh').reverse := by
        rw [List.range_succ, List.reverse_append]
        rfl
      have hpix : samplePixel world conf cam (jit 0 hh') pw 0 hh'
          = .error "This iteration should never yield a None" :=
        samplePixel_zero world conf cam (jit 0 hh') pw 0 hh' h0
      have hrow : (List.range (ww' + 1)).mapM
          (fun i => samplePixel world conf cam (jit i hh') pw i hh')
          = .error "This iteration should never yield a None" := by
        rw [List.range_succ_eq_map]
        exact mapM_error_head _ _ _ _ hpix
      have hrows : (hh' :: (List.range hh').reverse).mapM
          (fun j => (List.range (ww' + 1)).mapM
            (fun i => samplePixel world conf cam (jit i j) pw i j))
          = .error "This iteration should never yield a None" :=
        mapM_error_head _ _ _ _ hrow
      rw [hrev, hrows]
      rfl

theorem clamp_bound {x : FP} (hx : x ≠ .nan) :
    ∃ q : ℚ, clamp x (.fin 0) (.fin (999/1000)) = .fin q ∧ 0 ≤ q ∧ q ≤ 999/1000 := by
  unfold clamp
  by_cases h1 : FP.lt x (.fin 0) = true
  · rw [if_pos h1]
    exact ⟨0, rfl, le_refl _, by norm_num⟩
  · rw [if_neg h1]
    by_cases h2 : FP.lt (.fin (999/1000)) x = true
    · rw [if_pos h2]
      exact ⟨999/1000, rfl, by norm_num, le_refl _⟩
    · rw [if_neg h2]
      have hge : FP.le (.fin 0) x = true :=
        (FP.not_lt_iff hx (by simp)).mp (Bool.eq_false_iff.mpr h1)
      have hle : FP.le x (.fin (999/1000)) = true :=
        (FP.not_lt_iff (by simp) hx).mp (Bool.eq_false_iff.mpr h2)
      rcases FP.le_fin_right_cases hle with hni | ⟨q, hq, hqle⟩
      · rw [hni] at hge
        simp [FP.le] at hge
      · rw [hq] at hge
        simp only [FP.le, decide_eq_true_eq] at hge
        exact ⟨q, hq, hge, hqle⟩

theorem fix_pixel_val_le (pw : FP → FP → FP) (n : ℕ) (g v : FP)
    (hnn : pw (FP.mul (FP.div (.fin 1) (.fin (n : ℚ))) v) (FP.div (.fin 1) g) ≠ .nan) :
    FP.le (fix_pixel_val pw n g v) (.fin (31968/125)) = true := by
  obtain ⟨q, hq, hq0, hq1⟩ := clamp_bound hnn
  unfold fix_pixel_val
  dsimp only
  rw [hq]
  simp only [FP.mul, FP.le, FP.fin.injEq, decide_eq_true_eq]
  linarith

/-- C4 (amended): each output channel of the rendered buffer equals
`256 * clamp((v/n)^(1/gamma), 0, 0.999)` applied to the accumulated
per-pixel color `v` (the buffer is exactly the per-pixel tone-mapped
sample sums), and therefore — whenever the gamma-corrected value is
not NaN — a channel never exceeds `256·0.999 = 255.744`.  The claimed
bound of 255 is false: a scene with a single reflective sphere and a
solid `(1,1,1)` background produces channels equal to 255.744 > 255
(see the counterexample); the final 8-bit image stays within 255 only
because the PNG encoder's `as u8` cast saturates. -/
theorem C4_tone_map (world : HitFun) (conf : Config) (cam : FP → FP → Ray)
    (jit : ℕ → ℕ → ℕ → Bool → FP) (pw : FP → FP → FP) (n : ℕ) (g v : FP) :
    (fix_pixel_val pw n g v
      = FP.mul (.fin 256)
          (clamp (pw (FP.mul (FP.div (.fin 1) (.fin (n : ℚ))) v) (FP.div (.fin 1) g))
            (.fin 0) (.fin (999/1000)))) ∧
    (pw (FP.mul (FP.div (.fin 1) (.fin (n : ℚ))) v) (FP.div (.fin 1) g) ≠ .nan →
      FP.le (fix_pixel_val pw n g v) (.fin (31968/125)) = true) ∧
    (MatTot world → 1 ≤ conf.samples_per_pixel →
      irun world conf cam jit pw = .ok (refBuffer world conf cam jit pw)) := by
  refine ⟨rfl, fun hnn => fix_pixel_val_le pw n g v hnn, fun hmat hn =>
    irun_ok world conf cam jit pw hmat hn⟩

/-- A 1×1 single-sample configuration for the pipeline witnesses. -/
def cConfW : Config :=
  { image_width := 1, image_height := 1, samples_per_pixel := 1, max_depth := 1,
    gamma := .fin 1, background := Vec3.ones }

/-- powf with exponent `1.0` is the identity (IEEE `pow(x, 1) = x`);
the configurations used here have `gamma = 1`, so this is the exact
oracle. -/
def cPow1 : FP → FP → FP := fun v _ => v

def cCamW : FP → FP → Ray := fun _ _ => cRay

def cJitW : ℕ → ℕ → ℕ → Bool → FP := fun _ _ _ _ => .fin 0

unseal Rat.add Rat.mul Rat.sub Rat.inv in
theorem C4_witness :
    FP.le (fix_pixel_val cPow1 1 (.fin 1) (.fin 1)) (.fin (31968/125)) = true ∧
    irun cWorldNone cConfW cCamW cJitW cPow1
      = .ok (refBuffer cWorldNone cConfW cCamW cJitW cPow1) := by
  have h := C4_tone_map cWorldNone cConfW cCamW cJitW cPow1 1 (.fin 1) (.fin 1)
  exact ⟨h.2.1 (by decide), h.2.2 (fun r tmin tmax rec hr => by cases hr) (by decide)⟩

/-- The end-to-end counterexample scene: one metal (reflective) sphere
far from the camera rays, solid white background, `2×2` image, one
sample per pixel, `gamma = 1`. -/
def cConfC4 : Config :=
  { image_width := 2, image_height := 2, samples_per_pixel := 1, max_depth := 5,
    gamma := .fin 1, background := Vec3.ones }

def cWorldC4 : HitFun :=
  sphereHit (fun _ => .fin 0) (fun _ => (.fin 0, .fin 0)) ⟨.fin 10, .fin 0, .fin 0⟩
    (.fin 1) (metalMat Vec3.ones (.fin 0) (fun _ => .fin 0) Vec3.zeros)

unseal Rat.add Rat.mul Rat.sub Rat.inv in
/-- C4 is false as stated: with the single-reflective-sphere world and
the solid `(1,1,1)` background, every channel of the rendered buffer is
`256 · 0.999 = 255.744`, which exceeds 255. -/
theorem C4_cex :
    ((irun cWorldC4 cConfC4 cCamW cJitW cPow1).toOption.map
        (fun buf => buf.head?.map Vec3.x))
      = some (some (.fin (31968/125))) ∧
    FP.le (.fin (31968/125)) (.fin 255) = false := by
  exact ⟨by decide, by decide⟩

/-- C10: whenever `samples_per_pixel ≥ 1` (and every reported hit
carries a material, so the integrator cannot panic), the render run
returns a buffer in which every pixel is the tone-mapped sum of
exactly `samples_per_pixel` `ray_color` evaluations — the sample
reduction's `expect` is unreachable —, while with
`samples_per_pixel = 0` (and at least one pixel to render) the run
panics on that `expect` instead of producing a buffer. -/
theorem C10_samples_required (world : HitFun) (conf : Config) (cam : FP → FP → Ray)
    (jit : ℕ → ℕ → ℕ → Bool → FP) (pw : FP → FP → FP) :
    (MatTot world → 1 ≤ conf.samples_per_pixel →
      irun world conf cam jit pw = .ok (refBuffer world conf cam jit pw)) ∧
    (conf.samples_per_pixel = 0 → 1 ≤ conf.image_width → 1 ≤ conf.image_height →
      irun world conf cam jit pw
        = .error "This iteration should never yield a None") := by
  exact ⟨fun hmat hn => irun_ok world conf cam jit pw hmat hn,
    fun h0 hw hh => irun_zero world conf cam jit pw h0 hw hh⟩

/-- The zero-sample configuration. -/
def cConfW0 : Config :=
  { image_width := 1, image_height := 1, samples_per_pixel := 0, max_depth := 1,
    gamma := .fin 1, background := Vec3.ones }

unseal Rat.add Rat.mul Rat.sub Rat.inv in
theorem C10_witness :
    irun cWorldNone cConfW cCamW cJitW cPow1
      = .ok (refBuffer cWorldNone cConfW cCamW cJitW cPow1) ∧
    irun cWorldNone cConfW0 cCamW cJitW cPow1
      = .error "This iteration should never yield a None" := by
  refine ⟨(C10_samples_required cWorldNone cConfW cCamW cJitW cPow1).1
      (fun r tmin tmax rec hr => by cases hr) (by decide),
    (C10_samples_required cWorldNone cConfW0 cCamW cJitW cPow1).2
      (by decide) (by decide) (by decide)⟩

/-! ## Claims C2 and C5: BVH construction, sorting, and its panics -/

namespace FP

theorem le_iff_lt_or_eq {x y : FP} (hx : x ≠ nan) (hy : y ≠ nan) :
    le x y = true ↔ (lt x y = true ∨ x = y) := by
  cases x with
  | nan => exact absurd rfl hx
  | inf a =>
    cases y with
    | nan => exact absurd rfl hy
    | inf b => cases a <;> cases b <;> simp [le, lt]
    | fin q => cases a <;> simp [le, lt]
  | fin p =>
    cases y with
    | nan => exact absurd rfl hy
    | inf b => cases b <;> simp [le, lt]
    | fin q =>
      simp only [le, lt, decide_eq_true_eq, fin.injEq]
      exact ⟨fun h => h.lt_or_eq, fun h => h.elim (fun h1 => h1.le) (fun h2 => le_of_eq h2)⟩

theorem fcmp_eq_ite {x y : FP} (hx : x ≠ nan) (hy : y ≠ nan) :
    fcmp x y = (if lt x y then some .lt else if x = y then some .eq else some .gt) := by
  cases x with
  | nan => exact absurd rfl hx
  | inf a => cases y with
    | nan => exact absurd rfl hy
    | inf b => rfl
    | fin q => rfl
  | fin p => cases y with
    | nan => exact absurd rfl hy
    | inf b => rfl
    | fin q => rfl

theorem fcmp_some_iff {x y : FP} :
    (∃ o, fcmp x y = some o) ↔ (x ≠ nan ∧ y ≠ nan) := by
  constructor
  · rintro ⟨o, ho⟩
    cases x <;> cases y <;> simp_all [fcmp]
  · rintro ⟨hx, hy⟩
    rw [fcmp_eq_ite hx hy]
    split
    · exact ⟨_, rfl⟩
    · split
      · exact ⟨_, rfl⟩
      · exact ⟨_, rfl⟩

/-- `partial_cmp` does not answer `Greater` exactly when the IEEE `<=`
holds (on non-NaN values). -/
theorem fcmp_ne_gt_iff {x y : FP} (hx : x ≠ nan) (hy : y ≠ nan) :
    (fcmp x y ≠ some .gt) ↔ le x y = true := by
  rw [fcmp_eq_ite hx hy, le_iff_lt_or_eq hx hy]
  by_cases h1 : lt x y = true
  · simp [h1]
  · by_cases h2 : x = y
    · subst h2
      simp [h1]
    · simp [h1, h2]

end FP

/-- The sort key of `box_compare`: the bounding-box minimum coordinate
at time `(0.0, 0.0)` on the given axis. -/
def keyOf (axis : ℕ) (o : Object) : Option FP :=
  (o.boundingBox (.fin 0) (.fin 0)).map (fun bx => bx.minimum.nth axis)

/-- An object the comparator can compare on `axis`: its box exists and
the key is not NaN. -/
def GoodAt (axis : ℕ) (o : Object) : Prop :=
  ∃ q, keyOf axis o = some q ∧ q ≠ FP.nan

theorem box_compare_ok_iff {a b : Object} {axis : ℕ} :
    (∃ o, box_compare a b axis = .ok o) ↔ (GoodAt axis a ∧ GoodAt axis b) := by
  unfold box_compare GoodAt keyOf
  rcases ha : a.boundingBox (.fin 0) (.fin 0) with _ | bxa
  · simp
  · rcases hb : b.boundingBox (.fin 0) (.fin 0) with _ | bxb
    · simp
    · simp only [Option.map_some', Option.some.injEq]
      rcases hc : FP.fcmp (bxa.minimum.nth axis) (bxb.minimum.nth axis) with _ | o
      · constructor
        · rintro ⟨o, ho⟩; cases ho
        · rintro ⟨⟨qa, hqa, hna⟩, ⟨qb, hqb, hnb⟩⟩
          subst hqa
          subst hqb
          rcases FP.fcmp_some_iff.mpr ⟨hna, hnb⟩ with ⟨o, ho⟩
          rw [hc] at ho
          cases ho
      · constructor
        · intro _
          have := FP.fcmp_some_iff.mp ⟨o, hc⟩
          exact ⟨⟨_, rfl, this.1⟩, ⟨_, rfl, this.2⟩⟩
        · intro _
          exact ⟨o, rfl⟩

theorem box_compare_ok_of_good {a b : Object} {axis : ℕ}
    (ha : GoodAt axis a) (hb : GoodAt axis b) :
    ∃ o, box_compare a b axis = .ok o :=
  box_compare_ok_iff.mpr ⟨ha, hb⟩

/-- On comparable objects, "the comparator did not say `Greater`" is
exactly the IEEE `<=` on the two keys. -/
theorem box_compare_ne_gt_iff {a b : Object} {axis : ℕ} {qa qb : FP}
    (hqa : keyOf axis a = some qa) (hna : qa ≠ FP.nan)
    (hqb : keyOf axis b = some qb) (hnb : qb ≠ FP.nan) :
    (box_compare a b axis ≠ .ok .gt) ↔ FP.le qa qb = true := by
  unfold box_compare
  unfold keyOf at hqa hqb
  rcases ha : a.boundingBox (.fin 0) (.fin 0) with _ | bxa
  · rw [ha] at hqa; cases hqa
  · rcases hb : b.boundingBox (.fin 0) (.fin 0) with _ | bxb
    · rw [hb] at hqb; cases hqb
    · rw [ha] at hqa
      rw [hb] at hqb
      simp only [Option.map_some', Option.some.injEq] at hqa hqb
      subst hqa
      subst hqb
      dsimp only
      rw [FP.fcmp_eq_ite hna hnb, FP.le_iff_lt_or_eq hna hnb]
      by_cases h1 : FP.lt (bxa.minimum.nth axis) (bxb.minimum.nth axis) = true
      · simp [h1]
      · by_cases h2 : bxa.minimum.nth axis = bxb.minimum.nth axis
        · rw [if_neg (by simp [h1]), if_pos h2]
          simp [h2, h1]
        · rw [if_neg (by simp [h1]), if_neg h2]
          simp [h1, h2]

/-- `isOk` for the `Except`-modelled panics. -/
def exOk {β : Type} : Except String β → Bool
  | .ok _ => true
  | .error _ => false

theorem insertE_perm {α : Type} (cmp : α → α → Except String Ordering) (x : α) :
    ∀ l l', insertE cmp x l = .ok l' → List.Perm l' (x :: l) := by
  intro l
  induction l with
  | nil =>
    intro l' h
    cases h
    exact List.Perm.refl _
  | cons y ys ih =>
    intro l' h
    unfold insertE at h
    revert h
    split
    · intro h; cases h
    · split
      · intro h; cases h
      · next zs hzs =>
        intro h
        cases h
        exact (List.Perm.cons y (ih zs hzs)).trans (List.Perm.swap x y ys)
    · intro h
      cases h
      exact List.Perm.refl _

theorem sortE_perm {α : Type} (cmp : α → α → Except String Ordering) :
    ∀ l l', sortE cmp l = .ok l' → List.Perm l' l := by
  intro l
  induction l with
  | nil =>
    intro l' h
    cases h
    exact List.Perm.refl _
  | cons x xs ih =>
    intro l' h
    unfold sortE at h
    revert h
    split
    · intro h; cases h
    · next s hs =>
      intro h
      exact (insertE_perm cmp x s l' h).trans (List.Perm.cons x (ih s hs))

theorem insertE_ok {α : Type} (cmp : α → α → Except String Ordering) (P : α → Prop)
    (hok : ∀ a b, P a → P b → ∃ o, cmp a b = .ok o) (x : α) (hx : P x) :
    ∀ l, (∀ y ∈ l, P y) → ∃ l', insertE cmp x l = .ok l' := by
  intro l
  induction l with
  | nil => exact fun _ => ⟨[x], rfl⟩
  | cons y ys ih =>
    intro hl
    rcases hok x y hx (hl y (List.mem_cons_self y ys)) with ⟨o, ho⟩
    unfold insertE
    rw [ho]
    cases o with
    | gt =>
      rcases ih (fun z hz => hl z (List.mem_cons_of_mem y hz)) with ⟨zs, hzs⟩
      rw [hzs]
      exact ⟨y :: zs, rfl⟩
    | lt => exact ⟨x :: y :: ys, rfl⟩
    | eq => exact ⟨x :: y :: ys, rfl⟩

theorem insertE_sorted {α : Type} (cmp : α → α → Except String Ordering) (P : α → Prop)
    (htrans : ∀ a b c, P a → P b → P c →
      cmp a b ≠ .ok .gt → cmp b c ≠ .ok .gt → cmp a c ≠ .ok .gt)
    (htot : ∀ a b, P a → P b → cmp a b = .ok .gt → cmp b a ≠ .ok .gt)
    (x : α) (hx : P x) :
    ∀ l l', (∀ y ∈ l, P y) → List.Pairwise (fun a b => cmp a b ≠ .ok .gt) l →
      insertE cmp x l = .ok l' →
      List.Pairwise (fun a b => cmp a b ≠ .ok .gt) l' := by
  intro l
  induction l with
  | nil =>
    intro l' _ _ h
    cases h
    exact List.pairwise_singleton _ x
  | cons y ys ih =>
    intro l' hP hsort h
    have hPy := hP y (List.mem_cons_self y ys)
    have hPys : ∀ z ∈ ys, P z := fun z hz => hP z (List.mem_cons_of_mem y hz)
    unfold insertE at h
    revert h
    split
    · intro h; cases h
    · next hgt =>
      split
      · intro h; cases h
      · next zs hzs =>
        intro h
        cases h
        rw [List.pairwise_cons] at hsort ⊢
        refine ⟨?_, ih zs hPys hsort.2 hzs⟩
        intro b hb
        have hmem := (insertE_perm cmp x ys zs hzs).mem_iff.mp hb
        rcases List.mem_cons.mp hmem with hbx | hby
        · rw [hbx]
          exact htot x y hx hPy hgt
        · exact hsort.1 b hby
    · next o ho hne =>
      intro h
      cases h
      rw [List.pairwise_cons] at hsort
      have hxy : cmp x y ≠ .ok .gt := by
        intro hcontra
        rw [hne] at hcontra
        injection hcontra with h1
        exact ho h1
      rw [List.pairwise_cons, List.pairwise_cons]
      refine ⟨?_, hsort.1, hsort.2⟩
      intro b hb
      rcases List.mem_cons.mp hb with hbx | hby
      · subst hbx
        exact hxy
      · exact htrans x y b hx hPy (hPys b hby) hxy (hsort.1 b hby)

theorem sortE_ok_sorted {α : Type} (cmp : α → α → Except String Ordering) (P : α → Prop)
    (hok : ∀ a b, P a → P b → ∃ o, cmp a b = .ok o)
    (htrans : ∀ a b c, P a → P b → P c →
      cmp a b ≠ .ok .gt → cmp b c ≠ .ok .gt → cmp a c ≠ .ok .gt)
    (htot : ∀ a b, P a → P b → cmp a b = .ok .gt → cmp b a ≠ .ok .gt) :
    ∀ l, (∀ y ∈ l, P y) →
      ∃ l', sortE cmp l = .ok l' ∧ List.Perm l' l ∧
        List.Pairwise (fun a b => cmp a b ≠ .ok .gt) l' := by
  intro l
  induction l with
  | nil => exact fun _ => ⟨[], rfl, List.Perm.refl _, List.Pairwise.nil⟩
  | cons x xs ih =>
    intro hl
    rcases ih (fun z hz => hl z (List.mem_cons_of_mem x hz)) with ⟨s, hs, hperm, hsort⟩
    have hPs : ∀ y ∈ s, P y := fun y hy =>
      hl y (List.mem_cons_of_mem x (hperm.mem_iff.mp hy))
    rcases insertE_ok cmp P hok x (hl x (List.mem_cons_self x xs)) s hPs with ⟨l', hl'⟩
    refine ⟨l', ?_, ?_,
      insertE_sorted cmp P htrans htot x (hl x (List.mem_cons_self x xs))
        s l' hPs hsort hl'⟩
    · unfold sortE
      rw [hs]
      exact hl'
    · exact (insertE_perm cmp x s l' hl').trans (List.Perm.cons x hperm)

theorem sortE_error_of_bad {α : Type} (cmp : α → α → Except String Ordering) (bad : α)
    (hbl : ∀ y, exOk (cmp bad y) = false) (hbr : ∀ y, exOk (cmp y bad) = false) :
    ∀ l, bad ∈ l → 2 ≤ l.length → exOk (sortE cmp l) = false := by
  intro l
  induction l with
  | nil => intro h; cases h
  | cons x xs ih =>
    intro hmem hlen
    unfold sortE
    rcases hS : sortE cmp xs with e | s
    · rfl
    · rcases List.mem_cons.mp hmem with hbx | hbxs
      · subst hbx
        have hlens : 1 ≤ s.length := by
          have := (sortE_perm cmp xs s hS).length_eq
          simp at hlen
          omega
        rcases s with _ | ⟨z, zs⟩
        · simp at hlens
        · unfold insertE
          rcases hc : cmp bad z with e | o
          · rfl
          · have := hbl z
            rw [hc] at this
            cases this
      · rcases Nat.lt_or_ge xs.length 2 with hxs | hxs
        · have hxs1 : xs.length = 1 := by
            have : 1 ≤ xs.length := List.length_pos.mpr (List.ne_nil_of_mem hbxs)
            omega
          rcases xs with _ | ⟨z, zs⟩
          · cases hbxs
          · rcases zs with _ | _
            · have hbz : bad = z := List.mem_singleton.mp hbxs
              have hsing : s = [z] := List.perm_singleton.mp (sortE_perm cmp [z] s hS)
              rw [hsing]
              unfold insertE
              rcases hc : cmp x z with e | o
              · rfl
              · exfalso
                have hxb := hbr x
                rw [hbz, hc] at hxb
                simp [exOk] at hxb
            · simp at hxs1
        · have := ih hbxs hxs
          rw [hS] at this
          cases this

/-- A buildable object for build times `(t0, t1)`: it has a box at time
`(0.0, 0.0)` with no NaN minimum coordinate (so every axis comparator
can compare it), and a box at `(t0, t1)` (so `check_cond` succeeds). -/
def GoodO (t0 t1 : FP) (o : Object) : Prop :=
  (∃ bx, o.boundingBox (.fin 0) (.fin 0) = some bx ∧
    bx.minimum.x ≠ FP.nan ∧ bx.minimum.y ≠ FP.nan ∧ bx.minimum.z ≠ FP.nan) ∧
  (∃ bx, o.boundingBox t0 t1 = some bx)

theorem goodAt_of_goodO {t0 t1 : FP} {axis : ℕ} {o : Object}
    (h : GoodO t0 t1 o) : GoodAt axis o := by
  obtain ⟨⟨bx, hbx, hx, hy, hz⟩, _⟩ := h
  refine ⟨bx.minimum.nth axis, by simp [keyOf, hbx], ?_⟩
  match axis with
  | 0 => exact hx
  | 1 => exact hy
  | (n + 2) => exact hz

theorem box_compare_err_of_not_good {a b : Object} {axis : ℕ}
    (h : ¬ (GoodAt axis a ∧ GoodAt axis b)) :
    exOk (box_compare a b axis) = false := by
  rcases hc : box_compare a b axis with e | o
  · rfl
  · exact absurd (box_compare_ok_iff.mp ⟨o, hc⟩) h

theorem box_compare_trans {axis : ℕ} {a b c : Object}
    (ha : GoodAt axis a) (hb : GoodAt axis b) (hc : GoodAt axis c)
    (h1 : box_compare a b axis ≠ .ok .gt) (h2 : box_compare b c axis ≠ .ok .gt) :
    box_compare a c axis ≠ .ok .gt := by
  obtain ⟨qa, hqa, hna⟩ := ha
  obtain ⟨qb, hqb, hnb⟩ := hb
  obtain ⟨qc, hqc, hnc⟩ := hc
  rw [box_compare_ne_gt_iff hqa hna hqb hnb] at h1
  rw [box_compare_ne_gt_iff hqb hnb hqc hnc] at h2
  rw [box_compare_ne_gt_iff hqa hna hqc hnc]
  exact FP.le_trans h1 h2

theorem box_compare_gt_asymm {axis : ℕ} {a b : Object}
    (ha : GoodAt axis a) (hb : GoodAt axis b)
    (h : box_compare a b axis = .ok .gt) : box_compare b a axis ≠ .ok .gt := by
  obtain ⟨qa, hqa, hna⟩ := ha
  obtain ⟨qb, hqb, hnb⟩ := hb
  rw [box_compare_ne_gt_iff hqb hnb hqa hna]
  cases hq : FP.le qa qb with
  | true => exact absurd h ((box_compare_ne_gt_iff hqa hna hqb hnb).mpr hq)
  | false => exact FP.le_of_lt ((FP.not_le_iff hna hnb).mp hq)

theorem check_cond_none_left {l r : BvhT} {t0 t1 : FP}
    (h : l.boundingBox t0 t1 = none) : check_cond l r t0 t1 = none := by
  unfold check_cond
  rw [h]

theorem mkNode_err_of_none_left {l r : BvhT} {t0 t1 : FP}
    (h : l.boundingBox t0 t1 = none) :
    mkNode l r t0 t1 = .error "No bounding box in bvh_node constructor." := by
  unfold mkNode
  rw [check_cond_none_left h]

theorem check_cond_some_of {l r : BvhT} {t0 t1 : FP} {bl br : Aabb}
    (hl : l.boundingBox t0 t1 = some bl) (hr : r.boundingBox t0 t1 = some br) :
    check_cond l r t0 t1 = some (bl, br) := by
  unfold check_cond
  rw [hl, hr]

theorem check_cond_eq_some {l r : BvhT} {t0 t1 : FP} {p : Aabb × Aabb}
    (h : check_cond l r t0 t1 = some p) :
    l.boundingBox t0 t1 = some p.1 ∧ r.boundingBox t0 t1 = some p.2 := by
  unfold check_cond at h
  revert h
  rcases hl : l.boundingBox t0 t1 with _ | bl
  · intro h; cases h
  · rcases hr : r.boundingBox t0 t1 with _ | br
    · intro h; cases h
    · intro h
      cases h
      exact ⟨rfl, rfl⟩

theorem mkNode_ok_of {l r : BvhT} {t0 t1 : FP} {bl br : Aabb}
    (hl : l.boundingBox t0 t1 = some bl) (hr : r.boundingBox t0 t1 = some br) :
    mkNode l r t0 t1 = .ok (.node l r (Aabb.surrounding_box bl br)) := by
  unfold mkNode
  rw [check_cond_some_of hl hr]

theorem mkNode_ok {l r t : BvhT} {t0 t1 : FP} (h : mkNode l r t0 t1 = .ok t) :
    ∃ bl br, l.boundingBox t0 t1 = some bl ∧ r.boundingBox t0 t1 = some br ∧
      t = .node l r (Aabb.surrounding_box bl br) := by
  unfold mkNode at h
  revert h
  rcases hcc : check_cond l r t0 t1 with _ | p
  · intro h; cases h
  · obtain ⟨bl, br⟩ := p
    intro h
    cases h
    obtain ⟨h1, h2⟩ := check_cond_eq_some hcc
    exact ⟨bl, br, h1, h2, rfl⟩

/-- Inverting `Except.map`: a mapped success comes from a success. -/
theorem exceptMap_ok {α β : Type} {e : Except String α} {g : α → β} {y : β}
    (h : e.map g = .ok y) : ∃ x, e = .ok x ∧ y = g x := by
  cases e with
  | error s => cases h
  | ok x =>
    injection h with h1
    exact ⟨x, rfl, h1.symm⟩

theorem exceptMap_ok_of {α β : Type} {e : Except String α} {x : α} (g : α → β)
    (h : e = .ok x) : e.map g = .ok (g x) := by
  rw [h]
  rfl

theorem exOk_map {α β : Type} (e : Except String α) (g : α → β) :
    exOk (e.map g) = exOk e := by
  cases e <;> rfl

/-- Unfolding `inner_from_list` on a one-object range: the object is
aliased into both child slots and the slice is returned untouched. -/
theorem inner_one_some (ax : List Bool → ℕ) (t0 t1 : FP) (fuel : ℕ)
    (path : List Bool) {start stop : ℕ} {objs : List Object} {o : Object}
    (hlt : start < stop) (hspan : stop - start = 1)
    (hget : objs[start]? = some o) :
    inner_from_list ax t0 t1 (fuel + 1) path start stop objs =
      (mkNode (.obj o) (.obj o) t0 t1).map (fun t => (t, objs)) := by
  unfold inner_from_list
  dsimp only
  rw [if_pos hlt, if_pos hspan, hget]

/-- Unfolding on a two-object range when the comparator panics. -/
theorem inner_two_err (ax : List Bool → ℕ) (t0 t1 : FP) (fuel : ℕ)
    (path : List Bool) {start stop : ℕ} {objs : List Object} {a b : Object}
    {e : String}
    (hlt : start < stop) (hspan : stop - start = 2)
    (hga : objs[start]? = some a) (hgb : objs[start + 1]? = some b)
    (hcmp : box_compare a b (ax path) = .error e) :
    inner_from_list ax t0 t1 (fuel + 1) path start stop objs = .error e := by
  unfold inner_from_list
  dsimp only
  rw [if_pos hlt, if_neg (by omega), if_pos hspan, hga, hgb]
  dsimp only
  rw [hcmp]
  rfl

/-- Unfolding on a two-object range: comparator `Greater` swaps. -/
theorem inner_two_gt (ax : List Bool → ℕ) (t0 t1 : FP) (fuel : ℕ)
    (path : List Bool) {start stop : ℕ} {objs : List Object} {a b : Object}
    (hlt : start < stop) (hspan : stop - start = 2)
    (hga : objs[start]? = some a) (hgb : objs[start + 1]? = some b)
    (hcmp : box_compare a b (ax path) = .ok .gt) :
    inner_from_list ax t0 t1 (fuel + 1) path start stop objs =
      (mkNode (.obj b) (.obj a) t0 t1).map (fun t => (t, objs)) := by
  unfold inner_from_list
  dsimp only
  rw [if_pos hlt, if_neg (by omega), if_pos hspan, hga, hgb]
  dsimp only
  rw [hcmp]

/-- Unfolding on a two-object range: comparator `Less` keeps the
order. -/
theorem inner_two_lt (ax : List Bool → ℕ) (t0 t1 : FP) (fuel : ℕ)
    (path : List Bool) {start stop : ℕ} {objs : List Object} {a b : Object}
    (hlt : start < stop) (hspan : stop - start = 2)
    (hga : objs[start]? = some a) (hgb : objs[start + 1]? = some b)
    (hcmp : box_compare a b (ax path) = .ok .lt) :
    inner_from_list ax t0 t1 (fuel + 1) path start stop objs =
      (mkNode (.obj a) (.obj b) t0 t1).map (fun t => (t, objs)) := by
  unfold inner_from_list
  dsimp only
  rw [if_pos hlt, if_neg (by omega), if_pos hspan, hga, hgb]
  dsimp only
  rw [hcmp]

/-- Unfolding on a two-object range: comparator `Equal` keeps the
order. -/
theorem inner_two_eq (ax : List Bool → ℕ) (t0 t1 : FP) (fuel : ℕ)
    (path : List Bool) {start stop : ℕ} {objs : List Object} {a b : Object}
    (hlt : start < stop) (hspan : stop - start = 2)
    (hga : objs[start]? = some a) (hgb : objs[start + 1]? = some b)
    (hcmp : box_compare a b (ax path) = .ok .eq) :
    inner_from_list ax t0 t1 (fuel + 1) path start stop objs =
      (mkNode (.obj a) (.obj b) t0 t1).map (fun t => (t, objs)) := by
  unfold inner_from_list
  dsimp only
  rw [if_pos hlt, if_neg (by omega), if_pos hspan, hga, hgb]
  dsimp only
  rw [hcmp]

/-- Unfolding on a range of three or more objects: the ENTIRE slice is
re-sorted, so a comparator panic anywhere in the slice aborts. -/
theorem inner_big_sortErr (ax : List Bool → ℕ) (t0 t1 : FP) (fuel : ℕ)
    (path : List Bool) {start stop : ℕ} {objs : List Object} {e : String}
    (hlt : start < stop) (hbig : 3 ≤ stop - start)
    (hS : sortE (fun a b => box_compare a b (ax path)) objs = .error e) :
    inner_from_list ax t0 t1 (fuel + 1) path start stop objs = .error e := by
  unfold inner_from_list
  dsimp only
  rw [if_pos hlt, if_neg (by omega), if_neg (by omega), hS]

/-- Unfolding on a range of three or more objects: sort the whole
slice, split at `start + span / 2`, recurse left then right on the
threaded slice, and join with `surrounding_box`. -/
theorem inner_big_shape (ax : List Bool → ℕ) (t0 t1 : FP) (fuel : ℕ)
    (path : List Bool) {start stop : ℕ} {objs s objs1 objs2 : List Object}
    {ltree rtree : BvhT}
    (hlt : start < stop) (hbig : 3 ≤ stop - start)
    (hS : sortE (fun a b => box_compare a b (ax path)) objs = .ok s)
    (hL : inner_from_list ax t0 t1 fuel (path ++ [false]) start
      (start + (stop - start) / 2) s = .ok (ltree, objs1))
    (hR : inner_from_list ax t0 t1 fuel (path ++ [true])
      (start + (stop - start) / 2) stop objs1 = .ok (rtree, objs2)) :
    inner_from_list ax t0 t1 (fuel + 1) path start stop objs =
      (mkNode ltree rtree t0 t1).map (fun t => (t, objs2)) := by
  unfold inner_from_list
  dsimp only
  rw [if_pos hlt, if_neg (by omega), if_neg (by omega), hS]
  dsimp only
  rw [hL]
  dsimp only
  rw [hR]

/-- Every internal node of a built tree caches exactly the
`surrounding_box` union of its two children's boxes. -/
def WellBoxed (t0 t1 : FP) : BvhT → Prop
  | .obj _ => True
  | .node l r bx =>
      (∃ bl br, l.boundingBox t0 t1 = some bl ∧ r.boundingBox t0 t1 = some br ∧
        bx = Aabb.surrounding_box bl br) ∧ WellBoxed t0 t1 l ∧ WellBoxed t0 t1 r

/-- Everything a successful build returns: the threaded slice is a
permutation of the input slice, every leaf reachable from the node is
one of the input slice's objects, and every internal node caches the
`surrounding_box` of its children's boxes.  (Leaf membership is all
that survives the whole-slice re-sorting: the sub-range structure can
drop and duplicate objects, see the C2 counterexample.) -/
theorem inner_ok_shape (ax : List Bool → ℕ) (t0 t1 : FP) :
    ∀ (fuel : ℕ) (path : List Bool) (start stop : ℕ) (objs : List Object)
      (node : BvhT) (objs' : List Object),
      inner_from_list ax t0 t1 fuel path start stop objs = .ok (node, objs') →
      List.Perm objs' objs ∧ (∀ o ∈ node.leaves, o ∈ objs) ∧
        WellBoxed t0 t1 node := by
  intro fuel
  induction fuel with
  | zero =>
    intro _ _ _ _ _ _ h
    cases h
  | succ fuel ih =>
    intro path start stop objs node objs' h
    unfold inner_from_list at h
    dsimp only at h
    by_cases hlt : start < stop
    case neg =>
      rw [if_neg hlt] at h
      cases h
    rw [if_pos hlt] at h
    by_cases h1span : stop - start = 1
    · rw [if_pos h1span] at h
      rcases hget : objs[start]? with _ | o
      · rw [hget] at h
        cases h
      rw [hget] at h
      dsimp only at h
      obtain ⟨t, hmk, hpair⟩ := exceptMap_ok h
      injection hpair with hp1 hp2
      subst hp1
      subst hp2
      obtain ⟨bl, br, hbl, hbr, rfl⟩ := mkNode_ok hmk
      refine ⟨List.Perm.refl _, ?_, ⟨bl, br, hbl, hbr, rfl⟩, trivial, trivial⟩
      intro w hw
      have hw2 : w = o := by simpa [BvhT.leaves] using hw
      subst hw2
      exact List.getElem?_mem hget
    rw [if_neg h1span] at h
    by_cases h2span : stop - start = 2
    · rw [if_pos h2span] at h
      rcases hga : objs[start]? with _ | a
      · rw [hga] at h
        cases h
      rcases hgb : objs[start + 1]? with _ | b
      · rw [hga, hgb] at h
        cases h
      rw [hga, hgb] at h
      dsimp only at h
      have hamem : a ∈ objs := List.getElem?_mem hga
      have hbmem : b ∈ objs := List.getElem?_mem hgb
      rcases hcmp : box_compare a b (ax path) with e | oo
      · rw [hcmp] at h
        cases h
      rw [hcmp] at h
      cases oo with
      | lt =>
        obtain ⟨t, hmk, hpair⟩ := exceptMap_ok h
        injection hpair with hp1 hp2
        subst hp1
        subst hp2
        obtain ⟨bl, br, hbl, hbr, rfl⟩ := mkNode_ok hmk
        refine ⟨List.Perm.refl _, ?_, ⟨bl, br, hbl, hbr, rfl⟩, trivial, trivial⟩
        intro w hw
        have hw2 : w = a ∨ w = b := by simpa [BvhT.leaves] using hw
        rcases hw2 with rfl | rfl
        · exact hamem
        · exact hbmem
      | eq =>
        obtain ⟨t, hmk, hpair⟩ := exceptMap_ok h
        injection hpair with hp1 hp2
        subst hp1
        subst hp2
        obtain ⟨bl, br, hbl, hbr, rfl⟩ := mkNode_ok hmk
        refine ⟨List.Perm.refl _, ?_, ⟨bl, br, hbl, hbr, rfl⟩, trivial, trivial⟩
        intro w hw
        have hw2 : w = a ∨ w = b := by simpa [BvhT.leaves] using hw
        rcases hw2 with rfl | rfl
        · exact hamem
        · exact hbmem
      | gt =>
        obtain ⟨t, hmk, hpair⟩ := exceptMap_ok h
        injection hpair with hp1 hp2
        subst hp1
        subst hp2
        obtain ⟨bl, br, hbl, hbr, rfl⟩ := mkNode_ok hmk
        refine ⟨List.Perm.refl _, ?_, ⟨bl, br, hbl, hbr, rfl⟩, trivial, trivial⟩
        intro w hw
        have hw2 : w = b ∨ w = a := by simpa [BvhT.leaves] using hw
        rcases hw2 with rfl | rfl
        · exact hbmem
        · exact hamem
    rw [if_neg h2span] at h
    rcases hS : sortE (fun u v => box_compare u v (ax path)) objs with e | s
    · rw [hS] at h
      cases h
    rw [hS] at h
    dsimp only at h
    rcases hL : inner_from_list ax t0 t1 fuel (path ++ [false]) start
        (start + (stop - start) / 2) s with e | pl
    · rw [hL] at h
      cases h
    obtain ⟨ltree, objs1⟩ := pl
    rw [hL] at h
    dsimp only at h
    rcases hR : inner_from_list ax t0 t1 fuel (path ++ [true])
        (start + (stop - start) / 2) stop objs1 with e | pr
    · rw [hR] at h
      cases h
    obtain ⟨rtree, objs2⟩ := pr
    rw [hR] at h
    dsimp only at h
    obtain ⟨t, hmk, hpair⟩ := exceptMap_ok h
    injection hpair with hp1 hp2
    subst hp1
    subst hp2
    obtain ⟨hperm1, hsub1, hwb1⟩ := ih (path ++ [false]) start
      (start + (stop - start) / 2) s ltree objs1 hL
    obtain ⟨hperm2, hsub2, hwb2⟩ := ih (path ++ [true])
      (start + (stop - start) / 2) stop objs1 rtree objs' hR
    have hpS : List.Perm s objs :=
      sortE_perm (fun u v => box_compare u v (ax path)) objs s hS
    obtain ⟨bl, br, hbl, hbr, rfl⟩ := mkNode_ok hmk
    refine ⟨hperm2.trans (hperm1.trans hpS), ?_,
      ⟨bl, br, hbl, hbr, rfl⟩, hwb1, hwb2⟩
    intro w hw
    have hw2 : w ∈ ltree.leaves ∨ w ∈ rtree.leaves := by
      simpa [BvhT.leaves] using hw
    rcases hw2 with hw1 | hw1
    · exact hpS.mem_iff.mp (hsub1 w hw1)
    · exact hpS.mem_iff.mp (hperm1.mem_iff.mp (hsub2 w hw1))

/-- Buildable sub-ranges build: with enough fuel a nonempty sub-range
of a slice of `GoodO` objects yields an internal node and a
permutation of the slice, without hitting any panic. -/
theorem inner_ok_of_good (ax : List Bool → ℕ) (t0 t1 : FP) :
    ∀ (fuel : ℕ) (path : List Bool) (start stop : ℕ) (objs : List Object),
      (∀ o ∈ objs, GoodO t0 t1 o) → start < stop → stop ≤ objs.length →
      stop - start ≤ fuel →
      ∃ l r bx objs', inner_from_list ax t0 t1 fuel path start stop objs =
        .ok (.node l r bx, objs') ∧ List.Perm objs' objs := by
  intro fuel
  induction fuel with
  | zero =>
    intro path start stop objs _ h1 _ h3
    omega
  | succ fuel ih =>
    intro path start stop objs hg hlt hle hfuel
    by_cases h1span : stop - start = 1
    · have hsl : start < objs.length := by omega
      have hget : objs[start]? = some objs[start] :=
        List.getElem?_eq_getElem hsl
      obtain ⟨_, ⟨bxo, hbxo⟩⟩ := hg objs[start] (List.getElem_mem hsl)
      rw [inner_one_some ax t0 t1 fuel path hlt h1span hget]
      refine ⟨.obj objs[start], .obj objs[start],
        Aabb.surrounding_box bxo bxo, objs, ?_, List.Perm.refl _⟩
      exact exceptMap_ok_of _ (mkNode_ok_of hbxo hbxo)
    by_cases h2span : stop - start = 2
    · have hs1 : start < objs.length := by omega
      have hs2 : start + 1 < objs.length := by omega
      have hga : objs[start]? = some objs[start] :=
        List.getElem?_eq_getElem hs1
      have hgb : objs[start + 1]? = some objs[start + 1] :=
        List.getElem?_eq_getElem hs2
      have hgoa := hg objs[start] (List.getElem_mem hs1)
      have hgob := hg (objs[start + 1]) (List.getElem_mem hs2)
      obtain ⟨oo, hoo⟩ :=
        box_compare_ok_of_good
          (@goodAt_of_goodO t0 t1 (ax path) objs[start] hgoa)
          (goodAt_of_goodO hgob)
      obtain ⟨_, ⟨bxa, hbxa⟩⟩ := hgoa
      obtain ⟨_, ⟨bxb, hbxb⟩⟩ := hgob
      cases oo with
      | lt =>
        rw [inner_two_lt ax t0 t1 fuel path hlt h2span hga hgb hoo]
        refine ⟨.obj objs[start], .obj (objs[start + 1]),
          Aabb.surrounding_box bxa bxb, objs, ?_, List.Perm.refl _⟩
        exact exceptMap_ok_of _ (mkNode_ok_of hbxa hbxb)
      | eq =>
        rw [inner_two_eq ax t0 t1 fuel path hlt h2span hga hgb hoo]
        refine ⟨.obj objs[start], .obj (objs[start + 1]),
          Aabb.surrounding_box bxa bxb, objs, ?_, List.Perm.refl _⟩
        exact exceptMap_ok_of _ (mkNode_ok_of hbxa hbxb)
      | gt =>
        rw [inner_two_gt ax t0 t1 fuel path hlt h2span hga hgb hoo]
        refine ⟨.obj (objs[start + 1]), .obj objs[start],
          Aabb.surrounding_box bxb bxa, objs, ?_, List.Perm.refl _⟩
        exact exceptMap_ok_of _ (mkNode_ok_of hbxb hbxa)
    · have hbig : 3 ≤ stop - start := by omega
      have hgAt : ∀ y ∈ objs, GoodAt (ax path) y :=
        fun y hy => goodAt_of_goodO (hg y hy)
      obtain ⟨s, hs, hperm, _⟩ := sortE_ok_sorted
        (fun u v => box_compare u v (ax path)) (GoodAt (ax path))
        (fun u v hu hv => box_compare_ok_of_good hu hv)
        (fun u v w hu hv hw => box_compare_trans hu hv hw)
        (fun u v hu hv => box_compare_gt_asymm hu hv)
        objs hgAt
      have hgs : ∀ o ∈ s, GoodO t0 t1 o :=
        fun o ho => hg o (hperm.mem_iff.mp ho)
      have hsl : s.length = objs.length := hperm.length_eq
      obtain ⟨l1, r1, bx1, objs1, hL, hpL⟩ := ih (path ++ [false]) start
        (start + (stop - start) / 2) s hgs (by omega) (by omega) (by omega)
      have hgs1 : ∀ o ∈ objs1, GoodO t0 t1 o :=
        fun o ho => hgs o (hpL.mem_iff.mp ho)
      have hsl1 : objs1.length = s.length := hpL.length_eq
      obtain ⟨l2, r2, bx2, objs2, hR, hpR⟩ := ih (path ++ [true])
        (start + (stop - start) / 2) stop objs1 hgs1 (by omega) (by omega)
        (by omega)
      rw [inner_big_shape ax t0 t1 fuel path hlt hbig hs hL hR]
      refine ⟨.node l1 r1 bx1, .node l2 r2 bx2,
        Aabb.surrounding_box bx1 bx2, objs2, ?_,
        hpR.trans (hpL.trans hperm)⟩
      exact exceptMap_ok_of _
        (mkNode_ok_of (Eq.refl (some bx1)) (Eq.refl (some bx2)))

theorem boxless_not_goodAt {o : Object}
    (hbox : o.boundingBox (.fin 0) (.fin 0) = none) (axis : ℕ) :
    ¬ GoodAt axis o := by
  rintro ⟨q, hq, _⟩
  unfold keyOf at hq
  rw [hbox] at hq
  cases hq

theorem nankey_not_goodAt {o : Object} {bx : Aabb}
    (hbx : o.boundingBox (.fin 0) (.fin 0) = some bx)
    (hx : bx.minimum.x = FP.nan) (hy : bx.minimum.y = FP.nan)
    (hz : bx.minimum.z = FP.nan) (axis : ℕ) : ¬ GoodAt axis o := by
  rintro ⟨q, hq, hn⟩
  unfold keyOf at hq
  rw [hbx] at hq
  simp only [Option.map_some', Option.some.injEq] at hq
  subst hq
  apply hn
  match axis with
  | 0 => exact hx
  | 1 => exact hy
  | (n + 2) => exact hz

/-- The whole-list entry call (`from_hittable_list` hands
`inner_from_list` the range `[0, len)`) aborts when the list contains
an object no axis comparator can handle: a singleton fails the
box-at-build-time `expect`, a pair fails in the comparator call, and
any longer list fails inside the whole-slice sort (a comparison sort
compares every element at least once). -/
theorem inner_error_entry (ax : List Bool → ℕ) (t0 t1 : FP) (fuel : ℕ)
    (path : List Bool) (objs : List Object) (o : Object) (ho : o ∈ objs)
    (hbad : ∀ axis, ¬ GoodAt axis o)
    (hone : objs.length = 1 → o.boundingBox t0 t1 = none) :
    exOk (inner_from_list ax t0 t1 fuel path 0 objs.length objs) = false := by
  cases fuel with
  | zero => rfl
  | succ fuel =>
    rcases objs with _ | ⟨a, rest⟩
    · cases ho
    rcases rest with _ | ⟨b, rest2⟩
    · have ha : o = a := by simpa using ho
      have hbx : a.boundingBox t0 t1 = none := by
        rw [← ha]
        exact hone rfl
      rw [inner_one_some ax t0 t1 fuel path (by simp) (by simp)
          (show (([a] : List Object))[0]? = some a from rfl),
        exOk_map, @mkNode_err_of_none_left (.obj a) (.obj a) t0 t1 hbx]
      rfl
    rcases rest2 with _ | ⟨c, rest3⟩
    · have hab : o = a ∨ o = b := by simpa using ho
      have hng : ¬ (GoodAt (ax path) a ∧ GoodAt (ax path) b) := by
        rcases hab with h | h
        · rintro ⟨hga, _⟩
          exact hbad (ax path) (by rw [h]; exact hga)
        · rintro ⟨_, hgb⟩
          exact hbad (ax path) (by rw [h]; exact hgb)
      have herr := box_compare_err_of_not_good hng
      rcases hcmp : box_compare a b (ax path) with e | oo
      · rw [inner_two_err ax t0 t1 fuel path (by simp) (by simp) rfl rfl hcmp]
        rfl
      · rw [hcmp] at herr
        cases herr
    · have hbl2 : ∀ y, exOk (box_compare o y (ax path)) = false := fun y =>
        box_compare_err_of_not_good (fun h => hbad (ax path) h.1)
      have hbr2 : ∀ y, exOk (box_compare y o (ax path)) = false := fun y =>
        box_compare_err_of_not_good (fun h => hbad (ax path) h.2)
      have hserr := sortE_error_of_bad (fun u v => box_compare u v (ax path)) o
        hbl2 hbr2 (a :: b :: c :: rest3) ho (by simp)
      rcases hS : sortE (fun u v => box_compare u v (ax path))
          (a :: b :: c :: rest3) with e | s
      · rw [inner_big_sortErr ax t0 t1 fuel path
          (by simp only [List.length_cons]; omega)
          (by simp only [List.length_cons, Nat.sub_zero]; omega) hS]
        rfl
      · rw [hS] at hserr
        cases hserr

/-- The unit box `[0,1]³`. -/
def bxUnitC : Aabb := ⟨Vec3.zeros, Vec3.ones⟩

/-- A concrete scene object with the unit box (never hit; the builder
only queries `boundingBox`). -/
def oUnitC : Object :=
  { hit := fun _ _ _ => none, boundingBox := fun _ _ => some bxUnitC }

/-- The box `[5,6]³`. -/
def bxFarC : Aabb := ⟨⟨.fin 5, .fin 5, .fin 5⟩, ⟨.fin 6, .fin 6, .fin 6⟩⟩

/-- A far-away concrete object. -/
def oFarC : Object :=
  { hit := fun _ _ _ => none, boundingBox := fun _ _ => some bxFarC }

/-- An object with no bounding box at any time. -/
def oNoBoxC : Object :=
  { hit := fun _ _ _ => none, boundingBox := fun _ _ => none }

/-- An object whose box minimum is NaN on every coordinate. -/
def oNanC : Object :=
  { hit := fun _ _ _ => none,
    boundingBox := fun _ _ => some ⟨⟨.nan, .nan, .nan⟩, Vec3.ones⟩ }

/-- A malformed box: `+∞` minimum `x`-coordinate and every maximum
corner strictly below the corresponding minimum. -/
def bxInfC : Aabb := ⟨⟨.inf true, .fin 5, .fin 5⟩, ⟨.fin 0, .fin 0, .fin 0⟩⟩

/-- An object carrying the malformed box `bxInfC`. -/
def oInfC : Object :=
  { hit := fun _ _ _ => none, boundingBox := fun _ _ => some bxInfC }

/-- C2 (amended): a singleton range aliases its object in both child
slots under the shared box and returns the slice untouched; a range of
three or more objects re-sorts the ENTIRE slice (`sort_unstable_by`
receives the whole mutable slice, not the sub-range) with the per-node
random-axis comparator keyed on the bounding-box minimum coordinate at
time `(0,0)`, splits at the midpoint index `start + span / 2`,
recurses left then right on the threaded (mutated) slice, and joins
with `surrounding_box`; a successful build returns a permutation of
the input slice, every reachable leaf is one of the slice's objects,
and every internal node caches the `surrounding_box` of its children's
boxes.  The claim's "multiset of leaf objects reachable from the node
equals the multiset of objects in the input range" fails: the
whole-slice re-sort under fresh axes moves objects across the sibling
range boundary, dropping some range objects and duplicating others
(see the counterexample). -/
theorem C2_build_structure (ax : List Bool → ℕ) (t0 t1 : FP) :
    (∀ (fuel : ℕ) (path : List Bool) (start stop : ℕ) (objs : List Object)
        (o : Object) (bx : Aabb),
      start < stop → stop - start = 1 → objs[start]? = some o →
      o.boundingBox t0 t1 = some bx →
      inner_from_list ax t0 t1 (fuel + 1) path start stop objs =
        .ok (.node (.obj o) (.obj o) (Aabb.surrounding_box bx bx), objs)) ∧
    (∀ (fuel : ℕ) (path : List Bool) (start stop : ℕ)
        (objs s objs1 objs2 : List Object) (ltree rtree : BvhT),
      start < stop → 3 ≤ stop - start →
      sortE (fun a b => box_compare a b (ax path)) objs = .ok s →
      inner_from_list ax t0 t1 fuel (path ++ [false]) start
        (start + (stop - start) / 2) s = .ok (ltree, objs1) →
      inner_from_list ax t0 t1 fuel (path ++ [true])
        (start + (stop - start) / 2) stop objs1 = .ok (rtree, objs2) →
      inner_from_list ax t0 t1 (fuel + 1) path start stop objs =
        (mkNode ltree rtree t0 t1).map (fun t => (t, objs2))) ∧
    (∀ (fuel : ℕ) (path : List Bool) (start stop : ℕ)
        (objs objs' : List Object) (node : BvhT),
      inner_from_list ax t0 t1 fuel path start stop objs = .ok (node, objs') →
      List.Perm objs' objs ∧ ∀ o ∈ node.leaves, o ∈ objs) ∧
    (∀ (fuel : ℕ) (path : List Bool) (start stop : ℕ)
        (objs objs' : List Object) (node : BvhT),
      inner_from_list ax t0 t1 fuel path start stop objs = .ok (node, objs') →
      WellBoxed t0 t1 node) := by
  refine ⟨?_, ?_, ?_, ?_⟩
  · intro fuel path start stop objs o bx hlt hspan hget hbx
    rw [inner_one_some ax t0 t1 fuel path hlt hspan hget,
      @mkNode_ok_of (.obj o) (.obj o) t0 t1 bx bx hbx hbx]
    rfl
  · intro fuel path start stop objs s objs1 objs2 ltree rtree hlt hbig hS hL hR
    exact inner_big_shape ax t0 t1 fuel path hlt hbig hS hL hR
  · intro fuel path start stop objs objs' node h
    obtain ⟨hp, hsub, _⟩ :=
      inner_ok_shape ax t0 t1 fuel path start stop objs node objs' h
    exact ⟨hp, hsub⟩
  · intro fuel path start stop objs objs' node h
    exact (inner_ok_shape ax t0 t1 fuel path start stop objs node objs' h).2.2

/-- C2 witness: over the singleton range of `[oUnitC]` the builder
aliases the object in both child slots and returns the slice; the
reachable leaves lie in the slice, which is (trivially) permuted, and
the node is well-boxed; over a three-object range it sorts the whole
slice, splits at index `0 + 3 / 2 = 1` and recurses on the threaded
slice. -/
theorem C2_witness :
    (inner_from_list (fun _ => 0) (.fin 0) (.fin 0) 1 [] 0 1 [oUnitC] =
      .ok (.node (.obj oUnitC) (.obj oUnitC)
        (Aabb.surrounding_box bxUnitC bxUnitC), [oUnitC])) ∧
    (List.Perm [oUnitC] [oUnitC] ∧
      ∀ o ∈ BvhT.leaves (.node (.obj oUnitC) (.obj oUnitC)
        (Aabb.surrounding_box bxUnitC bxUnitC)), o ∈ [oUnitC]) ∧
    WellBoxed (.fin 0) (.fin 0) (.node (.obj oUnitC) (.obj oUnitC)
      (Aabb.surrounding_box bxUnitC bxUnitC)) ∧
    (inner_from_list (fun _ => 0) (.fin 0) (.fin 0) 2 [] 0 3
        [oUnitC, oFarC, oUnitC] =
      (mkNode
        (.node (.obj oUnitC) (.obj oUnitC)
          (Aabb.surrounding_box bxUnitC bxUnitC))
        (.node (.obj oUnitC) (.obj oFarC)
          (Aabb.surrounding_box bxUnitC bxFarC))
        (.fin 0) (.fin 0)).map
        (fun t => (t, [oUnitC, oUnitC, oFarC]))) := by
  obtain ⟨h1, h2, h3, h4⟩ := C2_build_structure (fun _ => 0) (.fin 0) (.fin 0)
  have hsing := h1 0 [] 0 1 [oUnitC] oUnitC bxUnitC (by decide) rfl rfl rfl
  refine ⟨hsing,
    h3 1 [] 0 1 [oUnitC] [oUnitC]
      (.node (.obj oUnitC) (.obj oUnitC)
        (Aabb.surrounding_box bxUnitC bxUnitC)) hsing,
    h4 1 [] 0 1 [oUnitC] [oUnitC]
      (.node (.obj oUnitC) (.obj oUnitC)
        (Aabb.surrounding_box bxUnitC bxUnitC)) hsing, ?_⟩
  exact h2 1 [] 0 3 [oUnitC, oFarC, oUnitC] [oUnitC, oUnitC, oFarC]
    [oUnitC, oUnitC, oFarC] [oUnitC, oUnitC, oFarC]
    (.node (.obj oUnitC) (.obj oUnitC) (Aabb.surrounding_box bxUnitC bxUnitC))
    (.node (.obj oUnitC) (.obj oFarC) (Aabb.surrounding_box bxUnitC bxFarC))
    (by decide) (by decide) rfl rfl rfl

/-- Six objects whose `x` keys `1..6` ascend while their `y` keys
`6..1` descend, so the `x`- and `y`-sorted orders are reverses of each
other. -/
def oXY (x y : ℚ) : Object :=
  { hit := fun _ _ _ => none,
    boundingBox := fun _ _ =>
      some ⟨⟨.fin x, .fin y, .fin 0⟩, ⟨.fin x, .fin y, .fin 1⟩⟩ }

/-- The six-object scene for the C2 counterexample. -/
def objs6 : List Object :=
  [oXY 1 6, oXY 2 5, oXY 3 4, oXY 4 3, oXY 5 2, oXY 6 1]

/-- Axis draws for the C2 counterexample: every node sorts by `x`
except the root's left child, which sorts by `y`. -/
def ax6 : List Bool → ℕ := fun p => if p = [false] then 1 else 0

/-- C2 counterexample: building over six objects whose `x` order is
the reverse of their `y` order, with axis `x` at the root and axis `y`
at the root's left child, yields a tree whose leaves have `x` keys
`[6,6,4,5,4,4,5,6]` — the objects with keys `1`, `2`, `3` are dropped
and those with keys `4` and `6` multiplied — because each recursion
level re-sorts the ENTIRE slice and the left child's `y` re-sort moves
objects across the sibling range boundary.  The multiset of reachable
leaf objects therefore differs from the multiset of the input range. -/
theorem C2_cex :
    (from_list ax6 (.fin 0) (.fin 0) objs6).map
        (fun t => t.leaves.map (keyOf 0)) =
      .ok [some (.fin 6), some (.fin 6), some (.fin 4), some (.fin 5),
        some (.fin 4), some (.fin 4), some (.fin 5), some (.fin 6)] ∧
    objs6.map (keyOf 0) =
      [some (.fin 1), some (.fin 2), some (.fin 3), some (.fin 4),
        some (.fin 5), some (.fin 6)] :=
  ⟨rfl, rfl⟩

/-- C5 (amended): construction aborts when an object in the range has
no bounding box, and when a NaN key reaches the sort comparator (here:
a box whose minimum is NaN on every axis, in a range of at least two);
the comparator succeeds exactly when both boxes exist with non-NaN
keys; and precondition-satisfying ranges (`GoodO`) build without any
panic.  Contrary to the claim, `±∞` keys compare without aborting and
malformed boxes with non-monotonic corners are accepted (see the
counterexample). -/
theorem C5_construction_panics (ax : List Bool → ℕ) (t0 t1 : FP) :
    (∀ objs : List Object, (∀ o ∈ objs, GoodO t0 t1 o) → 1 ≤ objs.length →
      exOk (from_list ax t0 t1 objs) = true) ∧
    (∀ (objs : List Object) (o : Object), o ∈ objs →
      (∀ u v, o.boundingBox u v = none) →
      exOk (from_list ax t0 t1 objs) = false) ∧
    (∀ (a b : Object) (axis : ℕ),
      (∃ o, box_compare a b axis = .ok o) ↔ (GoodAt axis a ∧ GoodAt axis b)) ∧
    (∀ (objs : List Object) (o : Object) (bx : Aabb), o ∈ objs →
      2 ≤ objs.length → o.boundingBox (.fin 0) (.fin 0) = some bx →
      bx.minimum.x = FP.nan → bx.minimum.y = FP.nan → bx.minimum.z = FP.nan →
      exOk (from_list ax t0 t1 objs) = false) := by
  refine ⟨?_, ?_, fun a b axis => box_compare_ok_iff, ?_⟩
  · intro objs hg h1
    obtain ⟨l, r, bx, objs', h, _⟩ := inner_ok_of_good ax t0 t1
      (objs.length + 1) [] 0 objs.length objs hg h1 (le_refl _) (by omega)
    unfold from_list
    rw [exOk_map, h]
    rfl
  · intro objs o ho hb
    unfold from_list
    rw [exOk_map]
    exact inner_error_entry ax t0 t1 _ [] objs o ho
      (fun axis => boxless_not_goodAt (hb _ _) axis) (fun _ => hb t0 t1)
  · intro objs o bx ho hlen hbx hx hy hz
    unfold from_list
    rw [exOk_map]
    exact inner_error_entry ax t0 t1 _ [] objs o ho
      (nankey_not_goodAt hbx hx hy hz) (fun h1 => by omega)

/-- C5 witness: a good singleton builds; a missing box aborts; the
comparator answers on two good objects; an all-NaN minimum aborts a
two-object range. -/
theorem C5_witness :
    exOk (from_list (fun _ => 0) (.fin 0) (.fin 0) [oUnitC]) = true ∧
    exOk (from_list (fun _ => 0) (.fin 0) (.fin 0) [oNoBoxC, oUnitC]) = false ∧
    (∃ o, box_compare oUnitC oFarC 0 = .ok o) ∧
    exOk (from_list (fun _ => 0) (.fin 0) (.fin 0) [oNanC, oUnitC]) = false := by
  obtain ⟨h1, h2, h3, h4⟩ := C5_construction_panics (fun _ => 0) (.fin 0) (.fin 0)
  refine ⟨?_, ?_, ?_, ?_⟩
  · refine h1 [oUnitC] (fun o ho => ?_) (by simp)
    rw [List.mem_singleton] at ho
    subst ho
    exact ⟨⟨bxUnitC, rfl, by decide, by decide, by decide⟩, ⟨bxUnitC, rfl⟩⟩
  · exact h2 [oNoBoxC, oUnitC] oNoBoxC (by simp) (fun _ _ => rfl)
  · exact (h3 oUnitC oFarC 0).mpr
      ⟨⟨.fin 0, rfl, by decide⟩, ⟨.fin 5, rfl, by decide⟩⟩
  · exact h4 [oNanC, oUnitC] oNanC ⟨⟨.nan, .nan, .nan⟩, Vec3.ones⟩
      (by simp) (by simp) rfl rfl rfl rfl

/-- C5 counterexample: an object whose box has a `+∞` minimum
coordinate and non-monotonic corners (every maximum strictly below the
corresponding minimum) is accepted by construction — the build
succeeds, and the comparator actually compared the `+∞` key without
aborting — refuting "aborts whenever NaN or ±infinity is compared"
and "whenever a malformed axis-aligned box with non-monotonic corners
is used as partition input". -/
theorem C5_cex :
    exOk (from_list (fun _ => 0) (.fin 0) (.fin 0) [oInfC, oUnitC]) = true ∧
    box_compare oInfC oUnitC 0 = .ok .gt ∧
    FP.lt bxInfC.maximum.x bxInfC.minimum.x = true ∧
    FP.lt bxInfC.maximum.y bxInfC.minimum.y = true ∧
    FP.lt bxInfC.maximum.z bxInfC.minimum.z = true := by
  exact ⟨rfl, rfl, by decide, by decide, by decide⟩

/-! ## FP order and arithmetic lemmas for the slab-test monotonicity -/

namespace FP

theorem le_antisymm {x y : FP} (h1 : le x y = true) (h2 : le y x = true) :
    x = y := by
  cases x with
  | nan => simp [le] at h1
  | inf a =>
    cases y with
    | nan => simp [le] at h1
    | inf b =>
      simp only [le] at h1 h2
      cases a <;> cases b <;> simp_all
    | fin q =>
      simp only [le] at h1 h2
      cases a <;> simp_all
  | fin p =>
    cases y with
    | nan => simp [le] at h1
    | inf b =>
      simp only [le] at h1 h2
      cases b <;> simp_all
    | fin q =>
      simp only [le, decide_eq_true_eq] at h1 h2
      exact congrArg fin (h1.antisymm h2)

theorem ninf_le {y : FP} (hy : y ≠ nan) : le (inf false) y = true := by
  cases y <;> simp_all [le]

theorem sub_fin_le {x y : FP} (q : ℚ) (h : le x y = true) :
    le (sub x (fin q)) (sub y (fin q)) = true := by
  cases x with
  | nan => simp [le] at h
  | inf a =>
    cases y with
    | nan => simp [le] at h
    | inf b =>
      show le (inf a) (inf b) = true
      exact h
    | fin b =>
      simp only [le] at h
      show le (inf a) (fin (b + -q)) = true
      simp only [le]
      exact h
  | fin p =>
    cases y with
    | nan => simp [le] at h
    | inf b =>
      simp only [le] at h
      show le (fin (p + -q)) (inf b) = true
      simp only [le]
      exact h
    | fin b =>
      simp only [le, decide_eq_true_eq] at h
      show le (fin (p + -q)) (fin (b + -q)) = true
      simp only [le, decide_eq_true_eq]
      linarith

theorem sub_fin_ne_nan {x : FP} (hx : x ≠ nan) (q : ℚ) :
    sub x (fin q) ≠ nan := by
  cases x with
  | nan => exact absurd rfl hx
  | inf a => simp [sub, neg, add]
  | fin p => simp [sub, neg, add]

theorem mul_fin_ne_nan {x : FP} {c : ℚ} (hx : x ≠ nan) (hc : c ≠ 0) :
    mul x (fin c) ≠ nan := by
  cases x with
  | nan => exact absurd rfl hx
  | inf a => simp [mul, hc]
  | fin q => simp [mul]

theorem mul_fin_le_pos {x y : FP} {c : ℚ} (hc : 0 < c) (h : le x y = true) :
    le (mul x (fin c)) (mul y (fin c)) = true := by
  have hc0 : c ≠ 0 := ne_of_gt hc
  cases x with
  | nan => simp [le] at h
  | inf a =>
    cases y with
    | nan => simp [le] at h
    | inf b =>
      simp only [mul, if_neg hc0, decide_eq_true hc, beq_true]
      exact h
    | fin b =>
      simp only [le] at h
      simp only [mul, if_neg hc0, decide_eq_true hc, beq_true, le]
      exact h
  | fin p =>
    cases y with
    | nan => simp [le] at h
    | inf b =>
      simp only [le] at h
      simp only [mul, if_neg hc0, decide_eq_true hc, beq_true, le]
      exact h
    | fin b =>
      simp only [le, decide_eq_true_eq] at h
      simp only [mul, le, decide_eq_true_eq]
      exact mul_le_mul_of_nonneg_right h hc.le

theorem mul_fin_le_neg {x y : FP} {c : ℚ} (hc : c < 0) (h : le x y = true) :
    le (mul y (fin c)) (mul x (fin c)) = true := by
  have hc0 : c ≠ 0 := ne_of_lt hc
  have hcd : decide (0 < c) = false := by
    simp only [decide_eq_false_iff_not]
    exact hc.asymm
  cases x with
  | nan => simp [le] at h
  | inf a =>
    cases y with
    | nan => simp [le] at h
    | inf b =>
      simp only [le] at h
      simp only [mul, if_neg hc0, hcd, beq_false, le]
      cases a <;> cases b <;> simp_all
    | fin b =>
      simp only [le] at h
      simp only [mul, if_neg hc0, hcd, beq_false, le]
      exact h
  | fin p =>
    cases y with
    | nan => simp [le] at h
    | inf b =>
      simp only [le] at h
      simp only [mul, if_neg hc0, hcd, beq_false, le]
      cases b <;> simp_all
    | fin b =>
      simp only [le, decide_eq_true_eq] at h
      simp only [mul, le, decide_eq_true_eq]
      exact mul_le_mul_of_nonpos_right h hc.le

theorem fmax_cases (x y : FP) : fmax x y = x ∨ fmax x y = y := by
  unfold fmax
  by_cases h1 : x = nan
  · rw [if_pos h1]
    exact Or.inr rfl
  · rw [if_neg h1]
    by_cases h2 : y = nan
    · rw [if_pos h2]
      exact Or.inl rfl
    · rw [if_neg h2]
      by_cases h3 : lt x y = true
      · rw [if_pos h3]
        exact Or.inr rfl
      · rw [if_neg h3]
        exact Or.inl rfl

theorem fmin_cases (x y : FP) : fmin x y = x ∨ fmin x y = y := by
  unfold fmin
  by_cases h1 : x = nan
  · rw [if_pos h1]
    exact Or.inr rfl
  · rw [if_neg h1]
    by_cases h2 : y = nan
    · rw [if_pos h2]
      exact Or.inl rfl
    · rw [if_neg h2]
      by_cases h3 : lt y x = true
      · rw [if_pos h3]
        exact Or.inr rfl
      · rw [if_neg h3]
        exact Or.inl rfl

theorem fmax_le_fmax {x x' y y' : FP} (hxx : le x' x = true)
    (hyy : le y' y = true) : le (fmax x' y') (fmax x y) = true := by
  rcases fmax_cases x' y' with h | h <;> rw [h]
  · exact le_trans hxx (le_fmax_left (le_ne_nan hxx).2)
  · exact le_trans hyy (le_fmax_right (le_ne_nan hyy).2)

theorem fmin_le_fmin {x x' y y' : FP} (hxx : le x x' = true)
    (hyy : le y y' = true) : le (fmin x y) (fmin x' y') = true := by
  rcases fmin_cases x' y' with h | h <;> rw [h]
  · exact le_trans (fmin_le_left (le_ne_nan hxx).1) hxx
  · exact le_trans (fmin_le_right (le_ne_nan hyy).1) hyy

theorem fmax_nan_left (y : FP) : fmax nan y = y := by
  simp [fmax]

theorem fmin_nan_left (y : FP) : fmin nan y = y := by
  simp [fmin]

theorem fmax_pinf_left (y : FP) : fmax (inf true) y = inf true := by
  unfold fmax
  rw [if_neg (by simp)]
  by_cases hy : y = nan
  · rw [if_pos hy]
  · rw [if_neg hy, if_neg (by cases y <;> simp [lt])]

theorem fmax_ninf_left {y : FP} (hy : y ≠ nan) : fmax (inf false) y = y := by
  unfold fmax
  rw [if_neg (by simp), if_neg hy]
  cases y with
  | nan => exact absurd rfl hy
  | inf b => cases b <;> simp [lt]
  | fin q => simp [lt]

theorem fmin_ninf_left (y : FP) : fmin (inf false) y = inf false := by
  unfold fmin
  rw [if_neg (by simp)]
  by_cases hy : y = nan
  · rw [if_pos hy]
  · rw [if_neg hy, if_neg (by cases y <;> simp [lt])]

theorem fmin_pinf_left {y : FP} (hy : y ≠ nan) : fmin (inf true) y = y := by
  unfold fmin
  rw [if_neg (by simp), if_neg hy]
  cases y with
  | nan => exact absurd rfl hy
  | inf b => cases b <;> simp [lt]
  | fin q => simp [lt]

theorem mul_pinf_fin_neg {q : ℚ} (hq : q < 0) :
    mul (fin q) (inf true) = inf false := by
  show (if q = 0 then nan else inf (true == decide (0 < q))) = inf false
  rw [if_neg (ne_of_lt hq)]
  simp [hq.asymm]

theorem mul_pinf_fin_pos {q : ℚ} (hq : 0 < q) :
    mul (fin q) (inf true) = inf true := by
  show (if q = 0 then nan else inf (true == decide (0 < q))) = inf true
  rw [if_neg (ne_of_gt hq)]
  simp [hq]

theorem fmax_mulPinf_mono {a a' m m' : FP} (haa : le a' a = true)
    (hmm : le m' m = true) :
    le (fmax (mul a' (inf true)) m') (fmax (mul a (inf true)) m) = true := by
  have hm : m ≠ nan := (le_ne_nan hmm).2
  have hm' : m' ≠ nan := (le_ne_nan hmm).1
  have hbase : le m' (fmax (mul a (inf true)) m) = true :=
    le_trans hmm (le_fmax_right hm)
  cases a' with
  | nan => simp [le] at haa
  | inf b' =>
    cases b' with
    | false =>
      rw [show mul (inf false) (inf true) = inf false from rfl,
        fmax_ninf_left hm']
      exact hbase
    | true =>
      have ha : a = inf true := by
        cases a with
        | nan => simp [le] at haa
        | inf b =>
          cases b with
          | true => rfl
          | false => simp [le] at haa
        | fin q => simp [le] at haa
      subst ha
      rw [show mul (inf true) (inf true) = inf true from rfl]
      rw [fmax_pinf_left, fmax_pinf_left]
      simp [le]
  | fin q' =>
    rcases lt_trichotomy q' 0 with hq | hq | hq
    · rw [mul_pinf_fin_neg hq, fmax_ninf_left hm']
      exact hbase
    · subst hq
      rw [show mul (fin 0) (inf true) = nan from by simp [mul], fmax_nan_left]
      exact hbase
    · have hA : mul a (inf true) = inf true := by
        cases a with
        | nan => simp [le] at haa
        | inf b =>
          have hb : b = true := by simpa [le] using haa
          subst hb
          rfl
        | fin q =>
          have hq2 : q' ≤ q := by simpa [le] using haa
          exact mul_pinf_fin_pos (hq.trans_le hq2)
      rw [mul_pinf_fin_pos hq, hA, fmax_pinf_left, fmax_pinf_left]
      simp [le]

theorem fmin_mulPinf_mono {b b' M M' : FP} (hbb : le b b' = true)
    (hMM : le M M' = true) :
    le (fmin (mul b (inf true)) M) (fmin (mul b' (inf true)) M') = true := by
  have hM : M ≠ nan := (le_ne_nan hMM).1
  have hM' : M' ≠ nan := (le_ne_nan hMM).2
  cases b with
  | nan => simp [le] at hbb
  | inf a =>
    cases a with
    | true =>
      have hb' : b' = inf true := by
        cases b' with
        | nan => simp [le] at hbb
        | inf c =>
          cases c with
          | true => rfl
          | false => simp [le] at hbb
        | fin q => simp [le] at hbb
      subst hb'
      rw [show mul (inf true) (inf true) = inf true from rfl,
        fmin_pinf_left hM, fmin_pinf_left hM']
      exact hMM
    | false =>
      rw [show mul (inf false) (inf true) = inf false from rfl, fmin_ninf_left]
      exact ninf_le (fmin_ne_nan hM')
  | fin q =>
    rcases lt_trichotomy q 0 with hq | hq | hq
    · rw [mul_pinf_fin_neg hq, fmin_ninf_left]
      exact ninf_le (fmin_ne_nan hM')
    · subst hq
      rw [show mul (fin 0) (inf true) = nan from by simp [mul], fmin_nan_left]
      have hV' : fmin (mul b' (inf true)) M' = M' := by
        cases b' with
        | nan => simp [le] at hbb
        | inf c =>
          have hc : c = true := by simpa [le] using hbb
          subst hc
          rw [show mul (inf true) (inf true) = inf true from rfl,
            fmin_pinf_left hM']
        | fin q' =>
          have h0 : (0:ℚ) ≤ q' := by simpa [le] using hbb
          rcases eq_or_lt_of_le h0 with h | h
          · rw [show mul (fin q') (inf true) = nan from by
              simp [mul, ← h], fmin_nan_left]
          · rw [mul_pinf_fin_pos h, fmin_pinf_left hM']
      rw [hV']
      exact hMM
    · rw [mul_pinf_fin_pos hq, fmin_pinf_left hM]
      have hV' : fmin (mul b' (inf true)) M' = M' := by
        cases b' with
        | nan => simp [le] at hbb
        | inf c =>
          have hc : c = true := by simpa [le] using hbb
          subst hc
          rw [show mul (inf true) (inf true) = inf true from rfl,
            fmin_pinf_left hM']
        | fin q' =>
          have hq2 : q ≤ q' := by simpa [le] using hbb
          rw [mul_pinf_fin_pos (hq.trans_le hq2), fmin_pinf_left hM']
      rw [hV']
      exact hMM

theorem div_one_zero : div (fin 1) (fin 0) = inf true := by
  show (if (0:ℚ) = 0 then (if (1:ℚ) = 0 then nan else inf (decide ((0:ℚ) < 1)))
    else fin (1/0)) = inf true
  norm_num

theorem div_one_fin {q : ℚ} (hq : q ≠ 0) : div (fin 1) (fin q) = fin (1/q) := by
  show (if q = 0 then (if (1:ℚ) = 0 then nan else inf (decide ((0:ℚ) < 1)))
    else fin (1/q)) = fin (1/q)
  rw [if_neg hq]

end FP

namespace Aabb

/-- `Aabb::hit`'s per-axis body with a nonnegative inverse direction:
no swap of the two candidate parameters. -/
theorem axisHit_noswap {mn mx org dir tl th : FP}
    (hswap : FP.lt (FP.div (.fin 1) dir) (.fin 0) = false) :
    axisHit mn mx org dir tl th =
      (if FP.le (FP.fmin (FP.mul (FP.sub mx org) (FP.div (.fin 1) dir)) th)
            (FP.fmax (FP.mul (FP.sub mn org) (FP.div (.fin 1) dir)) tl) = true
       then none
       else some (FP.fmax (FP.mul (FP.sub mn org) (FP.div (.fin 1) dir)) tl,
         FP.fmin (FP.mul (FP.sub mx org) (FP.div (.fin 1) dir)) th)) := by
  unfold axisHit
  dsimp only
  rw [hswap]
  rw [if_neg Bool.false_ne_true]

/-- `Aabb::hit`'s per-axis body with a negative inverse direction: the
two candidate parameters are swapped. -/
theorem axisHit_swap {mn mx org dir tl th : FP}
    (hswap : FP.lt (FP.div (.fin 1) dir) (.fin 0) = true) :
    axisHit mn mx org dir tl th =
      (if FP.le (FP.fmin (FP.mul (FP.sub mn org) (FP.div (.fin 1) dir)) th)
            (FP.fmax (FP.mul (FP.sub mx org) (FP.div (.fin 1) dir)) tl) = true
       then none
       else some (FP.fmax (FP.mul (FP.sub mx org) (FP.div (.fin 1) dir)) tl,
         FP.fmin (FP.mul (FP.sub mn org) (FP.div (.fin 1) dir)) th)) := by
  unfold axisHit
  dsimp only
  rw [hswap]
  rw [if_pos rfl]

theorem axisHit_out_ne_nan {mn mx org dir tl th m M : FP} (htl : tl ≠ FP.nan)
    (hth : th ≠ FP.nan) (h : axisHit mn mx org dir tl th = some (m, M)) :
    m ≠ FP.nan ∧ M ≠ FP.nan := by
  cases hsw : FP.lt (FP.div (.fin 1) dir) (.fin 0) with
  | true =>
    rw [axisHit_swap hsw] at h
    split at h
    · cases h
    · simp only [Option.some.injEq, Prod.mk.injEq] at h
      obtain ⟨hm, hM⟩ := h
      subst hm
      subst hM
      exact ⟨FP.fmax_ne_nan htl, FP.fmin_ne_nan hth⟩
  | false =>
    rw [axisHit_noswap hsw] at h
    split at h
    · cases h
    · simp only [Option.some.injEq, Prod.mk.injEq] at h
      obtain ⟨hm, hM⟩ := h
      subst hm
      subst hM
      exact ⟨FP.fmax_ne_nan htl, FP.fmin_ne_nan hth⟩

/-- Slab-test monotonicity on one axis, for a finite ray: enlarging the
slab and widening the query interval preserves a pass, and the narrowed
interval of the larger slab contains the narrowed interval of the
smaller. -/
theorem axisHit_mono {mn mx mn' mx' m M m' M' m1 M1 : FP} {qo qd : ℚ}
    (hemn : FP.le mn' mn = true) (hemx : FP.le mx mx' = true)
    (hem : FP.le m' m = true) (heM : FP.le M M' = true)
    (h : axisHit mn mx (.fin qo) (.fin qd) m M = some (m1, M1)) :
    ∃ m1' M1', axisHit mn' mx' (.fin qo) (.fin qd) m' M' = some (m1', M1') ∧
      FP.le m1' m1 = true ∧ FP.le M1 M1' = true := by
  rcases lt_trichotomy qd 0 with hqd | hqd | hqd
  · have hinv : FP.div (.fin 1) (.fin qd) = .fin (1/qd) :=
      FP.div_one_fin (ne_of_lt hqd)
    have hc : (1:ℚ)/qd < 0 := one_div_neg.mpr hqd
    have hsw : FP.lt (FP.div (.fin 1) (.fin qd)) (.fin 0) = true := by
      rw [hinv]
      simp only [FP.lt, decide_eq_true_eq]
      exact hc
    rw [axisHit_swap hsw, hinv] at h
    rw [axisHit_swap hsw, hinv]
    split at h
    · cases h
    · next hcond =>
      simp only [Option.some.injEq, Prod.mk.injEq] at h
      obtain ⟨hm1, hM1⟩ := h
      have hlow : FP.le (FP.fmax (FP.mul (FP.sub mx' (.fin qo)) (.fin (1/qd))) m')
          (FP.fmax (FP.mul (FP.sub mx (.fin qo)) (.fin (1/qd))) m) = true :=
        FP.fmax_le_fmax (FP.mul_fin_le_neg hc (FP.sub_fin_le _ hemx)) hem
      have hup : FP.le (FP.fmin (FP.mul (FP.sub mn (.fin qo)) (.fin (1/qd))) M)
          (FP.fmin (FP.mul (FP.sub mn' (.fin qo)) (.fin (1/qd))) M') = true :=
        FP.fmin_le_fmin (FP.mul_fin_le_neg hc (FP.sub_fin_le _ hemn)) heM
      have hcondf : FP.le
          (FP.fmin (FP.mul (FP.sub mn' (.fin qo)) (.fin (1/qd))) M')
          (FP.fmax (FP.mul (FP.sub mx' (.fin qo)) (.fin (1/qd))) m') = false := by
        cases hq : FP.le (FP.fmin (FP.mul (FP.sub mn' (.fin qo)) (.fin (1/qd))) M')
            (FP.fmax (FP.mul (FP.sub mx' (.fin qo)) (.fin (1/qd))) m') with
        | false => rfl
        | true => exact absurd (FP.le_trans (FP.le_trans hup hq) hlow) hcond
      refine ⟨FP.fmax (FP.mul (FP.sub mx' (.fin qo)) (.fin (1/qd))) m',
        FP.fmin (FP.mul (FP.sub mn' (.fin qo)) (.fin (1/qd))) M', ?_, ?_, ?_⟩
      · rw [if_neg (by rw [hcondf]; exact Bool.false_ne_true)]
      · rw [← hm1]
        exact hlow
      · rw [← hM1]
        exact hup
  · subst hqd
    have hinv : FP.div (.fin 1) (.fin 0) = .inf true := FP.div_one_zero
    have hsw : FP.lt (FP.div (.fin 1) (.fin 0)) (.fin 0) = false := by
      rw [hinv]
      rfl
    rw [axisHit_noswap hsw, hinv] at h
    rw [axisHit_noswap hsw, hinv]
    split at h
    · cases h
    · next hcond =>
      simp only [Option.some.injEq, Prod.mk.injEq] at h
      obtain ⟨hm1, hM1⟩ := h
      have hlow := FP.fmax_mulPinf_mono (FP.sub_fin_le qo hemn) hem
      have hup := FP.fmin_mulPinf_mono (FP.sub_fin_le qo hemx) heM
      have hcondf : FP.le
          (FP.fmin (FP.mul (FP.sub mx' (.fin qo)) (.inf true)) M')
          (FP.fmax (FP.mul (FP.sub mn' (.fin qo)) (.inf true)) m') = false := by
        cases hq : FP.le (FP.fmin (FP.mul (FP.sub mx' (.fin qo)) (.inf true)) M')
            (FP.fmax (FP.mul (FP.sub mn' (.fin qo)) (.inf true)) m') with
        | false => rfl
        | true => exact absurd (FP.le_trans (FP.le_trans hup hq) hlow) hcond
      refine ⟨FP.fmax (FP.mul (FP.sub mn' (.fin qo)) (.inf true)) m',
        FP.fmin (FP.mul (FP.sub mx' (.fin qo)) (.inf true)) M', ?_, ?_, ?_⟩
      · rw [if_neg (by rw [hcondf]; exact Bool.false_ne_true)]
      · rw [← hm1]
        exact hlow
      · rw [← hM1]
        exact hup
  · have hinv : FP.div (.fin 1) (.fin qd) = .fin (1/qd) :=
      FP.div_one_fin (ne_of_gt hqd)
    have hc : (0:ℚ) < 1/qd := one_div_pos.mpr hqd
    have hsw : FP.lt (FP.div (.fin 1) (.fin qd)) (.fin 0) = false := by
      rw [hinv]
      simp only [FP.lt, decide_eq_false_iff_not]
      exact hc.asymm
    rw [axisHit_noswap hsw, hinv] at h
    rw [axisHit_noswap hsw, hinv]
    split at h
    · cases h
    · next hcond =>
      simp only [Option.some.injEq, Prod.mk.injEq] at h
      obtain ⟨hm1, hM1⟩ := h
      have hlow : FP.le (FP.fmax (FP.mul (FP.sub mn' (.fin qo)) (.fin (1/qd))) m')
          (FP.fmax (FP.mul (FP.sub mn (.fin qo)) (.fin (1/qd))) m) = true :=
        FP.fmax_le_fmax (FP.mul_fin_le_pos hc (FP.sub_fin_le _ hemn)) hem
      have hup : FP.le (FP.fmin (FP.mul (FP.sub mx (.fin qo)) (.fin (1/qd))) M)
          (FP.fmin (FP.mul (FP.sub mx' (.fin qo)) (.fin (1/qd))) M') = true :=
        FP.fmin_le_fmin (FP.mul_fin_le_pos hc (FP.sub_fin_le _ hemx)) heM
      have hcondf : FP.le
          (FP.fmin (FP.mul (FP.sub mx' (.fin qo)) (.fin (1/qd))) M')
          (FP.fmax (FP.mul (FP.sub mn' (.fin qo)) (.fin (1/qd))) m') = false := by
        cases hq : FP.le (FP.fmin (FP.mul (FP.sub mx' (.fin qo)) (.fin (1/qd))) M')
            (FP.fmax (FP.mul (FP.sub mn' (.fin qo)) (.fin (1/qd))) m') with
        | false => rfl
        | true => exact absurd (FP.le_trans (FP.le_trans hup hq) hlow) hcond
      refine ⟨FP.fmax (FP.mul (FP.sub mn' (.fin qo)) (.fin (1/qd))) m',
        FP.fmin (FP.mul (FP.sub mx' (.fin qo)) (.fin (1/qd))) M', ?_, ?_, ?_⟩
      · rw [if_neg (by rw [hcondf]; exact Bool.false_ne_true)]
      · rw [← hm1]
        exact hlow
      · rw [← hM1]
        exact hup

end Aabb

theorem Vec3.nth_zero (v : Vec3) : v.nth 0 = v.x := rfl

theorem Vec3.nth_one (v : Vec3) : v.nth 1 = v.y := rfl

theorem Vec3.nth_two (v : Vec3) : v.nth 2 = v.z := rfl

namespace Aabb

theorem surrounding_nonan {b0 b1 : Aabb} (_h0 : NoNan b0) (h1 : NoNan b1) :
    NoNan (surrounding_box b0 b1) :=
  ⟨FP.fmin_ne_nan h1.1, FP.fmin_ne_nan h1.2.1, FP.fmin_ne_nan h1.2.2.1,
   FP.fmax_ne_nan h1.2.2.2.1, FP.fmax_ne_nan h1.2.2.2.2.1,
   FP.fmax_ne_nan h1.2.2.2.2.2⟩

/-- `Aabb::hit` monotonicity: a box that contains another (componentwise
smaller minima, larger maxima) passes the slab test whenever the
contained box does, for a finite ray and non-NaN query interval. -/
theorem hit_mono {b b' : Aabb} {r : Ray} {tl th : FP}
    (hof : Vec3.Finite r.orig) (hdf : Vec3.Finite r.dir)
    (h1 : FP.le b'.minimum.x b.minimum.x = true)
    (h2 : FP.le b'.minimum.y b.minimum.y = true)
    (h3 : FP.le b'.minimum.z b.minimum.z = true)
    (h4 : FP.le b.maximum.x b'.maximum.x = true)
    (h5 : FP.le b.maximum.y b'.maximum.y = true)
    (h6 : FP.le b.maximum.z b'.maximum.z = true)
    (htl : tl ≠ FP.nan) (hth : th ≠ FP.nan)
    (h : b.hit r tl th = true) : b'.hit r tl th = true := by
  obtain ⟨⟨qox, hqox⟩, ⟨qoy, hqoy⟩, ⟨qoz, hqoz⟩⟩ := hof
  obtain ⟨⟨qdx, hqdx⟩, ⟨qdy, hqdy⟩, ⟨qdz, hqdz⟩⟩ := hdf
  unfold hit at h ⊢
  simp only [Vec3.nth_zero, Vec3.nth_one, Vec3.nth_two] at h ⊢
  rw [hqox, hqoy, hqoz, hqdx, hqdy, hqdz] at h ⊢
  rcases hA0 : axisHit b.minimum.x b.maximum.x (.fin qox) (.fin qdx) tl th
      with _ | p0
  · rw [hA0] at h
    cases h
  · obtain ⟨m1, M1⟩ := p0
    rw [hA0] at h
    dsimp only at h
    obtain ⟨hm1n, hM1n⟩ := axisHit_out_ne_nan htl hth hA0
    obtain ⟨m1', M1', hA0', hle1, hle1'⟩ :=
      axisHit_mono h1 h4 (FP.le_refl htl) (FP.le_refl hth) hA0
    rw [hA0']
    dsimp only
    rcases hA1 : axisHit b.minimum.y b.maximum.y (.fin qoy) (.fin qdy) m1 M1
        with _ | p1
    · rw [hA1] at h
      cases h
    · obtain ⟨m2, M2⟩ := p1
      rw [hA1] at h
      dsimp only at h
      obtain ⟨hm2n, hM2n⟩ := axisHit_out_ne_nan hm1n hM1n hA1
      obtain ⟨m2', M2', hA1', hle2, hle2'⟩ := axisHit_mono h2 h5 hle1 hle1' hA1
      rw [hA1']
      dsimp only
      rcases hA2 : axisHit b.minimum.z b.maximum.z (.fin qoz) (.fin qdz) m2 M2
          with _ | p2
      · rw [hA2] at h
        cases h
      · obtain ⟨m3, M3⟩ := p2
        obtain ⟨m3', M3', hA2', _, _⟩ := axisHit_mono h3 h6 hle2 hle2' hA2
        rw [hA2']

end Aabb

/-! ## BVH traversal vs exhaustive list: candidate semantics -/

/-- Interval-monotone hit semantics for a fixed ray and lower bound:
the object has one closest candidate record (or none), reported exactly
when its parameter passes the upper bound, with a non-NaN parameter. -/
def HitSpecAt (r : Ray) (tmin : FP) (cand : Object → Option HitRec)
    (o : Object) : Prop :=
  (cand o = none → ∀ u, o.hit r tmin u = none) ∧
  (∀ c, cand o = some c → c.t ≠ FP.nan ∧
    ∀ u, o.hit r tmin u = if FP.le c.t u then some c else none)

/-- The object's bounding box at the build times has no NaN corner and
passes the slab test on every query interval that its candidate
passes. -/
def BoxSoundAt (r : Ray) (tmin t0 t1 : FP) (cand : Object → Option HitRec)
    (o : Object) : Prop :=
  ∀ bx, o.boundingBox t0 t1 = some bx → Aabb.NoNan bx ∧
    ∀ c, cand o = some c → ∀ u, FP.le c.t u = true → bx.hit r tmin u = true

/-- No object of the list has a candidate within the upper bound. -/
def NoCand (cand : Object → Option HitRec) (os : List Object) (u : FP) : Prop :=
  ∀ o ∈ os, ∀ c, cand o = some c → FP.le c.t u = false

/-- `c` is a candidate of the list within the upper bound, of minimal
parameter among such candidates. -/
def BestCand (cand : Object → Option HitRec) (os : List Object) (u : FP)
    (c : HitRec) : Prop :=
  (∃ o ∈ os, cand o = some c) ∧ FP.le c.t u = true ∧
  ∀ o ∈ os, ∀ c', cand o = some c' → FP.le c'.t u = true →
    FP.le c.t c'.t = true

theorem bvhT_box_nonan (t0 t1 : FP) :
    ∀ T : BvhT,
      (∀ o ∈ T.leaves, ∀ bx, o.boundingBox t0 t1 = some bx → Aabb.NoNan bx) →
      WellBoxed t0 t1 T → ∀ bx, T.boundingBox t0 t1 = some bx →
      Aabb.NoNan bx := by
  intro T
  induction T with
  | obj o =>
    intro hn _ bx hbx
    exact hn o (by simp [BvhT.leaves]) bx hbx
  | node l rr nbx ihl ihr =>
    intro hn hwb bx hbx
    obtain ⟨⟨bl, br, hbl, hbr, hsb⟩, hwl, hwr⟩ := hwb
    have hbxe : nbx = bx := by injection hbx
    subst hbxe
    rw [hsb]
    exact Aabb.surrounding_nonan
      (ihl (fun o' ho' bx' hbx' =>
        hn o' (List.mem_append_left _ ho') bx' hbx') hwl bl hbl)
      (ihr (fun o' ho' bx' hbx' =>
        hn o' (List.mem_append_right _ ho') bx' hbx') hwr br hbr)

/-- The cached box of any subtree passes the slab test on every query
interval that one of its leaf candidates passes: the box test never
prunes a subtree holding a reportable hit. -/
theorem bvhT_cover (r : Ray) (tmin t0 t1 : FP) (cand : Object → Option HitRec)
    (hof : Vec3.Finite r.orig) (hdf : Vec3.Finite r.dir)
    (htmin : tmin ≠ FP.nan) :
    ∀ T : BvhT,
      (∀ o ∈ T.leaves, BoxSoundAt r tmin t0 t1 cand o) →
      WellBoxed t0 t1 T →
      ∀ bx, T.boundingBox t0 t1 = some bx →
      ∀ o ∈ T.leaves, ∀ c, cand o = some c → ∀ u, FP.le c.t u = true →
        bx.hit r tmin u = true := by
  intro T
  induction T with
  | obj o0 =>
    intro hbs _ bx hbx o ho c hc u hu
    have ho0 : o = o0 := by simpa [BvhT.leaves] using ho
    subst ho0
    exact (hbs o (by simp [BvhT.leaves]) bx hbx).2 c hc u hu
  | node l rr nbx ihl ihr =>
    intro hbs hwb bx hbx o ho c hc u hu
    obtain ⟨⟨bl, br, hbl, hbr, hsb⟩, hwl, hwr⟩ := hwb
    have hbxe : nbx = bx := by injection hbx
    subst hbxe
    have hnl : Aabb.NoNan bl := bvhT_box_nonan t0 t1 l
      (fun o' ho' bx' hbx' =>
        (hbs o' (List.mem_append_left _ ho') bx' hbx').1) hwl bl hbl
    have hnr : Aabb.NoNan br := bvhT_box_nonan t0 t1 rr
      (fun o' ho' bx' hbx' =>
        (hbs o' (List.mem_append_right _ ho') bx' hbx').1) hwr br hbr
    rw [hsb]
    rcases List.mem_append.mp ho with hol | hor
    · have hbase := ihl (fun o' ho' => hbs o' (List.mem_append_left _ ho'))
        hwl bl hbl o hol c hc u hu
      exact Aabb.hit_mono hof hdf
        (FP.fmin_le_left hnl.1) (FP.fmin_le_left hnl.2.1)
        (FP.fmin_le_left hnl.2.2.1)
        (FP.le_fmax_left hnl.2.2.2.1) (FP.le_fmax_left hnl.2.2.2.2.1)
        (FP.le_fmax_left hnl.2.2.2.2.2)
        htmin (FP.le_ne_nan hu).2 hbase
    · have hbase := ihr (fun o' ho' => hbs o' (List.mem_append_right _ ho'))
        hwr br hbr o hor c hc u hu
      exact Aabb.hit_mono hof hdf
        (FP.fmin_le_right hnr.1) (FP.fmin_le_right hnr.2.1)
        (FP.fmin_le_right hnr.2.2.1)
        (FP.le_fmax_right hnr.2.2.2.1) (FP.le_fmax_right hnr.2.2.2.2.1)
        (FP.le_fmax_right hnr.2.2.2.2.2)
        htmin (FP.le_ne_nan hu).2 hbase

/-- `HittableList::hit`'s fold computes a best candidate: either no
candidate beats the running closest (and the accumulator is returned
unchanged), or the minimal candidate within the bound is returned. -/
theorem listHitGo_best (r : Ray) (tmin : FP) (cand : Object → Option HitRec) :
    ∀ (os : List Object) (u : FP) (res : Option HitRec),
      (∀ o ∈ os, HitSpecAt r tmin cand o) →
      ((listHitGo r tmin (os.map Object.hit) u res = res ∧ NoCand cand os u) ∨
       (∃ c, listHitGo r tmin (os.map Object.hit) u res = some c ∧
         BestCand cand os u c)) := by
  intro os
  induction os with
  | nil =>
    intro u res _
    left
    exact ⟨rfl, fun o ho => absurd ho (List.not_mem_nil o)⟩
  | cons o os ih =>
    intro u res hos
    have hspec := hos o (List.mem_cons_self o os)
    have hosr : ∀ o' ∈ os, HitSpecAt r tmin cand o' :=
      fun o' ho' => hos o' (List.mem_cons_of_mem o ho')
    cases hco : cand o with
    | none =>
      have hnone := hspec.1 hco u
      simp only [List.map_cons]
      unfold listHitGo
      rw [hnone]
      dsimp only
      rcases ih u res hosr with ⟨heq, hnc⟩ | ⟨c, heq, hbc⟩
      · left
        refine ⟨heq, ?_⟩
        intro o' ho' c' hc'
        rcases List.mem_cons.mp ho' with rfl | ho2
        · rw [hco] at hc'
          cases hc'
        · exact hnc o' ho2 c' hc'
      · right
        refine ⟨c, heq, ?_, hbc.2.1, ?_⟩
        · obtain ⟨o2, ho2, hc2⟩ := hbc.1
          exact ⟨o2, List.mem_cons_of_mem o ho2, hc2⟩
        · intro o' ho' c' hc' hle'
          rcases List.mem_cons.mp ho' with rfl | ho2
          · rw [hco] at hc'
            cases hc'
          · exact hbc.2.2 o' ho2 c' hc' hle'
    | some c0 =>
      obtain ⟨hc0n, hc0⟩ := hspec.2 c0 hco
      by_cases hle : FP.le c0.t u = true
      · have hhit : o.hit r tmin u = some c0 := by
          rw [hc0 u, if_pos hle]
        simp only [List.map_cons]
        unfold listHitGo
        rw [hhit]
        dsimp only
        rcases ih c0.t (some c0) hosr with ⟨heq, hnc⟩ | ⟨c, heq, hbc⟩
        · right
          refine ⟨c0, heq, ⟨o, List.mem_cons_self o os, hco⟩, hle, ?_⟩
          intro o' ho' c' hc' hle'
          rcases List.mem_cons.mp ho' with rfl | ho2
          · rw [hco] at hc'
            injection hc' with he
            subst he
            exact FP.le_refl hc0n
          · have hc'n : c'.t ≠ FP.nan := ((hosr o' ho2).2 c' hc').1
            have hf := hnc o' ho2 c' hc'
            exact FP.le_of_lt ((FP.not_le_iff hc'n hc0n).mp hf)
        · right
          refine ⟨c, heq, ?_, FP.le_trans hbc.2.1 hle, ?_⟩
          · obtain ⟨o2, ho2, hc2⟩ := hbc.1
            exact ⟨o2, List.mem_cons_of_mem o ho2, hc2⟩
          · intro o' ho' c' hc' hle'
            rcases List.mem_cons.mp ho' with rfl | ho2
            · rw [hco] at hc'
              injection hc' with he
              subst he
              exact hbc.2.1
            · by_cases hle2 : FP.le c'.t c0.t = true
              · exact hbc.2.2 o' ho2 c' hc' hle2
              · have hc'n : c'.t ≠ FP.nan := ((hosr o' ho2).2 c' hc').1
                have hf : FP.le c'.t c0.t = false := Bool.eq_false_iff.mpr hle2
                exact FP.le_trans hbc.2.1
                  (FP.le_of_lt ((FP.not_le_iff hc'n hc0n).mp hf))
      · have hlef : FP.le c0.t u = false := Bool.eq_false_iff.mpr hle
        have hhit : o.hit r tmin u = none := by
          rw [hc0 u, if_neg hle]
        simp only [List.map_cons]
        unfold listHitGo
        rw [hhit]
        dsimp only
        rcases ih u res hosr with ⟨heq, hnc⟩ | ⟨c, heq, hbc⟩
        · left
          refine ⟨heq, ?_⟩
          intro o' ho' c' hc'
          rcases List.mem_cons.mp ho' with rfl | ho2
          · rw [hco] at hc'
            injection hc' with he
            subst he
            exact hlef
          · exact hnc o' ho2 c' hc'
        · right
          refine ⟨c, heq, ?_, hbc.2.1, ?_⟩
          · obtain ⟨o2, ho2, hc2⟩ := hbc.1
            exact ⟨o2, List.mem_cons_of_mem o ho2, hc2⟩
          · intro o' ho' c' hc' hle'
            rcases List.mem_cons.mp ho' with rfl | ho2
            · rw [hco] at hc'
              injection hc' with he
              subst he
              rw [hle'] at hlef
              cases hlef
            · exact hbc.2.2 o' ho2 c' hc' hle'

/-- `HittableList::hit` computes a best candidate over the list. -/
theorem hittableListHit_best (r : Ray) (tmin tmax : FP)
    (cand : Object → Option HitRec) (objs : List Object)
    (hos : ∀ o ∈ objs, HitSpecAt r tmin cand o) :
    (hittableListHit objs r tmin tmax = none ∧ NoCand cand objs tmax) ∨
    (∃ c, hittableListHit objs r tmin tmax = some c ∧
      BestCand cand objs tmax c) :=
  listHitGo_best r tmin cand objs tmax none hos

/-- `BvhNode::hit` traversal computes a best candidate over the leaf
objects: box pruning never removes a reportable candidate, the left
child is tested first, and the right child is tested with the upper
bound narrowed to the left hit's parameter. -/
theorem bvhT_hit_best (r : Ray) (tmin t0 t1 : FP)
    (cand : Object → Option HitRec)
    (hof : Vec3.Finite r.orig) (hdf : Vec3.Finite r.dir)
    (htmin : tmin ≠ FP.nan) :
    ∀ T : BvhT,
      (∀ o ∈ T.leaves, HitSpecAt r tmin cand o) →
      (∀ o ∈ T.leaves, BoxSoundAt r tmin t0 t1 cand o) →
      WellBoxed t0 t1 T →
      ∀ u, u ≠ FP.nan →
        ((T.hit r tmin u = none ∧ NoCand cand T.leaves u) ∨
         (∃ c, T.hit r tmin u = some c ∧ BestCand cand T.leaves u c)) := by
  intro T
  induction T with
  | obj o =>
    intro hh _ _ u _
    have hmem : o ∈ (BvhT.obj o).leaves := by simp [BvhT.leaves]
    have hspec := hh o hmem
    cases hco : cand o with
    | none =>
      left
      refine ⟨hspec.1 hco u, ?_⟩
      intro o' ho' c hc
      have ho0 : o' = o := by simpa [BvhT.leaves] using ho'
      subst ho0
      rw [hco] at hc
      cases hc
    | some c0 =>
      obtain ⟨hc0n, hc0⟩ := hspec.2 c0 hco
      by_cases hle : FP.le c0.t u = true
      · right
        refine ⟨c0, ?_, ⟨o, hmem, hco⟩, hle, ?_⟩
        · show o.hit r tmin u = some c0
          rw [hc0 u, if_pos hle]
        · intro o' ho' c' hc' _
          have ho0 : o' = o := by simpa [BvhT.leaves] using ho'
          subst ho0
          rw [hco] at hc'
          injection hc' with he
          subst he
          exact FP.le_refl hc0n
      · left
        refine ⟨?_, ?_⟩
        · show o.hit r tmin u = none
          rw [hc0 u, if_neg hle]
        · intro o' ho' c hc
          have ho0 : o' = o := by simpa [BvhT.leaves] using ho'
          subst ho0
          rw [hco] at hc
          injection hc with he
          subst he
          exact Bool.eq_false_iff.mpr hle
  | node l rr nbx ihl ihr =>
    intro hh hbs hwb u hu
    have hwb' := hwb
    obtain ⟨⟨bl, br, hbl, hbr, hsb⟩, hwl, hwr⟩ := hwb'
    have hhl : ∀ o ∈ l.leaves, HitSpecAt r tmin cand o :=
      fun o ho => hh o (List.mem_append_left _ ho)
    have hhr : ∀ o ∈ rr.leaves, HitSpecAt r tmin cand o :=
      fun o ho => hh o (List.mem_append_right _ ho)
    have hbsl : ∀ o ∈ l.leaves, BoxSoundAt r tmin t0 t1 cand o :=
      fun o ho => hbs o (List.mem_append_left _ ho)
    have hbsr : ∀ o ∈ rr.leaves, BoxSoundAt r tmin t0 t1 cand o :=
      fun o ho => hbs o (List.mem_append_right _ ho)
    by_cases hbox : nbx.hit r tmin u = true
    · have hnotb : (!(nbx.hit r tmin u)) = false := by
        rw [hbox]
        rfl
      rcases ihl hhl hbsl hwl u hu with ⟨hL, hLnc⟩ | ⟨recL, hL, hLb⟩
      · rcases ihr hhr hbsr hwr u hu with ⟨hR, hRnc⟩ | ⟨recR, hR, hRb⟩
        · left
          refine ⟨?_, ?_⟩
          · show bvhNodeHit l.hit rr.hit nbx r tmin u = none
            unfold bvhNodeHit
            rw [hnotb, if_neg Bool.false_ne_true, hL]
            dsimp only
            exact hR
          · intro o' ho' c hc
            rcases List.mem_append.mp ho' with h1 | h1
            · exact hLnc o' h1 c hc
            · exact hRnc o' h1 c hc
        · right
          refine ⟨recR, ?_, ?_, hRb.2.1, ?_⟩
          · show bvhNodeHit l.hit rr.hit nbx r tmin u = some recR
            unfold bvhNodeHit
            rw [hnotb, if_neg Bool.false_ne_true, hL]
            dsimp only
            exact hR
          · obtain ⟨o2, ho2, hc2⟩ := hRb.1
            exact ⟨o2, List.mem_append_right _ ho2, hc2⟩
          · intro o' ho' c' hc' hle'
            rcases List.mem_append.mp ho' with h1 | h1
            · exact absurd hle'
                (by rw [hLnc o' h1 c' hc']; exact Bool.false_ne_true)
            · exact hRb.2.2 o' h1 c' hc' hle'
      · have hrecn : recL.t ≠ FP.nan := by
          obtain ⟨o2, ho2, hc2⟩ := hLb.1
          exact ((hhl o2 ho2).2 recL hc2).1
        rcases ihr hhr hbsr hwr recL.t hrecn with ⟨hR, hRnc⟩ | ⟨recR, hR, hRb⟩
        · right
          refine ⟨recL, ?_, ?_, hLb.2.1, ?_⟩
          · show bvhNodeHit l.hit rr.hit nbx r tmin u = some recL
            unfold bvhNodeHit
            rw [hnotb, if_neg Bool.false_ne_true, hL]
            dsimp only
            rw [hR]
          · obtain ⟨o2, ho2, hc2⟩ := hLb.1
            exact ⟨o2, List.mem_append_left _ ho2, hc2⟩
          · intro o' ho' c' hc' hle'
            rcases List.mem_append.mp ho' with h1 | h1
            · exact hLb.2.2 o' h1 c' hc' hle'
            · have hc'n : c'.t ≠ FP.nan := ((hhr o' h1).2 c' hc').1
              have hf := hRnc o' h1 c' hc'
              exact FP.le_of_lt ((FP.not_le_iff hc'n hrecn).mp hf)
        · right
          refine ⟨recR, ?_, ?_, FP.le_trans hRb.2.1 hLb.2.1, ?_⟩
          · show bvhNodeHit l.hit rr.hit nbx r tmin u = some recR
            unfold bvhNodeHit
            rw [hnotb, if_neg Bool.false_ne_true, hL]
            dsimp only
            rw [hR]
          · obtain ⟨o2, ho2, hc2⟩ := hRb.1
            exact ⟨o2, List.mem_append_right _ ho2, hc2⟩
          · intro o' ho' c' hc' hle'
            rcases List.mem_append.mp ho' with h1 | h1
            · exact FP.le_trans hRb.2.1 (hLb.2.2 o' h1 c' hc' hle')
            · by_cases hle2 : FP.le c'.t recL.t = true
              · exact hRb.2.2 o' h1 c' hc' hle2
              · have hc'n : c'.t ≠ FP.nan := ((hhr o' h1).2 c' hc').1
                have hf : FP.le c'.t recL.t = false :=
                  Bool.eq_false_iff.mpr hle2
                exact FP.le_trans hRb.2.1
                  (FP.le_of_lt ((FP.not_le_iff hc'n hrecn).mp hf))
    · have hbf : nbx.hit r tmin u = false := Bool.eq_false_iff.mpr hbox
      left
      refine ⟨?_, ?_⟩
      · show bvhNodeHit l.hit rr.hit nbx r tmin u = none
        unfold bvhNodeHit
        rw [hbf]
        rfl
      · intro o' ho' c hc
        cases hq : FP.le c.t u with
        | false => rfl
        | true =>
          exact absurd (bvhT_cover r tmin t0 t1 cand hof hdf htmin
            (.node l rr nbx) hbs hwb nbx rfl o' ho' c hc u hq) hbox

/-- C1 (amended): the node query tests the box, then the left child on
the full interval, then the right child with the upper bound narrowed
to the left hit's parameter, preferring the right (closer-or-equal)
hit; and BVH traversal of a built tree returns exactly the exhaustive
`HittableList::hit` result whenever the tree's reachable leaf set
coincides with the list's objects (the builder only guarantees that
every leaf is a list object — the whole-slice re-sorting can DROP list
objects from the tree, see the C2 counterexample, so the coincidence
is a genuine hypothesis here), for every finite ray, non-NaN interval
bounds, and objects whose hit tests are interval-monotone with non-NaN
parameters, whose boxes are slab-sound for their hits with no NaN
corner, and whose closest-hit parameters do not tie.
Unconditionally the equivalence is false: the slab test requires a
strictly nonempty narrowed interval, so a degenerate query interval
`[t, t]` prunes a real hit at `t` (see the counterexample). -/
theorem C1_bvh_equivalence :
    (∀ (lh rh : HitFun) (ibox : Aabb) (r : Ray) (tmin tmax : FP),
      (ibox.hit r tmin tmax = false →
        bvhNodeHit lh rh ibox r tmin tmax = none) ∧
      (ibox.hit r tmin tmax = true → lh r tmin tmax = none →
        bvhNodeHit lh rh ibox r tmin tmax = rh r tmin tmax) ∧
      (∀ recL, ibox.hit r tmin tmax = true → lh r tmin tmax = some recL →
        rh r tmin recL.t = none →
        bvhNodeHit lh rh ibox r tmin tmax = some recL) ∧
      (∀ recL recR, ibox.hit r tmin tmax = true → lh r tmin tmax = some recL →
        rh r tmin recL.t = some recR →
        bvhNodeHit lh rh ibox r tmin tmax = some recR)) ∧
    (∀ (ax : List Bool → ℕ) (t0 t1 : FP) (objs : List Object) (tree : BvhT)
        (r : Ray) (cand : Object → Option HitRec) (tmin tmax : FP),
      from_list ax t0 t1 objs = .ok tree →
      (∀ o, o ∈ tree.leaves ↔ o ∈ objs) →
      Vec3.Finite r.orig → Vec3.Finite r.dir →
      tmin ≠ FP.nan → tmax ≠ FP.nan →
      (∀ o ∈ objs, HitSpecAt r tmin cand o) →
      (∀ o ∈ objs, BoxSoundAt r tmin t0 t1 cand o) →
      (∀ o ∈ objs, ∀ o' ∈ objs, ∀ c c', cand o = some c → cand o' = some c' →
        c.t = c'.t → c = c') →
      tree.hit r tmin tmax = hittableListHit objs r tmin tmax) := by
  constructor
  · intro lh rh ibox r tmin tmax
    refine ⟨?_, ?_, ?_, ?_⟩
    · intro hb
      unfold bvhNodeHit
      rw [hb]
      rfl
    · intro hb hl
      unfold bvhNodeHit
      rw [hb, Bool.not_true, if_neg Bool.false_ne_true, hl]
    · intro recL hb hl hr
      unfold bvhNodeHit
      rw [hb, Bool.not_true, if_neg Bool.false_ne_true, hl]
      dsimp only
      rw [hr]
    · intro recL recR hb hl hr
      unfold bvhNodeHit
      rw [hb, Bool.not_true, if_neg Bool.false_ne_true, hl]
      dsimp only
      rw [hr]
  · intro ax t0 t1 objs tree r cand tmin tmax hfl hmem hof hdf htmin htmax hH1
      hH2 hties
    unfold from_list at hfl
    obtain ⟨p, hinner, htree⟩ := exceptMap_ok hfl
    obtain ⟨nodeT, objsf⟩ := p
    have htn : tree = nodeT := htree
    have hwb : WellBoxed t0 t1 tree := by
      rw [htn]
      exact (inner_ok_shape ax t0 t1 (objs.length + 1) [] 0 objs.length
        objs nodeT objsf hinner).2.2
    have hhL : ∀ o ∈ tree.leaves, HitSpecAt r tmin cand o :=
      fun o ho => hH1 o ((hmem o).mp ho)
    have hbsL : ∀ o ∈ tree.leaves, BoxSoundAt r tmin t0 t1 cand o :=
      fun o ho => hH2 o ((hmem o).mp ho)
    rcases bvhT_hit_best r tmin t0 t1 cand hof hdf htmin tree hhL hbsL hwb
        tmax htmax with ⟨hT, hTnc⟩ | ⟨c, hT, hTb⟩ <;>
      rcases hittableListHit_best r tmin tmax cand objs hH1
        with ⟨hLi, hLnc⟩ | ⟨c', hLi, hLb⟩
    · rw [hT, hLi]
    · exfalso
      obtain ⟨o2, ho2, hc2⟩ := hLb.1
      have hf := hTnc o2 ((hmem o2).mpr ho2) c' hc2
      exact absurd hLb.2.1 (by rw [hf]; exact Bool.false_ne_true)
    · exfalso
      obtain ⟨o2, ho2, hc2⟩ := hTb.1
      have hf := hLnc o2 ((hmem o2).mp ho2) c hc2
      exact absurd hTb.2.1 (by rw [hf]; exact Bool.false_ne_true)
    · rw [hT, hLi]
      obtain ⟨oT, hoT, hcT⟩ := hTb.1
      obtain ⟨oL, hoL, hcL⟩ := hLb.1
      have h1 : FP.le c.t c'.t = true :=
        hTb.2.2 oL ((hmem oL).mpr hoL) c' hcL hLb.2.1
      have h2 : FP.le c'.t c.t = true :=
        hLb.2.2 oT ((hmem oT).mp hoT) c hcT hTb.2.1
      rw [hties oT ((hmem oT).mp hoT) oL hoL c c' hcT hcL
        (FP.le_antisymm h1 h2)]

/-- The all-space box carried by the C1 witness object. -/
def bxC1w : Aabb :=
  ⟨⟨.inf false, .inf false, .inf false⟩, ⟨.inf true, .inf true, .inf true⟩⟩

/-- The single candidate record of the C1 witness object. -/
def recC1w : HitRec :=
  { p := Vec3.zeros, normal := ⟨.fin 1, .fin 0, .fin 0⟩,
    mat := some (diffuseLightMat Vec3.ones), t := .fin 2, u := .fin 0,
    v := .fin 0, front_face := true }

/-- A synthetic `Arc<dyn Hittable>` with interval-monotone hit
semantics: one candidate at parameter 2, all-space box. -/
def oC1w : Object :=
  { hit := fun _ _ th => if FP.le (.fin 2) th then some recC1w else none,
    boundingBox := fun _ _ => some bxC1w }

def rayC1w : Ray := ⟨Vec3.zeros, ⟨.fin 1, .fin 0, .fin 0⟩, .fin 0⟩

def candC1w : Object → Option HitRec := fun _ => some recC1w

unseal Rat.add Rat.mul Rat.sub Rat.inv in
theorem axisC1w_x {u : FP} (hun : u ≠ FP.nan)
    (hu0 : FP.le u (.fin 0) = false) :
    Aabb.axisHit (.inf false) (.inf true) (.fin 0) (.fin 1) (.fin 0) u =
      some (.fin 0, u) := by
  rw [Aabb.axisHit_noswap (by decide)]
  rw [show FP.mul (FP.sub (.inf true) (.fin 0)) (FP.div (.fin 1) (.fin 1)) =
    .inf true from by decide]
  rw [show FP.mul (FP.sub (.inf false) (.fin 0)) (FP.div (.fin 1) (.fin 1)) =
    .inf false from by decide]
  rw [FP.fmin_pinf_left hun, FP.fmax_ninf_left (by decide)]
  rw [if_neg (by rw [hu0]; exact Bool.false_ne_true)]

unseal Rat.add Rat.mul Rat.sub Rat.inv in
theorem axisC1w_flat {u : FP} (hun : u ≠ FP.nan)
    (hu0 : FP.le u (.fin 0) = false) :
    Aabb.axisHit (.inf false) (.inf true) (.fin 0) (.fin 0) (.fin 0) u =
      some (.fin 0, u) := by
  rw [Aabb.axisHit_noswap (by decide)]
  rw [show FP.mul (FP.sub (.inf true) (.fin 0)) (FP.div (.fin 1) (.fin 0)) =
    .inf true from by decide]
  rw [show FP.mul (FP.sub (.inf false) (.fin 0)) (FP.div (.fin 1) (.fin 0)) =
    .inf false from by decide]
  rw [FP.fmin_pinf_left hun, FP.fmax_ninf_left (by decide)]
  rw [if_neg (by rw [hu0]; exact Bool.false_ne_true)]

theorem bxC1w_hit {u : FP} (hu : FP.le (.fin 2) u = true) :
    bxC1w.hit rayC1w (.fin 0) u = true := by
  have hun : u ≠ FP.nan := (FP.le_ne_nan hu).2
  have hu0 : FP.le u (.fin 0) = false := by
    cases hq : FP.le u (.fin 0) with
    | false => rfl
    | true => exact absurd (FP.le_trans hu hq) (by decide)
  unfold Aabb.hit
  dsimp only [bxC1w, rayC1w, Vec3.zeros, Vec3.nth_zero, Vec3.nth_one,
    Vec3.nth_two]
  rw [axisC1w_x hun hu0]
  dsimp only
  rw [axisC1w_flat hun hu0]
  dsimp only
  rw [axisC1w_flat hun hu0]

unseal Rat.add Rat.mul Rat.sub Rat.inv in
theorem C1_witness :
    ∃ tree, from_list (fun _ => 0) (.fin 0) (.fin 0) [oC1w] = .ok tree ∧
      tree.hit rayC1w (.fin 0) (.fin 100) =
        hittableListHit [oC1w] rayC1w (.fin 0) (.fin 100) := by
  obtain ⟨hnode, heq⟩ := C1_bvh_equivalence
  refine ⟨.node (.obj oC1w) (.obj oC1w) (Aabb.surrounding_box bxC1w bxC1w),
    rfl, ?_⟩
  refine heq (fun _ => 0) (.fin 0) (.fin 0) [oC1w] _ rayC1w candC1w
    (.fin 0) (.fin 100) rfl (fun o => by simp [BvhT.leaves])
    ⟨⟨0, rfl⟩, ⟨0, rfl⟩, ⟨0, rfl⟩⟩ ⟨⟨1, rfl⟩, ⟨0, rfl⟩, ⟨0, rfl⟩⟩
    (by decide) (by decide) ?_ ?_ ?_
  · intro o ho
    have he : o = oC1w := List.mem_singleton.mp ho
    subst he
    constructor
    · intro hcn
      cases hcn
    · intro c hc
      injection hc with he2
      subst he2
      exact ⟨by decide, fun u => rfl⟩
  · intro o ho bx hbx
    have he : o = oC1w := List.mem_singleton.mp ho
    subst he
    injection hbx with he2
    subst he2
    refine ⟨⟨by decide, by decide, by decide, by decide, by decide, by decide⟩, ?_⟩
    intro c hc u hu
    injection hc with he3
    subst he3
    exact bxC1w_hit hu
  · intro o ho o' ho' c c' hc hc' ht
    injection hc with h1
    injection hc' with h2
    rw [← h1, ← h2]

/-- The axis-aligned unit rectangle in the plane `z = 0` with its real
`rect::XY` hit test and bounding box (flat-axis padding `±0.0001`). -/
def oRectC1 : Object :=
  { hit := rectXYHit (diffuseLightMat Vec3.ones) (.fin (-1)) (.fin 1)
      (.fin (-1)) (.fin 1) (.fin 0),
    boundingBox := fun _ _ =>
      some ⟨⟨.fin (-1), .fin (-1), .fin (-(1/10000))⟩,
        ⟨.fin 1, .fin 1, .fin (1/10000)⟩⟩ }

/-- A ray two units in front of the rectangle, aimed straight at it. -/
def rayC1cex : Ray :=
  ⟨⟨.fin 0, .fin 0, .fin (-2)⟩, ⟨.fin 0, .fin 0, .fin 1⟩, .fin 0⟩

unseal Rat.add Rat.mul Rat.sub Rat.inv in
/-- C1 counterexample: over the degenerate (but ordered, non-NaN)
query interval `[2, 2]`, the exhaustive test reports the rectangle hit
at `t = 2` while the built BVH reports no hit — the slab test narrows
the interval to `[2, 2]` and its `t_max <= t_min` early exit rejects
it, so traversal and exhaustive testing disagree. -/
theorem C1_cex :
    ∃ tree, from_list (fun _ => 0) (.fin 0) (.fin 0) [oRectC1] = .ok tree ∧
      tree.hit rayC1cex (.fin 2) (.fin 2) = none ∧
      (hittableListHit [oRectC1] rayC1cex (.fin 2) (.fin 2)).map HitRec.t =
        some (.fin 2) ∧
      FP.le (.fin 2) (.fin 2) = true := by
  refine ⟨_, rfl, rfl, by decide, by decide⟩

end RTW
